import Mathlib

/-!
Ownership of character buffers in the dotenv-cpp memory training programs.

A shallow embedding of the buffer-owning classes of
`dotenv-cpp-memory-training` over an explicit heap, and the ownership
properties of the fixed programs.

Conventions of the embedding
* An address is the index of a cell in `Heap.cells`; `new[]` always returns a
  fresh address, so an address is never handed out twice.
* A pointer is `Option Nat`; `none` is `nullptr`.
* Console output (`std::cout`) is not modelled.
-/

namespace DotenvMem

deriving instance DecidableEq for Except

/-! ## Characters and C strings -/

/-- The NUL character that terminates a C string. -/
def NUL : Char := Char.ofNat 0

/-- The newline character, the delimiter used by `getline`. -/
def NL : Char := Char.ofNat 10

/-- The function `std::strlen` on the bytes found at a pointer: the number of
characters before the first NUL, or `none` when the storage holds no NUL (the
scan would leave the array). -/
def strlen : List Char → Option Nat
  | [] => none
  | c :: cs => if c = NUL then some 0 else (strlen cs).map (· + 1)

/-! ## The heap -/

/-- What can go wrong at run time (undefined behaviour in the C++ program). -/
inductive Fault where
  | nullDeref
  | wildPointer
  | useAfterFree
  | useAfterReturn
  | doubleFree
  | invalidFree
  | invalidWrite
  | unterminated
  | overflow
  | outOfBounds
  | deadObject
  deriving DecidableEq, Repr

/-- One block of storage. `caller` is storage that was not obtained from
`new[]` (string literals, arrays of the caller); `live` is an array obtained
from `new[]` and not yet released; `freed` is an array released by
`delete[]`. -/
inductive Cell where
  | caller (bytes : List Char)
  | live (bytes : List Char)
  | freed
  deriving DecidableEq, Repr

/-- A pointer to the first character of a block; `none` is `nullptr`. -/
abbrev Ptr := Option Nat

/-- The heap: the blocks by address, and the addresses given to `delete[]`
so far, in order. -/
structure Heap where
  cells : List Cell
  freeLog : List Nat
  deriving DecidableEq, Repr

/-- The expression `new char[n]` (and `std::make_unique<char[]>(n)`): a fresh
array of `n` characters at an address never used before. The array is filled
with NUL, as `make_unique` does; plain `new char[n]` leaves the characters
indeterminate, and every program embedded here writes such an array before it
reads it. Allocation failure is not modelled. -/
def Heap.newArray (h : Heap) (n : Nat) : Heap × Nat :=
  ({ h with cells := h.cells ++ [Cell.live (List.replicate n NUL)] }, h.cells.length)

/-- The statement `delete[] p`. Deleting `nullptr` does nothing. -/
def Heap.deleteArray (h : Heap) : Ptr → Except Fault Heap
  | none => .ok h
  | some a =>
    match h.cells[a]? with
    | some (Cell.live _) =>
      .ok { cells := h.cells.set a Cell.freed, freeLog := h.freeLog ++ [a] }
    | some Cell.freed => .error Fault.doubleFree
    | some (Cell.caller _) => .error Fault.invalidFree
    | none => .error Fault.wildPointer

/-- Reading the characters stored at a pointer. -/
def Heap.read (h : Heap) : Ptr → Except Fault (List Char)
  | none => .error Fault.nullDeref
  | some a =>
    match h.cells[a]? with
    | some (Cell.live b) => .ok b
    | some (Cell.caller b) => .ok b
    | some Cell.freed => .error Fault.useAfterFree
    | none => .error Fault.wildPointer

/-- Overwriting the characters of a live array. -/
def Heap.write (h : Heap) (p : Ptr) (bytes : List Char) : Except Fault Heap :=
  match p with
  | none => .error Fault.nullDeref
  | some a =>
    match h.cells[a]? with
    | some (Cell.live _) => .ok { h with cells := h.cells.set a (Cell.live bytes) }
    | some (Cell.caller _) => .error Fault.invalidWrite
    | some Cell.freed => .error Fault.useAfterFree
    | none => .error Fault.wildPointer

/-- The call `std::strlen(p)`. -/
def Heap.strlen (h : Heap) (p : Ptr) : Except Fault Nat :=
  match h.read p with
  | .error e => .error e
  | .ok b =>
    match DotenvMem.strlen b with
    | some n => .ok n
    | none => .error Fault.unterminated

/-- The call `std::strcpy(dst, src)`: copies the characters of `src` up to and
including the NUL over the start of `dst`. -/
def Heap.strcpy (h : Heap) (dst src : Ptr) : Except Fault Heap :=
  match h.read src with
  | .error e => .error e
  | .ok s =>
    match DotenvMem.strlen s with
    | none => .error Fault.unterminated
    | some n =>
      match h.read dst with
      | .error e => .error e
      | .ok d =>
        if n + 1 ≤ d.length then h.write dst (s.take (n + 1) ++ d.drop (n + 1))
        else .error Fault.overflow

/-- The C string stored at a pointer: the characters before the first NUL. -/
def Heap.cstr (h : Heap) (p : Ptr) : Except Fault (List Char) :=
  match h.read p with
  | .error e => .error e
  | .ok b =>
    match DotenvMem.strlen b with
    | some n => .ok (b.take n)
    | none => .error Fault.unterminated

/-- The heap after a fresh live array holding `c` has been added. -/
def Heap.push (h : Heap) (c : List Char) : Heap :=
  { h with cells := h.cells ++ [Cell.live c] }

/-- The number of arrays obtained from `new[]` and not yet released. -/
def Heap.liveCount (h : Heap) : Nat :=
  h.cells.countP (fun c => match c with | Cell.live _ => true | _ => false)

/-! ## Problem 2 fixed, Solution 1: the Rule-of-Three `ConfigManager` -/

namespace V2Fixed

/-- The class `ConfigManager` of `config_manager_v2_fixed.cpp`, Solution 1. -/
structure ConfigManager where
  env_filename_ : Ptr
  deriving DecidableEq, Repr

/-- The program state: the heap and the objects. The index of an object is its
identity (its address, as compared by `this != &other`); an entry is `none`
once the object has been destroyed. -/
structure State where
  heap : Heap
  objs : List (Option ConfigManager)
  deriving DecidableEq, Repr

/-- The object with identity `x`, when it is live. -/
def State.obj (s : State) (x : Nat) : Except Fault ConfigManager :=
  match s.objs[x]? with
  | some (some o) => .ok o
  | _ => .error Fault.deadObject

/-- The constructor `ConfigManager(const char* env_file)`:
`env_filename_ = new char[strlen(env_file) + 1]; strcpy(env_filename_, env_file)`. -/
def ConfigManager.construct (h : Heap) (env_file : Ptr) :
    Except Fault (Heap × ConfigManager) :=
  match h.strlen env_file with
  | .error e => .error e
  | .ok n =>
    match (h.newArray (n + 1)).1.strcpy (some (h.newArray (n + 1)).2) env_file with
    | .error e => .error e
    | .ok h2 => .ok (h2, { env_filename_ := some (h.newArray (n + 1)).2 })

/-- The copy constructor `ConfigManager(const ConfigManager& other)`:
`env_filename_ = new char[strlen(other.env_filename_) + 1];
strcpy(env_filename_, other.env_filename_)`. -/
def ConfigManager.copyConstruct (h : Heap) (other : ConfigManager) :
    Except Fault (Heap × ConfigManager) :=
  match h.strlen other.env_filename_ with
  | .error e => .error e
  | .ok n =>
    match (h.newArray (n + 1)).1.strcpy (some (h.newArray (n + 1)).2) other.env_filename_ with
    | .error e => .error e
    | .ok h2 => .ok (h2, { env_filename_ := some (h.newArray (n + 1)).2 })

/-- The statement `ConfigManager x(env_file);`: a new object is constructed. -/
def State.construct (s : State) (env_file : Ptr) : Except Fault State :=
  match ConfigManager.construct s.heap env_file with
  | .error e => .error e
  | .ok (h, o) => .ok { heap := h, objs := s.objs ++ [some o] }

/-- The statement `ConfigManager x = other;`: a new object is copy-constructed
from the live object `other`. -/
def State.copyConstruct (s : State) (other : Nat) : Except Fault State :=
  match s.obj other with
  | .error e => .error e
  | .ok o =>
    match ConfigManager.copyConstruct s.heap o with
    | .error e => .error e
    | .ok (h, n) => .ok { heap := h, objs := s.objs ++ [some n] }

/-- The copy assignment `this = other` (`operator=`): when the two objects
differ, `delete[] env_filename_`, then
`env_filename_ = new char[strlen(other.env_filename_) + 1]` and `strcpy`;
when they are the same object, nothing. -/
def State.copyAssign (s : State) (this other : Nat) : Except Fault State :=
  match s.obj this with
  | .error e => .error e
  | .ok t =>
    match s.obj other with
    | .error e => .error e
    | .ok o =>
      if this ≠ other then
        match s.heap.deleteArray t.env_filename_ with
        | .error e => .error e
        | .ok h1 =>
          match h1.strlen o.env_filename_ with
          | .error e => .error e
          | .ok n =>
            match (h1.newArray (n + 1)).1.strcpy (some (h1.newArray (n + 1)).2)
                o.env_filename_ with
            | .error e => .error e
            | .ok h3 =>
              .ok { heap := h3,
                    objs := s.objs.set this
                      (some { env_filename_ := some (h1.newArray (n + 1)).2 }) }
      else .ok s

/-- The destructor `~ConfigManager()`, run when the lifetime of the object
ends: `if (env_filename_ != nullptr) { delete[] env_filename_;
env_filename_ = nullptr; }`. -/
def State.destroy (s : State) (this : Nat) : Except Fault State :=
  match s.obj this with
  | .error e => .error e
  | .ok t =>
    if t.env_filename_ ≠ none then
      match s.heap.deleteArray t.env_filename_ with
      | .error e => .error e
      | .ok h1 => .ok { heap := h1, objs := s.objs.set this none }
    else .ok { s with objs := s.objs.set this none }

/-- The stored filename of the live object `x`: the C string at
`env_filename_`. -/
def State.view (s : State) (x : Nat) : Except Fault (List Char) :=
  match s.obj x with
  | .error e => .error e
  | .ok o => s.heap.cstr o.env_filename_

/-- The operations of a client program on `ConfigManager` objects. -/
inductive Op where
  | construct (env_file : Ptr)
  | copyConstruct (other : Nat)
  | copyAssign (this other : Nat)
  | destroy (this : Nat)
  deriving DecidableEq, Repr

/-- One operation. -/
def step (s : State) : Op → Except Fault State
  | Op.construct env_file => s.construct env_file
  | Op.copyConstruct other => s.copyConstruct other
  | Op.copyAssign this other => s.copyAssign this other
  | Op.destroy this => s.destroy this

/-- A sequence of operations, stopped by the first fault. -/
def run (s : State) : List Op → Except Fault State
  | [] => .ok s
  | op :: ops =>
    match step s op with
    | .error e => .error e
    | .ok s1 => run s1 ops

/-- The state of a program that has created no object yet: the storage holds
only the caller's strings. -/
def init (strings : List (List Char)) : State :=
  { heap := { cells := strings.map Cell.caller, freeLog := [] }, objs := [] }

/-- Whether the object `x` is live. -/
def State.isLive (s : State) (x : Nat) : Bool :=
  match s.objs[x]? with
  | some (some _) => true
  | _ => false

/-- Whether an operation is one a C++ program can perform in state `s`: the
objects it names are live, and the source of a construction is a readable
NUL-terminated string. -/
def opOk (s : State) : Op → Bool
  | Op.construct env_file =>
    match s.heap.strlen env_file with
    | .ok _ => true
    | .error _ => false
  | Op.copyConstruct other => s.isLive other
  | Op.copyAssign this other => s.isLive this && s.isLive other
  | Op.destroy this => s.isLive this

/-- Whether every operation of a sequence is one the program can perform in
the state it is reached in. A step that faults ends the check: whether a
well-formed step can fault is what the theorems settle. -/
def validOps (s : State) : List Op → Bool
  | [] => true
  | op :: ops =>
    opOk s op &&
      (match step s op with
       | .ok s1 => validOps s1 ops
       | .error _ => true)

/-- A C string literal as stored: its characters followed by NUL. -/
def lit (s : String) : List Char := s.toList ++ [NUL]

/-- The caller's strings of the scenario of the specification. -/
def demoStrings : List (List Char) := [lit "basic.env", lit "complex.env"]

/-- The scenario of the specification: `a` is constructed from "basic.env",
`b` is copied from `a`, then `b` is assigned a temporary constructed from
"complex.env", and the temporary is destroyed. -/
def demoOps : List Op :=
  [Op.construct (some 0), Op.copyConstruct 0, Op.construct (some 1),
    Op.copyAssign 1 2, Op.destroy 2]

/-- The state after `ConfigManager a("basic.env")` in the scenario. -/
def demoState : State :=
  { heap := { cells := [Cell.caller (lit "basic.env"), Cell.caller (lit "complex.env"),
                        Cell.live (lit "basic.env")],
              freeLog := [] },
    objs := [some { env_filename_ := some 2 }] }

/-- The state after `ConfigManager b = a` in the scenario. -/
def demoState2 : State :=
  { heap := { cells := [Cell.caller (lit "basic.env"), Cell.caller (lit "complex.env"),
                        Cell.live (lit "basic.env"), Cell.live (lit "basic.env")],
              freeLog := [] },
    objs := [some { env_filename_ := some 2 }, some { env_filename_ := some 3 }] }

/-- The operations that destroy every object that is live in `s`, one
`destroy` for each. -/
def destroyAll (s : State) : List Op :=
  ((List.range s.objs.length).filter (fun x => s.isLive x)).map Op.destroy

/-- The ownership invariant of the Rule-of-Three program: every live object
owns a live NUL-terminated array, no two live objects own the same array,
every live array is owned by a live object, and every address in the free
log is a released array, logged once. -/
structure OwnInv (s : State) : Prop where
  owns : ∀ (x : Nat) (o : ConfigManager), s.objs[x]? = some (some o) →
    ∃ a b n, o.env_filename_ = some a ∧ s.heap.cells[a]? = some (Cell.live b) ∧
      strlen b = some n
  sep : ∀ (x y : Nat) (o o' : ConfigManager),
    s.objs[x]? = some (some o) → s.objs[y]? = some (some o') →
    o.env_filename_ = o'.env_filename_ → x = y
  owned : ∀ (a : Nat) (b : List Char), s.heap.cells[a]? = some (Cell.live b) →
    ∃ x : Nat, s.objs[x]? = some (some (ConfigManager.mk (some a)))
  freed : ∀ a ∈ s.heap.freeLog, s.heap.cells[a]? = some Cell.freed
  nodup : s.heap.freeLog.Nodup

end V2Fixed

/-! ## Problem 4 fixed: exception safety -/

namespace V4Fixed

/-- The class `BufferGuard` of `config_manager_v4_fixed.cpp`, Solution 3. -/
structure BufferGuard where
  buffer_ : Ptr
  size_ : Nat
  deriving DecidableEq, Repr

/-- The constructor `BufferGuard(size_t size) : buffer_(new char[size]),
size_(size)`. -/
def BufferGuard.construct (h : Heap) (size : Nat) : Heap × BufferGuard :=
  ((h.newArray size).1, { buffer_ := some (h.newArray size).2, size_ := size })

/-- The destructor `~BufferGuard()`: `delete[] buffer_`. -/
def BufferGuard.destroy (h : Heap) (g : BufferGuard) : Except Fault Heap :=
  h.deleteArray g.buffer_

/-- The move constructor `BufferGuard(BufferGuard&& other)`:
`buffer_(other.buffer_), size_(other.size_)`, then `other.buffer_ = nullptr;
other.size_ = 0`. The result is the heap, the new object, and `other` after
the move. -/
def BufferGuard.moveConstruct (h : Heap) (other : BufferGuard) :
    Heap × BufferGuard × BufferGuard :=
  (h, { buffer_ := other.buffer_, size_ := other.size_ }, { buffer_ := none, size_ := 0 })

/-- The member `char* get()`. -/
def BufferGuard.get (g : BufferGuard) : Ptr := g.buffer_

/-- Whether a `BufferGuard` is in a state its members can leave it in: it
holds `nullptr`, or the address of a live array. -/
def BufferGuard.wellFormed (h : Heap) (g : BufferGuard) : Bool :=
  match g.buffer_ with
  | none => true
  | some p =>
    match h.cells[p]? with
    | some (Cell.live _) => true
    | _ => false

/-- The file system: the content of each file that can be opened; `none` for
a file that cannot. -/
abbrev FileSystem := String → Option (List Char)

/-- The characters `istream::getline(s, n)` stores before the terminator when
called on a freshly opened file: the first line, cut to `n - 1` characters. -/
def getlineChars (content : List Char) (n : Nat) : List Char :=
  (content.takeWhile (fun c => c != NL)).take (n - 1)

/-- The call `file.getline(s, n)` on a freshly opened file with the given
content: the characters of the line and a NUL are written at `s`. -/
def getline (h : Heap) (s : Ptr) (n : Nat) (content : List Char) : Except Fault Heap :=
  match h.read s with
  | .error e => .error e
  | .ok old =>
    if (getlineChars content n).length + 1 ≤ old.length then
      h.write s (getlineChars content n ++ NUL ::
        old.drop ((getlineChars content n).length + 1))
    else .error Fault.overflow

/-- The local state of `load_multiple_configs`, Solution 1: the heap, the
vector `buffers` (the addresses its `unique_ptr`s own, in push order), and the
files the function tried to open so far, each with whether it opened. The
storage the vector keeps for its own elements is not modelled. -/
structure LoadState where
  heap : Heap
  buffers : List Nat
  opened : List (String × Bool)
  deriving DecidableEq, Repr

/-- The loop `for (int i = 0; i < count; ++i)` of Solution 1, with `k`
iterations left. The result is the state in which the loop is left and the
message of the `runtime_error` thrown, if one is. -/
def loadLoop (fs : FileSystem) (files : List String) :
    Nat → Nat → LoadState → Except Fault (LoadState × Option String)
  | 0, _, st => .ok (st, none)
  | k + 1, i, st =>
    match files[i]? with
    | none => .error Fault.outOfBounds
    | some name =>
      match fs name with
      | none =>
        .ok ({ heap := (st.heap.newArray 1024).1,
               buffers := st.buffers ++ [(st.heap.newArray 1024).2],
               opened := st.opened ++ [(name, false)] },
             some ("Cannot open file: " ++ name))
      | some content =>
        match getline (st.heap.newArray 1024).1
            (st.buffers ++ [(st.heap.newArray 1024).2]).getLast? 1024 content with
        | .error e => .error e
        | .ok h2 =>
          loadLoop fs files k (i + 1)
            { heap := h2,
              buffers := st.buffers ++ [(st.heap.newArray 1024).2],
              opened := st.opened ++ [(name, true)] }

/-- The destructor of `std::vector<std::unique_ptr<char[]>>`: every element
releases the array it owns, here from the first element to the last. -/
def destroyBuffers (h : Heap) : List Nat → Except Fault Heap
  | [] => .ok h
  | p :: ps =>
    match h.deleteArray (some p) with
    | .error e => .error e
    | .ok h1 => destroyBuffers h1 ps

/-- What the caller of `load_multiple_configs` observes: the message of the
exception that left the function (`none` on a normal return), the heap once
control is back in the caller, the files the function tried to open, and the
state in which the loop was left. -/
structure LoadOutcome where
  thrown : Option String
  heap : Heap
  opened : List (String × Bool)
  atLoopExit : LoadState
  deriving DecidableEq, Repr

/-- The member `load_multiple_configs(const char** files, int count)` of
Solution 1. The array `files` is a list of names, and reading `files[i]`
outside of it is a fault; a `count` that is not positive runs no iteration.
The vector `buffers` is destroyed when the function is left, by a normal
return or by the exception. -/
def load_multiple_configs (fs : FileSystem) (h : Heap) (files : List String) (count : Int) :
    Except Fault LoadOutcome :=
  match loadLoop fs files count.toNat 0 { heap := h, buffers := [], opened := [] } with
  | .error e => .error e
  | .ok (st, thrown) =>
    match destroyBuffers st.heap st.buffers with
    | .error e => .error e
    | .ok h1 => .ok { thrown := thrown, heap := h1, opened := st.opened, atLoopExit := st }

/-- The local state of `load_multiple_configs`, Solution 2: the vector
`buffers` of `std::string` and the files the function tried to open. -/
structure LoadState2 where
  buffers : List (List Char)
  opened : List (String × Bool)
  deriving DecidableEq, Repr

/-- The call `std::getline(file, content)` on a freshly opened file: the
first line. -/
def stdGetline (content : List Char) : List Char :=
  content.takeWhile (fun c => c != NL)

/-- The loop of Solution 2, with `k` iterations left. -/
def loadLoop2 (fs : FileSystem) (files : List String) :
    Nat → Nat → LoadState2 → Except Fault (LoadState2 × Option String)
  | 0, _, st => .ok (st, none)
  | k + 1, i, st =>
    match files[i]? with
    | none => .error Fault.outOfBounds
    | some name =>
      match fs name with
      | none =>
        .ok ({ st with opened := st.opened ++ [(name, false)] },
             some ("Cannot open file: " ++ name))
      | some content =>
        loadLoop2 fs files k (i + 1)
          { buffers := st.buffers ++ [stdGetline content],
            opened := st.opened ++ [(name, true)] }

/-- The member `load_multiple_configs(const char** files, int count)` of
Solution 2: the message of the exception, if any, and the state in which the
loop was left. -/
def load_multiple_configs2 (fs : FileSystem) (files : List String) (count : Int) :
    Except Fault (LoadState2 × Option String) :=
  loadLoop2 fs files count.toNat 0 { buffers := [], opened := [] }

/-- The array of 1024 characters after `getline` has stored a line read from
`content` in a zero-filled array. -/
def entryBuf (content : List Char) : List Char :=
  getlineChars content 1024 ++ NUL ::
    List.replicate (1024 - ((getlineChars content 1024).length + 1)) NUL

/-- The loop state after the files `pre`, all of which open, have been
processed from the state `st`. -/
def loaded (fs : FileSystem) (st : LoadState) (pre : List String) : LoadState :=
  { heap := { cells := st.heap.cells ++
                pre.map (fun f => Cell.live (entryBuf ((fs f).getD []))),
              freeLog := st.heap.freeLog },
    buffers := st.buffers ++ List.range' st.heap.cells.length pre.length,
    opened := st.opened ++ pre.map (fun f => (f, true)) }

/-- The file system of the example of `main`: two files exist. -/
def demoFs : FileSystem := fun f =>
  if f = "basic.env" then some ("DB_HOST=localhost".toList ++ [NL] ++ "DB_PORT=5432".toList)
  else if f = "complex.env" then some ("APP_NAME=demo".toList ++ [NL])
  else none

/-- The files of the example of `main`: the second one does not exist. -/
def demoFiles : List String := ["basic.env", "nonexistent.env", "complex.env"]

/-- A heap on which nothing has been allocated. -/
def emptyHeap : Heap := { cells := [], freeLog := [] }

/-- The first line of a file: the characters before its first newline. -/
def firstLine (content : List Char) : List Char :=
  content.takeWhile (fun c => c != NL)

/-- The loop state of Solution 2 when the file `f` fails to open in the state
`st`. -/
def failedAt2 (st : LoadState2) (f : String) : LoadState2 :=
  { st with opened := st.opened ++ [(f, false)] }

/-- The loop state of Solution 2 after the files `pre`, all of which open,
have been processed from the state `st`. -/
def loaded2 (fs : FileSystem) (st : LoadState2) (pre : List String) : LoadState2 :=
  { buffers := st.buffers ++ pre.map (fun f => stdGetline ((fs f).getD [])),
    opened := st.opened ++ pre.map (fun f => (f, true)) }

/-- The loop state when the file `f` fails to open in the state `st`: its
array has been allocated and pushed already. -/
def failedAt (st : LoadState) (f : String) : LoadState :=
  { heap := (st.heap.newArray 1024).1,
    buffers := st.buffers ++ [(st.heap.newArray 1024).2],
    opened := st.opened ++ [(f, false)] }

/-- The entries Solution 1 has accumulated in the loop state `st`: what is
read as a C string at each address of the vector, in order, the way the
program prints `buffers.back().get()`. -/
def entries1 (st : LoadState) : List (Except Fault (List Char)) :=
  st.buffers.map (fun p => st.heap.cstr (some p))

/-- The entries Solution 2 has accumulated in the loop state `st`: the
strings of the vector, in order. -/
def entries2 (st : LoadState2) : List (Except Fault (List Char)) :=
  st.buffers.map Except.ok

/-- A file system with one file, whose only line holds a NUL character. -/
def nulFs : FileSystem := fun f =>
  if f = "nul.env" then some ("ab".toList ++ [NUL] ++ "cd".toList) else none

/-- The agreement of the two solutions as the specification words it, at one
input: when the first line of every file is shorter than 1024 characters,
both solutions return, by the same exception message or both normally, and
the entries they have accumulated are the same, in the same order. -/
def AgreeAsStated (fs : FileSystem) (h : Heap) (files : List String) : Prop :=
  (∀ (f : String) (c : List Char), f ∈ files → fs f = some c →
    (firstLine c).length < 1024) →
  ∃ out st2 thrown2,
    load_multiple_configs fs h files (files.length : Nat) = .ok out ∧
    load_multiple_configs2 fs files (files.length : Nat) = .ok (st2, thrown2) ∧
    out.thrown = thrown2 ∧
    entries1 out.atLoopExit = entries2 st2

end V4Fixed

/-! ## The process environment -/

/-- The process environment as `std::getenv` sees it: the characters of the
value of a variable (a C string, without its terminator), or `none` when the
variable is not set. -/
abbrev Env := String → Option (List Char)

/-! ## Problem 1: the memory leak -/

namespace V1Buggy

/-- The class `ConfigManager` of `config_manager.h`, as implemented by
`config_manager_v1.cpp`. -/
structure ConfigManager where
  env_filename_ : Ptr
  deriving DecidableEq, Repr

/-- The constructor `ConfigManager(const char* env_file)`:
`env_filename_ = new char[strlen(env_file) + 1]; strcpy(env_filename_, env_file)`. -/
def ConfigManager.construct (h : Heap) (env_file : Ptr) :
    Except Fault (Heap × ConfigManager) :=
  match h.strlen env_file with
  | .error e => .error e
  | .ok n =>
    match (h.newArray (n + 1)).1.strcpy (some (h.newArray (n + 1)).2) env_file with
    | .error e => .error e
    | .ok h2 => .ok (h2, { env_filename_ := some (h.newArray (n + 1)).2 })

/-- The destructor `~ConfigManager()` of the buggy version: its body only
prints, so the heap is left as it is. -/
def ConfigManager.destroy (h : Heap) (_this : ConfigManager) : Except Fault Heap :=
  .ok h

end V1Buggy

namespace V1Fixed

/-- The class `ConfigManager` of `config_manager_v1_fixed.cpp`, Solution 1. -/
structure ConfigManager where
  env_filename_ : Ptr
  deriving DecidableEq, Repr

/-- The constructor `ConfigManager(const char* env_file)`:
`env_filename_ = new char[strlen(env_file) + 1]; strcpy(env_filename_, env_file)`. -/
def ConfigManager.construct (h : Heap) (env_file : Ptr) :
    Except Fault (Heap × ConfigManager) :=
  match h.strlen env_file with
  | .error e => .error e
  | .ok n =>
    match (h.newArray (n + 1)).1.strcpy (some (h.newArray (n + 1)).2) env_file with
    | .error e => .error e
    | .ok h2 => .ok (h2, { env_filename_ := some (h.newArray (n + 1)).2 })

/-- The destructor `~ConfigManager()`: `if (env_filename_ != nullptr)
{ delete[] env_filename_; env_filename_ = nullptr; }`. The result is the heap
and the object as the destructor leaves it. -/
def ConfigManager.destroy (h : Heap) (this : ConfigManager) :
    Except Fault (Heap × ConfigManager) :=
  if this.env_filename_ ≠ none then
    match h.deleteArray this.env_filename_ with
    | .error e => .error e
    | .ok h1 => .ok (h1, { env_filename_ := none })
  else .ok (h, this)

/-- The member `load_config()`: `dotenv::init(env_filename_)`. The library
function `dotenv::init` is not part of the sources; it is the parameter
`dotenvInit`, which receives the file name read at `env_filename_` and the
environment and gives the environment it leaves. It is given no access to the
heap. -/
def ConfigManager.load_config (dotenvInit : List Char → Env → Env) (h : Heap) (env : Env)
    (this : ConfigManager) : Except Fault Env :=
  match h.cstr this.env_filename_ with
  | .error e => .error e
  | .ok name => .ok (dotenvInit name env)

/-- The member `get_value(const char* key)`: `return std::getenv(key)`. -/
def ConfigManager.get_value (env : Env) (_this : ConfigManager) (key : String) :
    Option (List Char) :=
  env key

/-- A call of a member function by the client between construction and
destruction. -/
inductive Call where
  | load_config
  | get_value (key : String)
  deriving DecidableEq, Repr

/-- A sequence of member calls on the object `this`; the result is the heap
and the environment they leave, and the values `get_value` returned. -/
def runCalls (dotenvInit : List Char → Env → Env) (h : Heap) (this : ConfigManager) :
    Env → List Call → Except Fault (Heap × Env × List (Option (List Char)))
  | env, [] => .ok (h, env, [])
  | env, Call.load_config :: cs =>
    match ConfigManager.load_config dotenvInit h env this with
    | .error e => .error e
    | .ok env1 => runCalls dotenvInit h this env1 cs
  | env, Call.get_value key :: cs =>
    match runCalls dotenvInit h this env cs with
    | .error e => .error e
    | .ok (h1, env1, vs) => .ok (h1, env1, ConfigManager.get_value env this key :: vs)

end V1Fixed

/-! ## Problem 2: the double free -/

namespace V2Buggy

/-- The class `ConfigManager` of `config_manager.h`, as implemented by
`config_manager_v2.cpp`. -/
structure ConfigManager where
  env_filename_ : Ptr
  deriving DecidableEq, Repr

/-- The constructor `ConfigManager(const char* env_file)`:
`env_filename_ = new char[strlen(env_file) + 1]; strcpy(env_filename_, env_file)`. -/
def ConfigManager.construct (h : Heap) (env_file : Ptr) :
    Except Fault (Heap × ConfigManager) :=
  match h.strlen env_file with
  | .error e => .error e
  | .ok n =>
    match (h.newArray (n + 1)).1.strcpy (some (h.newArray (n + 1)).2) env_file with
    | .error e => .error e
    | .ok h2 => .ok (h2, { env_filename_ := some (h.newArray (n + 1)).2 })

/-- The copy constructor the compiler generates, since the class declares
none: the member `env_filename_` is copied, so the pointer is. -/
def ConfigManager.copyConstruct (other : ConfigManager) : ConfigManager :=
  { env_filename_ := other.env_filename_ }

/-- The destructor `~ConfigManager()`: `if (env_filename_ != nullptr)
{ delete[] env_filename_; env_filename_ = nullptr; }`. The result is the heap
and the object as the destructor leaves it. -/
def ConfigManager.destroy (h : Heap) (this : ConfigManager) :
    Except Fault (Heap × ConfigManager) :=
  if this.env_filename_ ≠ none then
    match h.deleteArray this.env_filename_ with
    | .error e => .error e
    | .ok h1 => .ok (h1, { env_filename_ := none })
  else .ok (h, this)

/-- The block of `main`: `ConfigManager config1(env_file);
ConfigManager config2 = config1;` and the end of the block, where `config2`
is destroyed first and `config1` second. -/
def mainBlock (h : Heap) (env_file : Ptr) : Except Fault Heap :=
  match ConfigManager.construct h env_file with
  | .error e => .error e
  | .ok (h1, config1) =>
    match ConfigManager.destroy h1 (ConfigManager.copyConstruct config1) with
    | .error e => .error e
    | .ok (h2, _) =>
      match ConfigManager.destroy h2 config1 with
      | .error e => .error e
      | .ok (h3, _) => .ok h3

end V2Buggy

/-! ## Problem 4: the exception-unsafe cleanup -/

namespace V4Buggy

/-- The loop `for (int i = 0; i < count; ++i)` of the buggy
`load_multiple_configs`, with `k` iterations left:
`buffers[i] = new char[1024]`, then the file is opened and its first line read
into `buffers[i]`. The field `buffers` of the state holds the elements of the
pointer array assigned so far. -/
def loadLoop (fs : V4Fixed.FileSystem) (files : List String) :
    Nat → Nat → V4Fixed.LoadState → Except Fault (V4Fixed.LoadState × Option String)
  | 0, _, st => .ok (st, none)
  | k + 1, i, st =>
    match files[i]? with
    | none => .error Fault.outOfBounds
    | some name =>
      match fs name with
      | none =>
        .ok ({ heap := (st.heap.newArray 1024).1,
               buffers := st.buffers ++ [(st.heap.newArray 1024).2],
               opened := st.opened ++ [(name, false)] },
             some ("Cannot open file: " ++ name))
      | some content =>
        match V4Fixed.getline (st.heap.newArray 1024).1
            (st.buffers ++ [(st.heap.newArray 1024).2])[i]? 1024 content with
        | .error e => .error e
        | .ok h2 =>
          loadLoop fs files k (i + 1)
            { heap := h2,
              buffers := st.buffers ++ [(st.heap.newArray 1024).2],
              opened := st.opened ++ [(name, true)] }

/-- The cleanup loop `for (int i = 0; i < count; ++i) delete[] buffers[i];`,
with `k` iterations left. -/
def cleanupLoop (buffers : List Nat) : Nat → Nat → Heap → Except Fault Heap
  | 0, _, h => .ok h
  | k + 1, i, h =>
    match buffers[i]? with
    | none => .error Fault.outOfBounds
    | some p =>
      match h.deleteArray (some p) with
      | .error e => .error e
      | .ok h1 => cleanupLoop buffers k (i + 1) h1

/-- The member `load_multiple_configs(const char** files, int count)` of
`config_manager_v4.cpp`. The pointer array `new char*[count]` is an
allocation of the heap with one placeholder character per element; its
elements are kept in the loop state. When the loop throws, control leaves the
function at once and the cleanup code is not run. A negative `count`, for
which `new char*[count]` itself fails, is outside the model. -/
def load_multiple_configs (fs : V4Fixed.FileSystem) (h : Heap) (files : List String)
    (count : Int) : Except Fault V4Fixed.LoadOutcome :=
  match loadLoop fs files count.toNat 0
      { heap := (h.newArray count.toNat).1, buffers := [], opened := [] } with
  | .error e => .error e
  | .ok (st, some msg) =>
    .ok { thrown := some msg, heap := st.heap, opened := st.opened, atLoopExit := st }
  | .ok (st, none) =>
    match cleanupLoop st.buffers count.toNat 0 st.heap with
    | .error e => .error e
    | .ok h1 =>
      match h1.deleteArray (some (h.newArray count.toNat).2) with
      | .error e => .error e
      | .ok h2 =>
        .ok { thrown := none, heap := h2, opened := st.opened, atLoopExit := st }

end V4Buggy

/-! ## Problem 3: the pointer to a local array -/

namespace V3

/-- The class `ConfigManager` of `config_manager_v3.cpp` and of
`config_manager_v3_fixed.cpp`: the file name is a `std::string`. -/
structure ConfigManager where
  env_filename_ : List Char
  deriving DecidableEq, Repr

/-- What the functions of Problem 3 can see: the environment, the object, and
the stack of local arrays that are in scope, innermost last. The address of a
local array is its position in the stack; once the scope of an array has
ended its address is beyond the top of the stack, until a later call uses it
again. -/
structure Machine where
  env : Env
  config : ConfigManager
  stack : List (List Char)

/-- A local array `char a[n]` when it comes into scope: `n` characters whose
values are whatever the stack held (`junk`). -/
def localArray (n : Nat) (junk : List Char) : List Char :=
  (junk ++ List.replicate n NUL).take n

/-- Reading the array a pointer to a local array refers to. -/
def readLocal (stack : List (List Char)) (p : Nat) : Except Fault (List Char) :=
  match stack[p]? with
  | some b => .ok b
  | none => .error Fault.useAfterReturn

/-- The text `"postgresql://%s:%s/mydb"` formats for `host` and `port`. -/
def connText (host port : List Char) : List Char :=
  "postgresql://".toList ++ host ++ ":".toList ++ port ++ "/mydb".toList

/-- The text of the literal `"postgresql://localhost:5432/mydb"`. -/
def fallbackText : List Char := "postgresql://localhost:5432/mydb".toList

/-- The call `std::snprintf(buf, n, ...)` for an output `text`: at most
`n - 1` characters of the text and a NUL are written at the start of `buf`. -/
def snprintf (buf : List Char) (n : Nat) (text : List Char) : Except Fault (List Char) :=
  if n = 0 then .ok buf
  else if (text.take (n - 1)).length + 1 ≤ buf.length then
    .ok (text.take (n - 1) ++ NUL :: buf.drop ((text.take (n - 1)).length + 1))
  else .error Fault.overflow

/-- The call `std::strcpy(dst, src)` on a local array `dst`. -/
def strcpyArray (dst src : List Char) : Except Fault (List Char) :=
  match strlen src with
  | none => .error Fault.unterminated
  | some n =>
    if n + 1 ≤ dst.length then .ok (src.take (n + 1) ++ dst.drop (n + 1))
    else .error Fault.overflow

/-- The constructor `std::string(const char*)`: the characters before the
first NUL. -/
def stdString (buf : List Char) : Except Fault (List Char) :=
  match strlen buf with
  | some n => .ok (buf.take n)
  | none => .error Fault.unterminated

/-- The statements that fill the local `buffer`, the same in both versions:
`host = getenv("DB_HOST"); port = getenv("DB_PORT"); if (host && port)
snprintf(buffer, sizeof(buffer), "postgresql://%s:%s/mydb", host, port); else
strcpy(buffer, "postgresql://localhost:5432/mydb");`. -/
def fillBuffer (env : Env) (buffer : List Char) : Except Fault (List Char) :=
  match env "DB_HOST", env "DB_PORT" with
  | some host, some port => snprintf buffer buffer.length (connText host port)
  | _, _ => strcpyArray buffer (fallbackText ++ [NUL])

/-- The text the connection string is cut from: the formatted text when both
variables are set, the text of the literal otherwise. -/
def untruncatedText (env : Env) : List Char :=
  match env "DB_HOST", env "DB_PORT" with
  | some host, some port => connText host port
  | _, _ => fallbackText

/-- An environment in which both variables are set. -/
def demoEnv : Env := fun k =>
  if k = "DB_HOST" then some "db.example.com".toList
  else if k = "DB_PORT" then some "6543".toList
  else none

/-- A machine with the environment `demoEnv` and an empty stack. -/
def demoMachine : Machine :=
  { env := demoEnv, config := { env_filename_ := "complex.env".toList }, stack := [] }

/-- A machine with an empty environment and an empty stack. -/
def bareMachine : Machine :=
  { env := fun _ => none, config := { env_filename_ := "complex.env".toList }, stack := [] }

/-- The function `some_other_function()`: `char dummy[100];` comes into
scope, holding `junk`, every element is set to `X`, and the scope ends. While
it is in scope `dummy` has the address the local array of the previous call
had. -/
def some_other_function (m : Machine) (junk : List Char) : Except Fault Machine :=
  .ok { m with
        stack := ((m.stack ++ [localArray 100 junk]).set m.stack.length
          ((List.range 100).foldl (fun d i => d.set i (Char.ofNat 88))
            (localArray 100 junk))).take m.stack.length }

end V3

namespace V3Fixed

open V3

/-- The member `std::string get_formatted_connection_string()` of
`config_manager_v3_fixed.cpp`, Solution 1: `char buffer[256]` comes into
scope, is filled, `std::string(buffer)` is built from it, the scope ends, and
the string is returned by value. -/
def get_formatted_connection_string (m : Machine) (junk : List Char) :
    Except Fault (Machine × List Char) :=
  match readLocal (m.stack ++ [localArray 256 junk]) m.stack.length with
  | .error e => .error e
  | .ok buffer =>
    match fillBuffer m.env buffer with
    | .error e => .error e
    | .ok filled =>
      match readLocal ((m.stack ++ [localArray 256 junk]).set m.stack.length filled)
          m.stack.length with
      | .error e => .error e
      | .ok b =>
        match stdString b with
        | .error e => .error e
        | .ok result =>
          .ok ({ m with
                 stack := ((m.stack ++ [localArray 256 junk]).set m.stack.length
                   filled).take m.stack.length },
               result)

/-- The statements of `main` after `load_config()`:
`std::string conn_str = config.get_formatted_connection_string();`, then a
call of another function, then `conn_str` is printed. The result is the text
printed after "Connection: ". -/
def mainAfterLoad (other : Machine → Except Fault Machine) (m : Machine)
    (junk : List Char) : Except Fault (List Char) :=
  match get_formatted_connection_string m junk with
  | .error e => .error e
  | .ok (m1, conn_str) =>
    match other m1 with
    | .error e => .error e
    | .ok _ => .ok conn_str

end V3Fixed

namespace V3Buggy

open V3

/-- The member `const char* get_formatted_connection_string()` of
`config_manager_v3.cpp`: `char buffer[256]` comes into scope, is filled, the
scope ends, and the address of `buffer` is returned. -/
def get_formatted_connection_string (m : Machine) (junk : List Char) :
    Except Fault (Machine × Nat) :=
  match readLocal (m.stack ++ [localArray 256 junk]) m.stack.length with
  | .error e => .error e
  | .ok buffer =>
    match fillBuffer m.env buffer with
    | .error e => .error e
    | .ok filled =>
      .ok ({ m with
             stack := ((m.stack ++ [localArray 256 junk]).set m.stack.length
               filled).take m.stack.length },
           m.stack.length)

/-- The statements of `main` after `load_config()`:
`const char* conn_str = config.get_formatted_connection_string();`, then a
call of another function, then the C string at `conn_str` is printed. -/
def mainAfterLoad (other : Machine → Except Fault Machine) (m : Machine)
    (junk : List Char) : Except Fault (List Char) :=
  match get_formatted_connection_string m junk with
  | .error e => .error e
  | .ok (m1, conn_str) =>
    match other m1 with
    | .error e => .error e
    | .ok m2 =>
      match readLocal m2.stack conn_str with
      | .error e => .error e
      | .ok b => stdString b

end V3Buggy

/-! ## Facts about C strings and the heap -/

theorem getElem?_lt {α : Type} {l : List α} {i : Nat} {v : α} (h : l[i]? = some v) :
    i < l.length := by
  by_contra hge
  rw [List.getElem?_eq_none (Nat.le_of_not_lt hge)] at h
  exact Option.noConfusion h

theorem getElem?_concat_ne {α : Type} (l : List α) (v : α) (z : Nat) (hz : z ≠ l.length) :
    (l ++ [v])[z]? = l[z]? := by
  by_cases hlt : z < l.length
  · exact List.getElem?_append_left hlt
  · have h1 : l.length + 1 ≤ z := by omega
    rw [List.getElem?_eq_none (by simpa using h1), List.getElem?_eq_none (by omega)]

theorem strlen_lt {b : List Char} {n : Nat} (h : strlen b = some n) : n < b.length := by
  induction b generalizing n with
  | nil => simp [strlen] at h
  | cons c cs ih =>
    simp only [strlen] at h
    split at h
    · simp at h; subst h; simp
    · cases hcs : strlen cs with
      | none => simp [hcs] at h
      | some m =>
        simp [hcs] at h; subst h
        have := ih hcs
        simp; omega

theorem strlen_take_succ {b : List Char} {n : Nat} (h : strlen b = some n) :
    b.take (n + 1) = b.take n ++ [NUL] := by
  induction b generalizing n with
  | nil => simp [strlen] at h
  | cons c cs ih =>
    simp only [strlen] at h
    split at h
    · rename_i hc
      simp at h; subst h; simp [hc]
    · cases hcs : strlen cs with
      | none => simp [hcs] at h
      | some m =>
        simp [hcs] at h; subst h
        simp [ih hcs]

theorem nul_not_mem_take {b : List Char} {n : Nat} (h : strlen b = some n) :
    NUL ∉ b.take n := by
  induction b generalizing n with
  | nil => simp [strlen] at h
  | cons c cs ih =>
    simp only [strlen] at h
    split at h
    · simp at h; subst h; simp
    · rename_i hc
      cases hcs : strlen cs with
      | none => simp [hcs] at h
      | some m =>
        simp [hcs] at h; subst h
        simp only [List.take_succ_cons, List.mem_cons, not_or]
        exact ⟨fun e => hc e.symm, ih hcs⟩

theorem strlen_append_nul (s rest : List Char) (hs : NUL ∉ s) :
    strlen (s ++ NUL :: rest) = some s.length := by
  induction s with
  | nil => simp [strlen]
  | cons c cs ih =>
    simp only [List.mem_cons, not_or] at hs
    have hc : c ≠ NUL := fun e => hs.1 e.symm
    simp [strlen, hc, ih hs.2]

theorem strlen_take {b : List Char} {n : Nat} (h : strlen b = some n) :
    strlen (b.take (n + 1)) = some n := by
  have hlt := strlen_lt h
  rw [strlen_take_succ h]
  have := strlen_append_nul (b.take n) [] (nul_not_mem_take h)
  simpa [Nat.min_eq_left (Nat.le_of_lt hlt)] using this

theorem Heap.read_lt {h : Heap} {a : Nat} {b : List Char} (hr : h.read (some a) = .ok b) :
    a < h.cells.length := by
  by_contra hge
  have : h.cells[a]? = none := List.getElem?_eq_none (Nat.le_of_not_lt hge)
  simp [Heap.read, this] at hr

theorem Heap.read_push {h : Heap} {p : Ptr} {b : List Char} (c : List Char)
    (hr : h.read p = .ok b) : (h.push c).read p = .ok b := by
  cases p with
  | none => simp [Heap.read] at hr
  | some a =>
    have hlt := Heap.read_lt hr
    simpa [Heap.read, Heap.push, List.getElem?_append_left hlt] using hr

theorem Heap.dup_ok (h : Heap) (src : Ptr) (b : List Char) (n : Nat)
    (hr : h.read src = .ok b) (hn : DotenvMem.strlen b = some n) :
    h.strlen src = .ok n ∧
      (h.newArray (n + 1)).1.strcpy (some (h.newArray (n + 1)).2) src
        = .ok (h.push (b.take (n + 1))) := by
  refine ⟨by simp [Heap.strlen, hr, hn], ?_⟩
  have hr2 : (h.push (List.replicate (n + 1) NUL)).read src = .ok b := Heap.read_push _ hr
  have hlen : (b.take (n + 1)).length = n + 1 := by
    have := strlen_lt hn
    simp; omega
  have e1 : (h.newArray (n + 1)).1 = h.push (List.replicate (n + 1) NUL) := rfl
  have e2 : (h.newArray (n + 1)).2 = h.cells.length := rfl
  rw [e1, e2]
  unfold Heap.strcpy
  rw [hr2]
  simp [hn, Heap.read, Heap.write, Heap.push]

theorem Heap.dup_cstring (h : Heap) (src : Nat) (s rest : List Char) (hs : NUL ∉ s)
    (hsrc : h.read (some src) = .ok (s ++ NUL :: rest)) :
    h.strlen (some src) = .ok s.length ∧
      (h.newArray (s.length + 1)).1.strcpy (some (h.newArray (s.length + 1)).2) (some src)
        = .ok (h.push (s ++ [NUL])) := by
  have hn := strlen_append_nul s rest hs
  obtain ⟨h1, h2⟩ := Heap.dup_ok h (some src) _ _ hsrc hn
  have htake : (s ++ NUL :: rest).take (s.length + 1) = s ++ [NUL] := by
    rw [strlen_take_succ hn]
    simp
  rw [htake] at h2
  exact ⟨h1, h2⟩

theorem Heap.liveCount_push (h : Heap) (c : List Char) :
    (h.push c).liveCount = h.liveCount + 1 := by
  simp [Heap.liveCount, Heap.push, List.countP_append]

theorem Heap.cstr_push_new (h : Heap) (s : List Char) (hs : NUL ∉ s) :
    (h.push (s ++ [NUL])).cstr (some h.cells.length) = .ok s := by
  have := strlen_append_nul s [] hs
  simp [Heap.cstr, Heap.read, Heap.push, this]

theorem Heap.delete_push_new (h : Heap) (c : List Char) :
    (h.push c).deleteArray (some h.cells.length)
      = .ok { cells := h.cells ++ [Cell.freed], freeLog := h.freeLog ++ [h.cells.length] } := by
  simp [Heap.deleteArray, Heap.push]

namespace V2Fixed

theorem inv_init (strings : List (List Char)) : OwnInv (init strings) where
  owns := by intro x o h; simp [init] at h
  sep := by intro x y o o' h; simp [init] at h
  owned := by
    intro a b h
    simp only [init, List.getElem?_map] at h
    cases hs : strings[a]? with
    | none => simp [hs] at h
    | some v => simp [hs] at h
  freed := by intro a h; simp [init] at h
  nodup := by simp [init]

/-- A fresh array holding a C string is handed to the object slot `k`, which
held no live object. -/
theorem OwnInv.attach {s : State} (hi : OwnInv s) (k : Nat) (c : List Char) (n : Nat)
    (hc : strlen c = some n) (objs' : List (Option ConfigManager))
    (hk : objs'[k]? = some (some { env_filename_ := some s.heap.cells.length }))
    (hother : ∀ z, z ≠ k → objs'[z]? = s.objs[z]?)
    (hdead : ∀ o, s.objs[k]? ≠ some (some o)) :
    OwnInv { heap := s.heap.push c, objs := objs' } where
  owns := by
    intro x o hx
    by_cases hxk : x = k
    · subst hxk
      rw [hk] at hx
      simp only [Option.some.injEq] at hx
      subst hx
      exact ⟨s.heap.cells.length, c, n, rfl, by simp [Heap.push], hc⟩
    · rw [hother x hxk] at hx
      obtain ⟨a, b, m, h1, h2, h3⟩ := hi.owns x o hx
      refine ⟨a, b, m, h1, ?_, h3⟩
      simp [Heap.push, List.getElem?_append_left (getElem?_lt h2), h2]
  sep := by
    have key : ∀ x o, x ≠ k → objs'[x]? = some (some o) →
        o.env_filename_ ≠ some s.heap.cells.length := by
      intro x o hxk hx e
      rw [hother x hxk] at hx
      obtain ⟨a, b, m, h1, h2, _⟩ := hi.owns x o hx
      rw [h1] at e
      have := getElem?_lt h2
      simp only [Option.some.injEq] at e
      omega
    intro x y o o' hx hy e
    by_cases hxk : x = k
    · by_cases hyk : y = k
      · rw [hxk, hyk]
      · exfalso
        subst hxk
        rw [hk] at hx
        simp only [Option.some.injEq] at hx
        subst hx
        exact key y o' hyk hy e.symm
    · by_cases hyk : y = k
      · exfalso
        subst hyk
        rw [hk] at hy
        simp only [Option.some.injEq] at hy
        subst hy
        exact key x o hxk hx e
      · rw [hother x hxk] at hx
        rw [hother y hyk] at hy
        exact hi.sep x y o o' hx hy e
  owned := by
    intro a b ha
    by_cases hlt : a < s.heap.cells.length
    · simp only [Heap.push, List.getElem?_append_left hlt] at ha
      obtain ⟨x, hx⟩ := hi.owned a b ha
      have hxk : x ≠ k := by
        intro e
        subst e
        exact hdead _ hx
      exact ⟨x, by rw [hother x hxk]; exact hx⟩
    · have hle : a ≤ s.heap.cells.length := by
        have := getElem?_lt ha
        simp [Heap.push] at this
        omega
      have e : a = s.heap.cells.length := by omega
      subst e
      exact ⟨k, hk⟩
  freed := by
    intro a ha
    have h1 := hi.freed a ha
    simp [Heap.push, List.getElem?_append_left (getElem?_lt h1), h1]
  nodup := hi.nodup

/-- The array of the live object `x` is released and the object ends. -/
theorem OwnInv.release {s : State} (hi : OwnInv s) (x a : Nat) (nv : Option ConfigManager)
    (hx : s.objs[x]? = some (some { env_filename_ := some a }))
    (hnv : ∀ o, nv ≠ some o) :
    OwnInv { heap := { cells := s.heap.cells.set a Cell.freed,
                       freeLog := s.heap.freeLog ++ [a] },
             objs := s.objs.set x nv } := by
  obtain ⟨a0, b, m, h1, h2, h3⟩ := hi.owns x _ hx
  simp only [Option.some.injEq] at h1
  subst h1
  have halt := getElem?_lt h2
  have hxlt := getElem?_lt hx
  have hobj : ∀ z o, (s.objs.set x nv)[z]? = some (some o) →
      z ≠ x ∧ s.objs[z]? = some (some o) := by
    intro z o hz
    by_cases hxz : x = z
    · subst hxz
      rw [List.getElem?_set_self hxlt] at hz
      simp only [Option.some.injEq] at hz
      exact absurd hz (hnv o)
    · rw [List.getElem?_set_ne hxz] at hz
      exact ⟨fun e => hxz e.symm, hz⟩
  constructor
  · intro z o hz
    obtain ⟨hzx, hz'⟩ := hobj z o hz
    obtain ⟨a', b', m', e1, e2, e3⟩ := hi.owns z o hz'
    refine ⟨a', b', m', e1, ?_, e3⟩
    have hne : a ≠ a' := by
      intro e
      subst e
      exact hzx (hi.sep z x o _ hz' hx (by simp [e1]))
    simp [List.getElem?_set_ne hne, e2]
  · intro z y o o' hz hy e
    exact hi.sep z y o o' (hobj z o hz).2 (hobj y o' hy).2 e
  · intro a' b' ha'
    by_cases hne : a = a'
    · subst hne
      simp [List.getElem?_set_self halt] at ha'
    · simp only [List.getElem?_set_ne hne] at ha'
      obtain ⟨z, hz⟩ := hi.owned a' b' ha'
      have hzx : x ≠ z := by
        intro e
        subst e
        rw [hx] at hz
        simp at hz
        exact hne hz
      exact ⟨z, by simp [List.getElem?_set_ne hzx, hz]⟩
  · intro a' ha'
    simp only [List.mem_append, List.mem_singleton] at ha'
    by_cases hne : a = a'
    · subst hne
      simp [List.getElem?_set_self halt]
    · simp only [List.getElem?_set_ne hne]
      rcases ha' with h | h
      · exact hi.freed a' h
      · exact absurd h.symm hne
  · simp only [List.nodup_append, List.nodup_singleton, true_and]
    refine ⟨hi.nodup, ?_⟩
    intro y hy hy'
    simp only [List.mem_singleton] at hy'
    subst hy'
    have := hi.freed y hy
    rw [h2] at this
    simp at this

theorem State.obj_eq {s : State} {x : Nat} {o : ConfigManager}
    (hx : s.objs[x]? = some (some o)) : s.obj x = .ok o := by
  simp [State.obj, hx]

theorem State.obj_ok {s : State} {x : Nat} {o : ConfigManager}
    (hx : s.obj x = .ok o) : s.objs[x]? = some (some o) := by
  unfold State.obj at hx
  split at hx
  · rename_i o' ho
    simp only [Except.ok.injEq] at hx
    rw [ho, hx]
  · exact Except.noConfusion hx

theorem State.isLive_iff {s : State} {x : Nat} :
    s.isLive x = true ↔ ∃ o, s.objs[x]? = some (some o) := by
  unfold State.isLive
  split
  · rename_i o ho
    simp [ho]
  · rename_i hno
    simp only [Bool.false_eq_true, false_iff, not_exists]
    exact fun o ho => hno o ho

theorem Heap.read_live {h : Heap} {a : Nat} {b : List Char}
    (hc : h.cells[a]? = some (Cell.live b)) : h.read (some a) = .ok b := by
  simp [Heap.read, hc]

theorem construct_eq (s : State) (src : Ptr) (b : List Char) (n : Nat)
    (hr : s.heap.read src = .ok b) (hn : strlen b = some n) :
    s.construct src = .ok
      { heap := s.heap.push (b.take (n + 1)),
        objs := s.objs ++ [some { env_filename_ := some s.heap.cells.length }] } := by
  obtain ⟨h1, h2⟩ := Heap.dup_ok s.heap src b n hr hn
  simp only [State.construct, ConfigManager.construct, h1, h2]
  rfl

theorem copyConstruct_eq (s : State) (x a : Nat) (b : List Char) (n : Nat)
    (hx : s.objs[x]? = some (some { env_filename_ := some a }))
    (hc : s.heap.cells[a]? = some (Cell.live b)) (hn : strlen b = some n) :
    s.copyConstruct x = .ok
      { heap := s.heap.push (b.take (n + 1)),
        objs := s.objs ++ [some { env_filename_ := some s.heap.cells.length }] } := by
  obtain ⟨h1, h2⟩ := Heap.dup_ok s.heap (some a) b n (Heap.read_live hc) hn
  simp only [State.copyConstruct, ConfigManager.copyConstruct, State.obj_eq hx, h1, h2]
  rfl

theorem destroy_eq (s : State) (x a : Nat) (b : List Char)
    (hx : s.objs[x]? = some (some { env_filename_ := some a }))
    (hc : s.heap.cells[a]? = some (Cell.live b)) :
    s.destroy x = .ok
      { heap := { cells := s.heap.cells.set a Cell.freed,
                  freeLog := s.heap.freeLog ++ [a] },
        objs := s.objs.set x none } := by
  simp [State.destroy, State.obj_eq hx, Heap.deleteArray, hc]

theorem copyAssign_eq (s : State) (x y a a' : Nat) (b b' : List Char) (n : Nat)
    (hne : x ≠ y)
    (hx : s.objs[x]? = some (some { env_filename_ := some a }))
    (hc : s.heap.cells[a]? = some (Cell.live b))
    (hy : s.objs[y]? = some (some { env_filename_ := some a' }))
    (hc' : s.heap.cells[a']? = some (Cell.live b'))
    (hn : strlen b' = some n) (haa : a ≠ a') :
    s.copyAssign x y = .ok
      { heap := Heap.push { cells := s.heap.cells.set a Cell.freed,
                            freeLog := s.heap.freeLog ++ [a] } (b'.take (n + 1)),
        objs := s.objs.set x (some { env_filename_ := some s.heap.cells.length }) } := by
  have hc2 : (Heap.mk (s.heap.cells.set a Cell.freed) (s.heap.freeLog ++ [a])).cells[a']?
      = some (Cell.live b') := by
    simp [List.getElem?_set_ne haa, hc']
  obtain ⟨h1, h2⟩ := Heap.dup_ok (Heap.mk (s.heap.cells.set a Cell.freed)
    (s.heap.freeLog ++ [a])) (some a') b' n (Heap.read_live hc2) hn
  simp only [State.copyAssign, State.obj_eq hx, State.obj_eq hy, Heap.deleteArray, hc,
    ne_eq, hne, not_false_eq_true, if_true, h1, h2]
  simp [Heap.newArray]

theorem copyAssign_self (s : State) (x : Nat) (hx : s.isLive x = true) :
    s.copyAssign x x = .ok s := by
  obtain ⟨o, ho⟩ := State.isLive_iff.mp hx
  simp [State.copyAssign, State.obj_eq ho]

theorem OwnInv.pushObj {s : State} (hi : OwnInv s) (c : List Char) (n : Nat)
    (hc : strlen c = some n) :
    OwnInv { heap := s.heap.push c,
             objs := s.objs ++ [some { env_filename_ := some s.heap.cells.length }] } := by
  refine hi.attach s.objs.length c n hc _ (by simp) ?_ ?_
  · intro z hz
    exact getElem?_concat_ne _ _ z hz
  · intro o ho
    have := getElem?_lt ho
    omega

theorem OwnInv.reassign {s : State} (hi : OwnInv s) (x a : Nat) (c : List Char) (n : Nat)
    (hx : s.objs[x]? = some (some { env_filename_ := some a }))
    (hc : strlen c = some n) :
    OwnInv { heap := Heap.push { cells := s.heap.cells.set a Cell.freed,
                                 freeLog := s.heap.freeLog ++ [a] } c,
             objs := s.objs.set x (some { env_filename_ := some s.heap.cells.length }) } := by
  have h1 := hi.release x a none hx (fun o e => Option.noConfusion e)
  have hxlt := getElem?_lt hx
  refine h1.attach x c n hc _ ?_ ?_ ?_
  · simp [List.getElem?_set_self hxlt]
  · intro z hz
    have hz' : x ≠ z := fun e => hz e.symm
    simp [List.getElem?_set_ne hz']
  · intro o ho
    simp [List.getElem?_set_self hxlt] at ho

theorem step_total {s : State} (hi : OwnInv s) (op : Op) (hop : opOk s op = true) :
    ∃ s', step s op = .ok s' ∧ OwnInv s' := by
  cases op with
  | construct src =>
    cases hr : s.heap.read src with
    | error e => simp [opOk, Heap.strlen, hr] at hop
    | ok b =>
      cases hn : strlen b with
      | none => simp [opOk, Heap.strlen, hr, hn] at hop
      | some n =>
        exact ⟨_, construct_eq s src b n hr hn, hi.pushObj _ n (strlen_take hn)⟩
  | copyConstruct x =>
    obtain ⟨o, ho⟩ := State.isLive_iff.mp hop
    obtain ⟨a, b, n, h1, h2, h3⟩ := hi.owns x o ho
    cases o with
    | mk p =>
      simp only at h1
      subst h1
      exact ⟨_, copyConstruct_eq s x a b n ho h2 h3, hi.pushObj _ n (strlen_take h3)⟩
  | copyAssign x y =>
    simp only [opOk, Bool.and_eq_true] at hop
    by_cases hxy : x = y
    · subst hxy
      exact ⟨s, copyAssign_self s x hop.1, hi⟩
    · obtain ⟨ox, hox⟩ := State.isLive_iff.mp hop.1
      obtain ⟨oy, hoy⟩ := State.isLive_iff.mp hop.2
      obtain ⟨a, b, n, h1, h2, h3⟩ := hi.owns x ox hox
      obtain ⟨a', b', n', h1', h2', h3'⟩ := hi.owns y oy hoy
      have haa : a ≠ a' := by
        intro e
        subst e
        exact hxy (hi.sep x y ox oy hox hoy (by rw [h1, h1']))
      cases ox with
      | mk p =>
        cases oy with
        | mk q =>
          simp only at h1 h1'
          subst h1
          subst h1'
          exact ⟨_, copyAssign_eq s x y a a' b b' n' hxy hox h2 hoy h2' h3' haa,
            hi.reassign x a _ n' hox (strlen_take h3')⟩
  | destroy x =>
    obtain ⟨o, ho⟩ := State.isLive_iff.mp hop
    obtain ⟨a, b, n, h1, h2, h3⟩ := hi.owns x o ho
    cases o with
    | mk p =>
      simp only at h1
      subst h1
      exact ⟨_, destroy_eq s x a b ho h2,
        hi.release x a none ho (fun o e => Option.noConfusion e)⟩

theorem opOk_of_step {s s' : State} {op : Op} (h : step s op = .ok s') :
    opOk s op = true := by
  cases op with
  | construct src =>
    cases hs : s.heap.strlen src with
    | error e => simp [step, State.construct, ConfigManager.construct, hs] at h
    | ok n => simp [opOk, hs]
  | copyConstruct x =>
    cases ho : s.obj x with
    | error e => simp [step, State.copyConstruct, ho] at h
    | ok o => exact State.isLive_iff.mpr ⟨o, State.obj_ok ho⟩
  | copyAssign x y =>
    cases hx : s.obj x with
    | error e => simp [step, State.copyAssign, hx] at h
    | ok ox =>
      cases hy : s.obj y with
      | error e => simp [step, State.copyAssign, hx, hy] at h
      | ok oy =>
        simp only [opOk, Bool.and_eq_true]
        exact ⟨State.isLive_iff.mpr ⟨ox, State.obj_ok hx⟩,
          State.isLive_iff.mpr ⟨oy, State.obj_ok hy⟩⟩
  | destroy x =>
    cases ho : s.obj x with
    | error e => simp [step, State.destroy, ho] at h
    | ok o => exact State.isLive_iff.mpr ⟨o, State.obj_ok ho⟩

theorem step_inv {s s' : State} {op : Op} (hi : OwnInv s) (h : step s op = .ok s') :
    OwnInv s' := by
  obtain ⟨t, ht, hti⟩ := step_total hi op (opOk_of_step h)
  rw [h] at ht
  simp only [Except.ok.injEq] at ht
  rw [ht]
  exact hti

theorem run_inv {s s' : State} (ops : List Op) (hi : OwnInv s) (h : run s ops = .ok s') :
    OwnInv s' := by
  induction ops generalizing s with
  | nil =>
    simp only [run, Except.ok.injEq] at h
    rw [← h]
    exact hi
  | cons op ops ih =>
    simp only [run] at h
    cases hs : step s op with
    | error e => simp [hs] at h
    | ok s1 =>
      simp only [hs] at h
      exact ih (step_inv hi hs) h

theorem run_total {s : State} (ops : List Op) (hi : OwnInv s) (hv : validOps s ops = true) :
    ∃ s', run s ops = .ok s' := by
  induction ops generalizing s with
  | nil => exact ⟨s, rfl⟩
  | cons op ops ih =>
    simp only [validOps, Bool.and_eq_true] at hv
    obtain ⟨s1, hs1, hi1⟩ := step_total hi op hv.1
    simp only [hs1] at hv
    obtain ⟨s2, hs2⟩ := ih hi1 hv.2
    exact ⟨s2, by simp [run, hs1, hs2]⟩

theorem view_frame {s s' : State} {z pz : Nat}
    (hz : s.objs[z]? = some (some { env_filename_ := some pz }))
    (hz' : s'.objs[z]? = s.objs[z]?) (hc : s'.heap.cells[pz]? = s.heap.cells[pz]?) :
    s'.obj z = s.obj z ∧ s'.heap.read (some pz) = s.heap.read (some pz) ∧
      s'.view z = s.view z := by
  simp [State.view, State.obj, hz', hz, Heap.cstr, Heap.read, hc]

theorem view_of_live {s : State} {z pz n : Nat} {b : List Char}
    (hz : s.objs[z]? = some (some { env_filename_ := some pz }))
    (hc : s.heap.cells[pz]? = some (Cell.live b)) (hn : strlen b = some n) :
    s.view z = .ok (b.take n) := by
  simp [State.view, State.obj, hz, Heap.cstr, Heap.read, hc, hn]

/-- What a copy assignment between two distinct live objects does, in a state
that satisfies the ownership invariant. -/
theorem copyAssign_spec {s : State} (hi : OwnInv s) (x y : Nat)
    (hx : s.isLive x = true) (hy : s.isLive y = true) (hxy : x ≠ y) :
    ∃ px py n bx cy,
      s.objs[x]? = some (some { env_filename_ := some px }) ∧
      s.heap.cells[px]? = some (Cell.live bx) ∧
      s.objs[y]? = some (some { env_filename_ := some py }) ∧
      s.heap.cells[py]? = some (Cell.live cy) ∧
      strlen cy = some n ∧ px ≠ py ∧
      s.copyAssign x y = .ok
        { heap := Heap.push { cells := s.heap.cells.set px Cell.freed,
                              freeLog := s.heap.freeLog ++ [px] } (cy.take (n + 1)),
          objs := s.objs.set x (some { env_filename_ := some s.heap.cells.length }) } := by
  obtain ⟨ox, hox⟩ := State.isLive_iff.mp hx
  obtain ⟨oy, hoy⟩ := State.isLive_iff.mp hy
  obtain ⟨a, b, n, h1, h2, h3⟩ := hi.owns x ox hox
  obtain ⟨a', b', n', h1', h2', h3'⟩ := hi.owns y oy hoy
  have haa : a ≠ a' := by
    intro e
    subst e
    exact hxy (hi.sep x y ox oy hox hoy (by rw [h1, h1']))
  cases ox with
  | mk p =>
    cases oy with
    | mk q =>
      simp only at h1 h1'
      subst h1
      subst h1'
      exact ⟨a, a', n', b, b', hox, h2, hoy, h2', h3', haa,
        copyAssign_eq s x y a a' b b' n' hxy hox h2 hoy h2' h3' haa⟩

/-- What the destructor does to a live object, in a state that satisfies the
ownership invariant. -/
theorem destroy_spec {s : State} (hi : OwnInv s) (x : Nat) (hx : s.isLive x = true) :
    ∃ px bx,
      s.objs[x]? = some (some { env_filename_ := some px }) ∧
      s.heap.cells[px]? = some (Cell.live bx) ∧
      s.destroy x = .ok
        { heap := { cells := s.heap.cells.set px Cell.freed,
                    freeLog := s.heap.freeLog ++ [px] },
          objs := s.objs.set x none } := by
  obtain ⟨o, ho⟩ := State.isLive_iff.mp hx
  obtain ⟨a, b, n, h1, h2, h3⟩ := hi.owns x o ho
  cases o with
  | mk p =>
    simp only at h1
    subst h1
    exact ⟨a, b, ho, h2, destroy_eq s x a b ho h2⟩

/-- An object other than the one assigned to or destroyed keeps its entry and
its array. -/
theorem other_untouched {s : State} (hi : OwnInv s) (x z px : Nat) (oz : ConfigManager)
    (hx : s.objs[x]? = some (some { env_filename_ := some px }))
    (hz : s.objs[z]? = some (some oz)) (hzx : z ≠ x)
    (nv : Option ConfigManager) (extra : List Cell) :
    ∃ pz, oz = { env_filename_ := some pz } ∧
      (s.objs.set x nv)[z]? = s.objs[z]? ∧
      (s.heap.cells.set px Cell.freed ++ extra)[pz]? = s.heap.cells[pz]? := by
  obtain ⟨a, b, n, h1, h2, h3⟩ := hi.owns z oz hz
  cases oz with
  | mk p =>
    simp only at h1
    subst h1
    have hne : px ≠ a := by
      intro e
      subst e
      exact hzx (hi.sep z x _ _ hz hx rfl)
    refine ⟨a, rfl, List.getElem?_set_ne (fun e => hzx e.symm), ?_⟩
    have hlt : a < (s.heap.cells.set px Cell.freed).length := by
      simpa using getElem?_lt h2
    rw [List.getElem?_append_left hlt, List.getElem?_set_ne hne]

theorem liveCount_eq_zero_of_dead {s : State} (hi : OwnInv s)
    (hdead : ∀ x : Nat, s.isLive x = false) : s.heap.liveCount = 0 := by
  unfold Heap.liveCount
  rw [List.countP_eq_zero]
  intro c hc
  obtain ⟨a, ha⟩ := List.mem_iff_getElem?.mp hc
  cases c with
  | live b =>
    obtain ⟨x, hx⟩ := hi.owned a b ha
    have h1 := hdead x
    have h2 := State.isLive_iff.mpr ⟨_, hx⟩
    rw [h1] at h2
    exact absurd h2 (by simp)
  | caller b => simp
  | freed => simp

theorem isLive_after_destroy (s : State) (h1 : Heap) (x z : Nat) :
    State.isLive { heap := h1, objs := s.objs.set x none } z
      = if z = x then false else s.isLive z := by
  unfold State.isLive
  by_cases hzx : z = x
  · subst hzx
    simp only [if_true]
    by_cases hlt : z < s.objs.length
    · simp [List.getElem?_set_self hlt]
    · have hnone : (s.objs.set z none)[z]? = none :=
        List.getElem?_eq_none (by rw [List.length_set]; exact Nat.le_of_not_lt hlt)
      simp only [hnone]
  · have hne : x ≠ z := fun e => hzx e.symm
    simp only [hzx, if_false]
    simp only [List.getElem?_set_ne hne]

theorem isLive_lt {s : State} {x : Nat} (hx : s.isLive x = true) : x < s.objs.length := by
  obtain ⟨o, ho⟩ := State.isLive_iff.mp hx
  exact getElem?_lt ho

/-- Destroying a list of distinct live objects, in any order, succeeds,
ends the lifetime of each of them and leaves the other objects as they are. -/
theorem run_destroy_list (xs : List Nat) :
    ∀ s : State, OwnInv s → xs.Nodup → (∀ x ∈ xs, s.isLive x = true) →
      ∃ t, run s (xs.map Op.destroy) = .ok t ∧ OwnInv t ∧
        (∀ x ∈ xs, t.isLive x = false) ∧ (∀ z, z ∉ xs → t.isLive z = s.isLive z) := by
  induction xs with
  | nil =>
    intro s hi _ _
    exact ⟨s, rfl, hi, by simp, fun _ _ => rfl⟩
  | cons x xs ih =>
    intro s hi hnd hlive
    obtain ⟨hxn, hnd'⟩ := List.nodup_cons.mp hnd
    obtain ⟨px, bx, e1, e2, e3⟩ := destroy_spec hi x (hlive x (by simp))
    have hstep : step s (Op.destroy x) = .ok
        (State.mk (Heap.mk (s.heap.cells.set px Cell.freed) (s.heap.freeLog ++ [px]))
          (s.objs.set x none)) := e3
    have hi1 := step_inv hi hstep
    have hl1 : ∀ z, State.isLive (State.mk (Heap.mk (s.heap.cells.set px Cell.freed)
        (s.heap.freeLog ++ [px])) (s.objs.set x none)) z
        = if z = x then false else s.isLive z := fun z => isLive_after_destroy s _ x z
    obtain ⟨t, ht, hit, hdead, hsame⟩ := ih _ hi1 hnd' (by
      intro y hy
      have hyx : y ≠ x := fun e => hxn (e ▸ hy)
      rw [hl1 y, if_neg hyx]
      exact hlive y (by simp [hy]))
    refine ⟨t, by simp only [List.map_cons, run, hstep, ht], hit, ?_, ?_⟩
    · intro y hy
      rcases List.mem_cons.mp hy with e | hy'
      · subst e
        rw [hsame y hxn, hl1 y, if_pos rfl]
      · exact hdead y hy'
    · intro z hz
      have hzx : z ≠ x := fun e => hz (by simp [e])
      have hzxs : z ∉ xs := fun e => hz (by simp [e])
      rw [hsame z hzxs, hl1 z, if_neg hzx]

theorem run_destroyAll {s : State} (hi : OwnInv s) :
    ∃ t, run s (destroyAll s) = .ok t ∧ OwnInv t ∧ (∀ x : Nat, t.isLive x = false) := by
  obtain ⟨t, ht, hit, hdead, hsame⟩ := run_destroy_list
    ((List.range s.objs.length).filter (fun x => s.isLive x)) s hi
    ((List.nodup_range _).filter _) (by
      intro x hx
      exact (List.mem_filter.mp hx).2)
  refine ⟨t, ht, hit, ?_⟩
  intro x
  by_cases hx : s.isLive x = true
  · exact hdead x (List.mem_filter.mpr ⟨List.mem_range.mpr (isLive_lt hx), hx⟩)
  · rw [hsame x (fun hmem => hx (List.mem_filter.mp hmem).2)]
    simpa using hx

/-- C1. Over the explicit heap, every well-formed finite sequence of
constructions from a string, copy constructions, copy assignments (self
assignment included) and destructions of the Rule-of-Three `ConfigManager`
runs without a fault, and in the state it reaches every live object owns a
live array that no other live object owns, no address was given to `delete[]`
twice, and when no object is live no array is live. Destroying the objects
that are still live then succeeds, ends the lifetime of every object, and
leaves no live array and no address released twice. -/
theorem rule_of_three_ownership (strings : List (List Char)) (ops : List Op)
    (hv : validOps (init strings) ops = true) :
    ∃ s, run (init strings) ops = .ok s ∧
      (∀ (x : Nat) (o : ConfigManager), s.objs[x]? = some (some o) →
        ∃ a b, o.env_filename_ = some a ∧ s.heap.cells[a]? = some (Cell.live b) ∧
          ∀ (y : Nat) (o' : ConfigManager), y ≠ x → s.objs[y]? = some (some o') →
            o'.env_filename_ ≠ some a) ∧
      s.heap.freeLog.Nodup ∧
      (∀ a ∈ s.heap.freeLog, s.heap.cells[a]? = some Cell.freed) ∧
      ((∀ x : Nat, s.isLive x = false) → s.heap.liveCount = 0) ∧
      ∃ t, run s (destroyAll s) = .ok t ∧
        (∀ x : Nat, t.isLive x = false) ∧
        (∀ o ∈ t.objs, o = none) ∧
        t.heap.liveCount = 0 ∧
        (∀ (a : Nat) (b : List Char), t.heap.cells[a]? ≠ some (Cell.live b)) ∧
        t.heap.freeLog.Nodup := by
  obtain ⟨s, hs⟩ := run_total ops (inv_init strings) hv
  have hi := run_inv ops (inv_init strings) hs
  obtain ⟨t, ht, hit, hdead⟩ := run_destroyAll hi
  refine ⟨s, hs, ?_, hi.nodup, hi.freed, liveCount_eq_zero_of_dead hi,
    t, ht, hdead, ?_, liveCount_eq_zero_of_dead hit hdead, ?_, hit.nodup⟩
  · intro x o hx
    obtain ⟨a, b, n, h1, h2, _⟩ := hi.owns x o hx
    refine ⟨a, b, h1, h2, ?_⟩
    intro y o' hyx hy e
    exact hyx (hi.sep y x o' o hy hx (by rw [e, h1]))
  · intro o ho
    obtain ⟨x, hx⟩ := List.mem_iff_getElem?.mp ho
    cases o with
    | none => rfl
    | some c =>
      have h1 := State.isLive_iff.mpr ⟨c, hx⟩
      rw [hdead x] at h1
      exact absurd h1 (by simp)
  · intro a b ha
    obtain ⟨x, hx⟩ := hit.owned a b ha
    have h1 := State.isLive_iff.mpr ⟨_, hx⟩
    rw [hdead x] at h1
    exact absurd h1 (by simp)

theorem rule_of_three_ownership_witness :
    validOps (init demoStrings) demoOps = true ∧
    ∃ s, run (init demoStrings) demoOps = .ok s ∧
      (∀ (x : Nat) (o : ConfigManager), s.objs[x]? = some (some o) →
        ∃ a b, o.env_filename_ = some a ∧ s.heap.cells[a]? = some (Cell.live b) ∧
          ∀ (y : Nat) (o' : ConfigManager), y ≠ x → s.objs[y]? = some (some o') →
            o'.env_filename_ ≠ some a) ∧
      s.heap.freeLog.Nodup ∧
      (∀ a ∈ s.heap.freeLog, s.heap.cells[a]? = some Cell.freed) ∧
      ((∀ x : Nat, s.isLive x = false) → s.heap.liveCount = 0) ∧
      ∃ t, run s (destroyAll s) = .ok t ∧
        (∀ x : Nat, t.isLive x = false) ∧
        (∀ o ∈ t.objs, o = none) ∧
        t.heap.liveCount = 0 ∧
        (∀ (a : Nat) (b : List Char), t.heap.cells[a]? ≠ some (Cell.live b)) ∧
        t.heap.freeLog.Nodup :=
  ⟨by decide, rule_of_three_ownership demoStrings demoOps (by decide)⟩

/-- C2. Constructing a `ConfigManager` from a C string `s` (the characters of
`s`, none of them NUL, followed by NUL) succeeds; the object holds a fresh
address, different from the source address; the array at that address is live
and holds exactly the `len(s) + 1` characters of `s` and its terminator; the
stored filename reads back as `s`; the caller's storage and the free log are
unchanged. -/
theorem construct_roundtrip (h : Heap) (src : Nat) (s rest : List Char) (hs : NUL ∉ s)
    (hsrc : h.read (some src) = .ok (s ++ NUL :: rest)) :
    ∃ h', ConfigManager.construct h (some src)
        = .ok (h', { env_filename_ := some h.cells.length }) ∧
      h.cells.length ≠ src ∧
      h.cells[h.cells.length]? = none ∧
      h'.cells = h.cells ++ [Cell.live (s ++ [NUL])] ∧
      (s ++ [NUL]).length = s.length + 1 ∧
      h'.cstr (some h.cells.length) = .ok s ∧
      h'.read (some src) = .ok (s ++ NUL :: rest) ∧
      h'.freeLog = h.freeLog := by
  have hn := strlen_append_nul s rest hs
  obtain ⟨h1, h2⟩ := Heap.dup_ok h (some src) _ _ hsrc hn
  have hlt := Heap.read_lt hsrc
  have htake : (s ++ NUL :: rest).take (s.length + 1) = s ++ [NUL] := by
    rw [strlen_take_succ hn]
    simp
  refine ⟨h.push (s ++ [NUL]), ?_, by omega, by simp, rfl, by simp, ?_,
    Heap.read_push _ hsrc, rfl⟩
  · simp only [ConfigManager.construct, h1, h2, htake]
    rfl
  · have := strlen_append_nul s [] hs
    simp [Heap.cstr, Heap.read, Heap.push, this]

theorem construct_roundtrip_witness :
    NUL ∉ "basic.env".toList ∧
    (init demoStrings).heap.read (some 0) = .ok ("basic.env".toList ++ NUL :: []) ∧
    ∃ h', ConfigManager.construct (init demoStrings).heap (some 0)
        = .ok (h', { env_filename_ := some (init demoStrings).heap.cells.length }) ∧
      (init demoStrings).heap.cells.length ≠ 0 ∧
      (init demoStrings).heap.cells[(init demoStrings).heap.cells.length]? = none ∧
      h'.cells = (init demoStrings).heap.cells ++ [Cell.live ("basic.env".toList ++ [NUL])] ∧
      ("basic.env".toList ++ [NUL]).length = "basic.env".toList.length + 1 ∧
      h'.cstr (some (init demoStrings).heap.cells.length) = .ok "basic.env".toList ∧
      h'.read (some 0) = .ok ("basic.env".toList ++ NUL :: []) ∧
      h'.freeLog = (init demoStrings).heap.freeLog :=
  ⟨by decide, by decide,
    construct_roundtrip (init demoStrings).heap 0 "basic.env".toList [] (by decide)
      (by decide)⟩

/-- C3. In every reachable state, copy-constructing from a live object `a`
succeeds and yields a new object (identity `s.objs.length`) whose stored
filename equals that of `a`, held at a fresh address different from the
address `a` holds, and leaves `a`, its array and its stored filename
unchanged. In every state reached afterwards in which both are live, a copy
assignment to the copy (from any live object) and the destruction of the copy
succeed and leave `a` and its stored filename unchanged. -/
theorem copy_independent (strings : List (List Char)) (ops : List Op) (s : State) (a : Nat)
    (hreach : run (init strings) ops = .ok s) (ha : s.isLive a = true) :
    ∃ s1 pa fa,
      s.copyConstruct a = .ok s1 ∧
      s.obj a = .ok { env_filename_ := some pa } ∧ s.view a = .ok fa ∧
      s1.obj s.objs.length = .ok { env_filename_ := some s.heap.cells.length } ∧
      s1.view s.objs.length = .ok fa ∧
      pa ≠ s.heap.cells.length ∧ s.heap.cells[s.heap.cells.length]? = none ∧
      s1.obj a = s.obj a ∧ s1.heap.read (some pa) = s.heap.read (some pa) ∧
      s1.view a = .ok fa ∧
      ∀ (ops' : List Op) (t : State), run s1 ops' = .ok t →
        t.isLive a = true → t.isLive s.objs.length = true →
        (∀ c : Nat, t.isLive c = true →
          ∃ t', t.copyAssign s.objs.length c = .ok t' ∧
            t'.obj a = t.obj a ∧ t'.view a = t.view a) ∧
        (∃ t', t.destroy s.objs.length = .ok t' ∧
          t'.obj a = t.obj a ∧ t'.view a = t.view a) := by
  have hi := run_inv ops (inv_init strings) hreach
  obtain ⟨o, ho⟩ := State.isLive_iff.mp ha
  obtain ⟨pa, b, n, h1, h2, h3⟩ := hi.owns a o ho
  cases o with
  | mk p =>
    simp only at h1
    subst h1
    have hs1 := copyConstruct_eq s a pa b n ho h2 h3
    have hi1 := hi.pushObj (b.take (n + 1)) n (strlen_take h3)
    have halt := getElem?_lt ho
    have hplt := getElem?_lt h2
    have hne : a ≠ s.objs.length := by omega
    have hva := view_of_live ho h2 h3
    have hfr := @view_frame _ (State.mk (s.heap.push (b.take (n + 1)))
        (s.objs ++ [some (ConfigManager.mk (some s.heap.cells.length))])) _ _ ho
      (List.getElem?_append_left halt)
      (by simp [Heap.push, List.getElem?_append_left hplt])
    refine ⟨_, pa, b.take n, hs1, State.obj_eq ho, hva, ?_, ?_, by omega, by simp,
      hfr.1, hfr.2.1, by rw [hfr.2.2, hva], ?_⟩
    · simp [State.obj]
    · have := @view_of_live (State.mk (s.heap.push (b.take (n + 1)))
          (s.objs ++ [some (ConfigManager.mk (some s.heap.cells.length))]))
        s.objs.length s.heap.cells.length _ _ (by simp)
        (by simp [Heap.push]) (strlen_take h3)
      simpa [List.take_take] using this
    · intro ops' t ht hta htb
      have hit := run_inv ops' hi1 ht
      obtain ⟨oa, hoa⟩ := State.isLive_iff.mp hta
      constructor
      · intro c hc
        by_cases hcb : s.objs.length = c
        · subst hcb
          exact ⟨t, copyAssign_self t _ hc, rfl, rfl⟩
        · obtain ⟨px, py, m, bx, cy, e1, e2, e3, e4, e5, e6, e7⟩ :=
            copyAssign_spec hit s.objs.length c htb hc hcb
          obtain ⟨pz, hz1, hz2, hz3⟩ := other_untouched hit s.objs.length a px oa e1 hoa hne
            (some { env_filename_ := some t.heap.cells.length }) [Cell.live (cy.take (m + 1))]
          subst hz1
          have hf := @view_frame _ (State.mk
              (Heap.push (Heap.mk (t.heap.cells.set px Cell.freed) (t.heap.freeLog ++ [px]))
                (cy.take (m + 1)))
              (t.objs.set s.objs.length (some (ConfigManager.mk (some t.heap.cells.length)))))
            _ _ hoa hz2 hz3
          exact ⟨_, e7, hf.1, hf.2.2⟩
      · obtain ⟨px, bx, e1, e2, e3⟩ := destroy_spec hit s.objs.length htb
        obtain ⟨pz, hz1, hz2, hz3⟩ := other_untouched hit s.objs.length a px oa e1 hoa hne
          none []
        subst hz1
        have hf := @view_frame _ (State.mk
            (Heap.mk (t.heap.cells.set px Cell.freed) (t.heap.freeLog ++ [px]))
            (t.objs.set s.objs.length none)) _ _ hoa hz2 (by simpa using hz3)
        exact ⟨_, e3, hf.1, hf.2.2⟩

theorem copy_independent_witness :
    run (init demoStrings) [Op.construct (some 0)] = .ok demoState ∧
    demoState.isLive 0 = true ∧
    ∃ s1 pa fa,
      demoState.copyConstruct 0 = .ok s1 ∧
      demoState.obj 0 = .ok { env_filename_ := some pa } ∧ demoState.view 0 = .ok fa ∧
      s1.obj demoState.objs.length
        = .ok { env_filename_ := some demoState.heap.cells.length } ∧
      s1.view demoState.objs.length = .ok fa ∧
      pa ≠ demoState.heap.cells.length ∧
      demoState.heap.cells[demoState.heap.cells.length]? = none ∧
      s1.obj 0 = demoState.obj 0 ∧
      s1.heap.read (some pa) = demoState.heap.read (some pa) ∧
      s1.view 0 = .ok fa ∧
      ∀ (ops' : List Op) (t : State), run s1 ops' = .ok t →
        t.isLive 0 = true → t.isLive demoState.objs.length = true →
        (∀ c : Nat, t.isLive c = true →
          ∃ t', t.copyAssign demoState.objs.length c = .ok t' ∧
            t'.obj 0 = t.obj 0 ∧ t'.view 0 = t.view 0) ∧
        (∃ t', t.destroy demoState.objs.length = .ok t' ∧
          t'.obj 0 = t.obj 0 ∧ t'.view 0 = t.view 0) :=
  ⟨by decide, by decide,
    copy_independent demoStrings [Op.construct (some 0)] demoState 0 (by decide) (by decide)⟩

/-- C4. Copy-assigning a live `ConfigManager` to itself succeeds and changes
nothing: the state after is the state before, so the stored filename, the
object and its array are unchanged, no array is allocated and none is
released. -/
theorem copyAssign_self_noop (s : State) (a : Nat) (hlive : s.isLive a = true) :
    ∃ s', s.copyAssign a a = .ok s' ∧ s' = s ∧
      s'.view a = s.view a ∧ s'.obj a = s.obj a ∧
      s'.heap.cells = s.heap.cells ∧ s'.heap.freeLog = s.heap.freeLog :=
  ⟨s, copyAssign_self s a hlive, rfl, rfl, rfl, rfl, rfl⟩

theorem copyAssign_self_noop_witness :
    demoState.isLive 0 = true ∧
    ∃ s', demoState.copyAssign 0 0 = .ok s' ∧ s' = demoState ∧
      s'.view 0 = demoState.view 0 ∧ s'.obj 0 = demoState.obj 0 ∧
      s'.heap.cells = demoState.heap.cells ∧ s'.heap.freeLog = demoState.heap.freeLog :=
  ⟨by decide, copyAssign_self_noop demoState 0 (by decide)⟩

/-- C5. In every reachable state, for two distinct live objects `x` and `y`,
the copy assignment `x = y` succeeds; it gives the address `x` held to
`delete[]` once (the address was never released before and is released
after); `x` then holds a fresh address whose array is the stored filename of
`y` followed by NUL; every other live object, `y` included, keeps its entry,
its array and its stored filename. In the scenario of the specification,
after constructing `a` from "basic.env", copying it to `b` and assigning to
`b` an object constructed from "complex.env", `a` reads "basic.env" and `b`
reads "complex.env". -/
theorem copyAssign_distinct (strings : List (List Char)) (ops : List Op) (s : State)
    (x y : Nat) (hreach : run (init strings) ops = .ok s)
    (hx : s.isLive x = true) (hy : s.isLive y = true) (hxy : x ≠ y) :
    (∃ s' px fy,
      s.copyAssign x y = .ok s' ∧
      s.obj x = .ok { env_filename_ := some px } ∧ s.view y = .ok fy ∧
      px ∉ s.heap.freeLog ∧ s'.heap.freeLog = s.heap.freeLog ++ [px] ∧
      s'.heap.cells[px]? = some Cell.freed ∧
      s.heap.cells[s.heap.cells.length]? = none ∧
      s'.obj x = .ok { env_filename_ := some s.heap.cells.length } ∧
      s'.heap.cells[s.heap.cells.length]? = some (Cell.live (fy ++ [NUL])) ∧
      s'.view x = .ok fy ∧
      ∀ (z : Nat) (oz : ConfigManager), z ≠ x → s.objs[z]? = some (some oz) →
        s'.objs[z]? = some (some oz) ∧
        s'.heap.read oz.env_filename_ = s.heap.read oz.env_filename_ ∧
        s'.view z = s.view z) ∧
    (∃ t, run (init [lit "basic.env", lit "complex.env"])
        [Op.construct (some 0), Op.copyConstruct 0, Op.construct (some 1),
          Op.copyAssign 1 2, Op.destroy 2] = .ok t ∧
      t.view 0 = .ok "basic.env".toList ∧ t.view 1 = .ok "complex.env".toList) := by
  have hi := run_inv ops (inv_init strings) hreach
  refine ⟨?_, ?_⟩
  · obtain ⟨px, py, n, bx, cy, e1, e2, e3, e4, e5, e6, e7⟩ := copyAssign_spec hi x y hx hy hxy
    have hxlt := getElem?_lt e1
    have hplt := getElem?_lt e2
    have hnew : (Heap.push (Heap.mk (s.heap.cells.set px Cell.freed)
        (s.heap.freeLog ++ [px])) (cy.take (n + 1))).cells[s.heap.cells.length]?
        = some (Cell.live (cy.take (n + 1))) := by
      simp only [Heap.push]
      rw [List.getElem?_append_right (by simp)]
      simp
    refine ⟨_, px, cy.take n, e7, State.obj_eq e1, view_of_live e3 e4 e5, ?_, rfl, ?_,
      by simp, ?_, ?_, ?_, ?_⟩
    · intro hmem
      have := hi.freed px hmem
      rw [e2] at this
      simp at this
    · simp only [Heap.push]
      rw [List.getElem?_append_left (by simpa using hplt), List.getElem?_set_self hplt]
    · simp [State.obj, List.getElem?_set_self hxlt]
    · rw [hnew, strlen_take_succ e5]
    · have := @view_of_live (State.mk
          (Heap.push (Heap.mk (s.heap.cells.set px Cell.freed) (s.heap.freeLog ++ [px]))
            (cy.take (n + 1)))
          (s.objs.set x (some (ConfigManager.mk (some s.heap.cells.length)))))
        x s.heap.cells.length _ _ (by simp [List.getElem?_set_self hxlt])
        hnew (strlen_take e5)
      simpa [List.take_take] using this
    · intro z oz hzx hz
      obtain ⟨pz, hz1, hz2, hz3⟩ := other_untouched hi x z px oz e1 hz hzx
        (some { env_filename_ := some s.heap.cells.length }) [Cell.live (cy.take (n + 1))]
      subst hz1
      have hf := @view_frame _ (State.mk
          (Heap.push (Heap.mk (s.heap.cells.set px Cell.freed) (s.heap.freeLog ++ [px]))
            (cy.take (n + 1)))
          (s.objs.set x (some (ConfigManager.mk (some s.heap.cells.length)))))
        _ _ hz hz2 hz3
      exact ⟨by rw [← hz]; exact hz2, hf.2.1, hf.2.2⟩
  · exact ⟨_, rfl, rfl, rfl⟩

theorem copyAssign_distinct_witness :
    run (init demoStrings) [Op.construct (some 0), Op.copyConstruct 0] = .ok demoState2 ∧
    demoState2.isLive 1 = true ∧ demoState2.isLive 0 = true ∧ 1 ≠ 0 ∧
    (∃ s' px fy,
      demoState2.copyAssign 1 0 = .ok s' ∧
      demoState2.obj 1 = .ok { env_filename_ := some px } ∧ demoState2.view 0 = .ok fy ∧
      px ∉ demoState2.heap.freeLog ∧ s'.heap.freeLog = demoState2.heap.freeLog ++ [px] ∧
      s'.heap.cells[px]? = some Cell.freed ∧
      demoState2.heap.cells[demoState2.heap.cells.length]? = none ∧
      s'.obj 1 = .ok { env_filename_ := some demoState2.heap.cells.length } ∧
      s'.heap.cells[demoState2.heap.cells.length]? = some (Cell.live (fy ++ [NUL])) ∧
      s'.view 1 = .ok fy ∧
      ∀ (z : Nat) (oz : ConfigManager), z ≠ 1 → demoState2.objs[z]? = some (some oz) →
        s'.objs[z]? = some (some oz) ∧
        s'.heap.read oz.env_filename_ = demoState2.heap.read oz.env_filename_ ∧
        s'.view z = demoState2.view z) ∧
    (∃ t, run (init [lit "basic.env", lit "complex.env"])
        [Op.construct (some 0), Op.copyConstruct 0, Op.construct (some 1),
          Op.copyAssign 1 2, Op.destroy 2] = .ok t ∧
      t.view 0 = .ok "basic.env".toList ∧ t.view 1 = .ok "complex.env".toList) :=
  ⟨by decide, by decide, by decide, by decide,
    copyAssign_distinct demoStrings [Op.construct (some 0), Op.copyConstruct 0] demoState2
      1 0 (by decide) (by decide) (by decide) (by decide)⟩

end V2Fixed

namespace V4Fixed

theorem getlineChars_length_le (content : List Char) (n : Nat) :
    (getlineChars content n).length ≤ n - 1 := by
  simp [getlineChars, List.length_take]

theorem getline_fresh_gen (h : Heap) (content : List Char) (n : Nat) (hn : 0 < n) :
    getline (h.newArray n).1 (some h.cells.length) n content
      = .ok (h.push (getlineChars content n ++ NUL ::
          List.replicate (n - ((getlineChars content n).length + 1)) NUL)) := by
  have hlen := getlineChars_length_le content n
  have hr : (h.newArray n).1.read (some h.cells.length) = .ok (List.replicate n NUL) := by
    simp [Heap.newArray, Heap.read]
  unfold getline
  rw [hr]
  have hle : (getlineChars content n).length + 1 ≤ (List.replicate n NUL).length := by
    simp only [List.length_replicate]
    omega
  simp only [if_pos hle]
  simp [Heap.write, Heap.newArray, Heap.push]

theorem getline_fresh (h : Heap) (content : List Char) :
    getline (h.newArray 1024).1 (some h.cells.length) 1024 content
      = .ok (h.push (entryBuf content)) :=
  getline_fresh_gen h content 1024 (by omega)

theorem loadLoop_step (fs : FileSystem) (files : List String) (k i : Nat) (st : LoadState)
    (f : String) (c : List Char) (hf : files[i]? = some f) (hc : fs f = some c) :
    loadLoop fs files (k + 1) i st =
      loadLoop fs files k (i + 1)
        { heap := st.heap.push (entryBuf c),
          buffers := st.buffers ++ [st.heap.cells.length],
          opened := st.opened ++ [(f, true)] } := by
  have hg := getline_fresh st.heap c
  simp only [loadLoop, hf, hc, List.getLast?_append, List.getLast?_singleton, Option.or_some]
  have e2 : (st.heap.newArray 1024).2 = st.heap.cells.length := rfl
  simp only [e2] at hg ⊢
  simp [hg]

theorem loaded_nil (fs : FileSystem) (st : LoadState) : loaded fs st [] = st := by
  cases st with
  | mk h b o =>
    cases h
    simp [loaded]

theorem loaded_cons (fs : FileSystem) (st : LoadState) (f : String) (c : List Char)
    (rest : List String) (hc : fs f = some c) :
    loaded fs { heap := st.heap.push (entryBuf c),
                buffers := st.buffers ++ [st.heap.cells.length],
                opened := st.opened ++ [(f, true)] } rest
      = loaded fs st (f :: rest) := by
  simp [loaded, Heap.push, hc, List.range'_succ]

theorem getElem?_mid (done : List String) (f : String) (rest : List String) :
    (done ++ f :: rest)[done.length]? = some f := by
  rw [List.getElem?_append_right (Nat.le_refl _)]
  simp

theorem loop_all (fs : FileSystem) (rest : List String) :
    ∀ (done : List String) (st : LoadState), (∀ f ∈ rest, fs f ≠ none) →
      loadLoop fs (done ++ rest) rest.length done.length st
        = .ok (loaded fs st rest, none) := by
  induction rest with
  | nil =>
    intro done st _
    simp [loadLoop, loaded_nil]
  | cons f rest ih =>
    intro done st hall
    cases hc : fs f with
    | none => exact absurd hc (hall f (by simp))
    | some c =>
      rw [List.length_cons, loadLoop_step fs _ _ _ st f c (getElem?_mid done f rest) hc]
      have e1 : done ++ f :: rest = (done ++ [f]) ++ rest := by simp
      have e2 : done.length + 1 = (done ++ [f]).length := by simp
      rw [e1, e2, ih (done ++ [f]) _ (fun g hg => hall g (by simp [hg])),
        loaded_cons fs st f c rest hc]

theorem loop_fail (fs : FileSystem) (pre : List String) (f : String) (post : List String)
    (hf : fs f = none) :
    ∀ (done : List String) (st : LoadState) (n : Nat), (∀ g ∈ pre, fs g ≠ none) →
      n = pre.length + post.length →
      loadLoop fs (done ++ (pre ++ f :: post)) (n + 1) done.length st
        = .ok (failedAt (loaded fs st pre) f, some ("Cannot open file: " ++ f)) := by
  induction pre with
  | nil =>
    intro done st n _ _
    have := getElem?_mid done f post
    simp only [List.nil_append]
    simp [loadLoop, this, hf, loaded_nil, failedAt]
  | cons g pre ih =>
    intro done st n hall hn
    cases hc : fs g with
    | none => exact absurd hc (hall g (by simp))
    | some c =>
      have hn' : n = (pre.length + post.length) + 1 := by
        simp only [List.length_cons] at hn
        omega
      subst hn'
      rw [List.cons_append,
        loadLoop_step fs _ _ _ st g c (getElem?_mid done g (pre ++ f :: post)) hc]
      have e1 : done ++ g :: (pre ++ f :: post) = (done ++ [g]) ++ (pre ++ f :: post) := by
        simp
      have e2 : done.length + 1 = (done ++ [g]).length := by simp
      rw [e1, e2, ih (done ++ [g]) _ _ (fun x hx => hall x (by simp [hx])) rfl,
        loaded_cons fs st g c pre hc]

theorem destroyBuffers_fresh (news : List Cell) :
    ∀ (pre : List Cell) (log : List Nat), (∀ c ∈ news, ∃ b, c = Cell.live b) →
      destroyBuffers { cells := pre ++ news, freeLog := log }
          (List.range' pre.length news.length)
        = .ok { cells := pre ++ List.replicate news.length Cell.freed,
                freeLog := log ++ List.range' pre.length news.length } := by
  induction news with
  | nil =>
    intro pre log _
    simp [destroyBuffers]
  | cons c cs ih =>
    intro pre log hall
    obtain ⟨b, hb⟩ := hall c (by simp)
    subst hb
    have hget : (pre ++ Cell.live b :: cs)[pre.length]? = some (Cell.live b) := by
      rw [List.getElem?_append_right (Nat.le_refl _)]
      simp
    have hset : (pre ++ Cell.live b :: cs).set pre.length Cell.freed
        = (pre ++ [Cell.freed]) ++ cs := by
      rw [List.set_append_right _ _ (Nat.le_refl _)]
      simp
    have hlen : pre.length + 1 = (pre ++ [Cell.freed]).length := by simp
    simp only [List.length_cons, List.range'_succ, destroyBuffers, Heap.deleteArray, hget, hset]
    rw [hlen, ih (pre ++ [Cell.freed]) _ (fun x hx => hall x (by simp [hx]))]
    simp [List.replicate_succ]

theorem failedAt_heap (fs : FileSystem) (h : Heap) (pre : List String) (f : String) :
    (failedAt (loaded fs { heap := h, buffers := [], opened := [] } pre) f).heap
      = { cells := h.cells ++ (pre.map (fun g => Cell.live (entryBuf ((fs g).getD [])))
            ++ [Cell.live (List.replicate 1024 NUL)]),
          freeLog := h.freeLog } := by
  simp only [failedAt, loaded, Heap.newArray, List.append_assoc]

theorem failedAt_buffers (fs : FileSystem) (h : Heap) (pre : List String) (f : String) :
    (failedAt (loaded fs { heap := h, buffers := [], opened := [] } pre) f).buffers
      = List.range' h.cells.length (pre.length + 1) := by
  simp only [failedAt, loaded, Heap.newArray, List.nil_append, List.length_append,
    List.length_map, List.range'_concat, Nat.one_mul]

theorem failedAt_opened (fs : FileSystem) (h : Heap) (pre : List String) (f : String) :
    (failedAt (loaded fs { heap := h, buffers := [], opened := [] } pre) f).opened
      = pre.map (fun g => (g, true)) ++ [(f, false)] := by
  simp only [failedAt, loaded, List.nil_append]

theorem load_fail (fs : FileSystem) (h : Heap) (pre : List String) (f : String)
    (post : List String) (hpre : ∀ g ∈ pre, fs g ≠ none) (hf : fs f = none) :
    load_multiple_configs fs h (pre ++ f :: post) ((pre ++ f :: post).length : Nat)
      = .ok { thrown := some ("Cannot open file: " ++ f),
              heap := { cells := h.cells ++ List.replicate (pre.length + 1) Cell.freed,
                        freeLog := h.freeLog ++ List.range' h.cells.length (pre.length + 1) },
              opened := pre.map (fun g => (g, true)) ++ [(f, false)],
              atLoopExit :=
                failedAt (loaded fs { heap := h, buffers := [], opened := [] } pre) f } := by
  have hl := loop_fail fs pre f post hf [] { heap := h, buffers := [], opened := [] }
    (pre.length + post.length) hpre rfl
  have hlen : (pre ++ f :: post).length = pre.length + post.length + 1 := by
    simp only [List.length_append, List.length_cons]
    omega
  simp only [List.nil_append, List.length_nil] at hl
  have hd := destroyBuffers_fresh
    (pre.map (fun g => Cell.live (entryBuf ((fs g).getD [])))
      ++ [Cell.live (List.replicate 1024 NUL)]) h.cells h.freeLog (by
        intro c hc
        simp only [List.mem_append, List.mem_map, List.mem_singleton] at hc
        rcases hc with ⟨g, _, rfl⟩ | rfl
        · exact ⟨_, rfl⟩
        · exact ⟨_, rfl⟩)
  simp only [List.length_append, List.length_map, List.length_singleton] at hd
  simp only [load_multiple_configs, Int.toNat_ofNat, hlen, hl, failedAt_heap,
    failedAt_buffers, hd, failedAt_opened]

theorem loaded_heap (fs : FileSystem) (h : Heap) (files : List String) :
    (loaded fs { heap := h, buffers := [], opened := [] } files).heap
      = { cells := h.cells ++ files.map (fun g => Cell.live (entryBuf ((fs g).getD []))),
          freeLog := h.freeLog } := rfl

theorem loaded_buffers (fs : FileSystem) (h : Heap) (files : List String) :
    (loaded fs { heap := h, buffers := [], opened := [] } files).buffers
      = List.range' h.cells.length files.length := by
  simp only [loaded, List.nil_append]

theorem loaded_opened (fs : FileSystem) (h : Heap) (files : List String) :
    (loaded fs { heap := h, buffers := [], opened := [] } files).opened
      = files.map (fun g => (g, true)) := by
  simp only [loaded, List.nil_append]

theorem load_ok (fs : FileSystem) (h : Heap) (files : List String)
    (hall : ∀ g ∈ files, fs g ≠ none) :
    load_multiple_configs fs h files (files.length : Nat)
      = .ok { thrown := none,
              heap := { cells := h.cells ++ List.replicate files.length Cell.freed,
                        freeLog := h.freeLog ++ List.range' h.cells.length files.length },
              opened := files.map (fun g => (g, true)),
              atLoopExit := loaded fs { heap := h, buffers := [], opened := [] } files } := by
  have hl := loop_all fs files [] { heap := h, buffers := [], opened := [] } hall
  simp only [List.nil_append, List.length_nil] at hl
  have hd := destroyBuffers_fresh
    (files.map (fun g => Cell.live (entryBuf ((fs g).getD [])))) h.cells h.freeLog (by
        intro c hc
        simp only [List.mem_map] at hc
        obtain ⟨g, _, rfl⟩ := hc
        exact ⟨_, rfl⟩)
  simp only [List.length_map] at hd
  simp only [load_multiple_configs, Int.toNat_ofNat, hl, loaded_heap, loaded_buffers, hd,
    loaded_opened]

theorem exists_first_fail (fs : FileSystem) (files : List String)
    (h : ∃ f ∈ files, fs f = none) :
    ∃ pre f post, files = pre ++ f :: post ∧ (∀ g ∈ pre, fs g ≠ none) ∧ fs f = none := by
  induction files with
  | nil =>
    obtain ⟨f, hf, _⟩ := h
    simp at hf
  | cons g rest ih =>
    cases hg : fs g with
    | none => exact ⟨[], g, rest, rfl, by simp, hg⟩
    | some c =>
      obtain ⟨f, hf, hfn⟩ := h
      have hfr : f ∈ rest := by
        rcases List.mem_cons.mp hf with e | e
        · rw [e, hg] at hfn
          exact Option.noConfusion hfn
        · exact e
      obtain ⟨pre, f', post, e1, e2, e3⟩ := ih ⟨f, hfr, hfn⟩
      refine ⟨g :: pre, f', post, by rw [e1]; rfl, ?_, e3⟩
      intro x hx
      rcases List.mem_cons.mp hx with e | e
      · rw [e, hg]
        exact fun e' => Option.noConfusion e'
      · exact e2 x e

theorem split_at_index (files : List String) (k : Nat) (f : String)
    (hk : files[k]? = some f) :
    files = files.take k ++ f :: files.drop (k + 1) := by
  induction files generalizing k with
  | nil => simp at hk
  | cons g rest ih =>
    cases k with
    | zero =>
      simp only [List.getElem?_cons_zero, Option.some.injEq] at hk
      simp [hk]
    | succ k =>
      simp only [List.getElem?_cons_succ] at hk
      have := ih k hk
      simp only [List.take_succ_cons, List.drop_succ_cons, List.cons_append]
      rw [← this]

theorem countP_live_replicate_freed (n : Nat) :
    List.countP (fun c => match c with | Cell.live _ => true | _ => false)
      (List.replicate n Cell.freed) = 0 := by
  rw [List.countP_eq_zero]
  intro c hc
  rw [List.eq_of_mem_replicate hc]
  simp

theorem loop2_all (fs : FileSystem) (rest : List String) :
    ∀ (done : List String) (st : LoadState2), (∀ f ∈ rest, fs f ≠ none) →
      loadLoop2 fs (done ++ rest) rest.length done.length st
        = .ok (loaded2 fs st rest, none) := by
  induction rest with
  | nil =>
    intro done st _
    cases st
    simp [loadLoop2, loaded2]
  | cons f rest ih =>
    intro done st hall
    cases hc : fs f with
    | none => exact absurd hc (hall f (by simp))
    | some c =>
      have e1 : done ++ f :: rest = (done ++ [f]) ++ rest := by simp
      have e2 : done.length + 1 = (done ++ [f]).length := by simp
      simp only [List.length_cons, loadLoop2, getElem?_mid done f rest, hc]
      rw [e1, e2, ih (done ++ [f]) _ (fun g hg => hall g (by simp [hg]))]
      simp [loaded2, hc]

theorem mem_of_getElem? {files : List String} {i : Nat} {f : String}
    (h : files[i]? = some f) : f ∈ files :=
  List.mem_iff_getElem?.mpr ⟨i, h⟩

/-- C6. Move-constructing `b` from a `BufferGuard` `a` gives `b` exactly the
address and size `a` held, so the characters read through `b` are those
readable through `a` before the move; `a` is left with `nullptr` and size 0;
the heap is unchanged: nothing is allocated and nothing released. -/
theorem moveConstruct_transfers (h : Heap) (a : BufferGuard) :
    ∃ h1 b a', BufferGuard.moveConstruct h a = (h1, b, a') ∧
      b.buffer_ = a.buffer_ ∧ b.size_ = a.size_ ∧
      h1.read b.get = h.read a.get ∧
      a'.buffer_ = none ∧ a'.size_ = 0 ∧
      h1 = h ∧ h1.cells = h.cells ∧ h1.freeLog = h.freeLog :=
  ⟨h, { buffer_ := a.buffer_, size_ := a.size_ }, { buffer_ := none, size_ := 0 },
    rfl, rfl, rfl, rfl, rfl, rfl, rfl, rfl, rfl⟩

/-- C7. For a `BufferGuard` `a` that holds `nullptr` or a live array, after
`b` is move-constructed from `a`: the destructor of `a` succeeds and leaves
the heap as it is, before and after `b` is destroyed; the destructor of `b`
succeeds; after both, in either order, the free log has grown by exactly the
address `a` held (by nothing when it held `nullptr`), and that array is
released. -/
theorem moved_from_destroy (h : Heap) (a : BufferGuard) (hwf : a.wellFormed h = true) :
    ∃ h1 b a' h2, BufferGuard.moveConstruct h a = (h1, b, a') ∧
      BufferGuard.destroy h1 a' = .ok h1 ∧
      BufferGuard.destroy h1 b = .ok h2 ∧
      BufferGuard.destroy h2 a' = .ok h2 ∧
      h2.freeLog = h.freeLog ++ a.buffer_.toList ∧
      (∀ p : Nat, a.buffer_ = some p → h2.cells[p]? = some Cell.freed) ∧
      h2.cells.length = h.cells.length := by
  cases a with
  | mk buf sz =>
    cases buf with
    | none =>
      exact ⟨h, _, _, h, rfl, rfl, rfl, rfl, by simp, by simp, rfl⟩
    | some p =>
      simp only [BufferGuard.wellFormed] at hwf
      cases hc : h.cells[p]? with
      | none => simp [hc] at hwf
      | some c =>
        cases c with
        | caller b => simp [hc] at hwf
        | freed => simp [hc] at hwf
        | live b =>
          have hlt := getElem?_lt hc
          refine ⟨h, _, _, { cells := h.cells.set p Cell.freed, freeLog := h.freeLog ++ [p] },
            rfl, rfl, ?_, rfl, by simp, ?_, by simp⟩
          · simp [BufferGuard.destroy, BufferGuard.moveConstruct, Heap.deleteArray, hc]
          · intro q hq
            simp only [Option.some.injEq] at hq
            subst hq
            simp [List.getElem?_set_self hlt]

theorem moved_from_destroy_witness :
    (BufferGuard.construct emptyHeap 1024).2.wellFormed
      (BufferGuard.construct emptyHeap 1024).1 = true ∧
    ∃ h1 b a' h2,
      BufferGuard.moveConstruct (BufferGuard.construct emptyHeap 1024).1
        (BufferGuard.construct emptyHeap 1024).2 = (h1, b, a') ∧
      BufferGuard.destroy h1 a' = .ok h1 ∧
      BufferGuard.destroy h1 b = .ok h2 ∧
      BufferGuard.destroy h2 a' = .ok h2 ∧
      h2.freeLog = (BufferGuard.construct emptyHeap 1024).1.freeLog ++
        (BufferGuard.construct emptyHeap 1024).2.buffer_.toList ∧
      (∀ p : Nat, (BufferGuard.construct emptyHeap 1024).2.buffer_ = some p →
        h2.cells[p]? = some Cell.freed) ∧
      h2.cells.length = (BufferGuard.construct emptyHeap 1024).1.cells.length :=
  ⟨rfl, moved_from_destroy (BufferGuard.construct emptyHeap 1024).1
    (BufferGuard.construct emptyHeap 1024).2 rfl⟩

/-- C8. When some file of the list cannot be opened, `load_multiple_configs`
(Solution 1) leaves by the exception, raised for a file `files[k]` that does
not open. The call allocated exactly `k + 1` arrays, the one of the failing
entry included, all live when the loop is left and all owned by the vector;
when the failure reaches the caller each of them has been given to `delete[]`
exactly once and is released, the arrays that existed before are untouched,
and the number of live arrays is what it was before the call. -/
theorem load_failure_releases_all (fs : FileSystem) (h : Heap) (files : List String)
    (hfail : ∃ f ∈ files, fs f = none) :
    ∃ out msg k news,
      load_multiple_configs fs h files (files.length : Nat) = .ok out ∧
      out.thrown = some msg ∧
      (∃ f, files[k]? = some f ∧ fs f = none ∧ msg = "Cannot open file: " ++ f) ∧
      out.atLoopExit.heap.cells = h.cells ++ news ∧ news.length = k + 1 ∧
      (∀ c ∈ news, ∃ b, c = Cell.live b) ∧
      out.atLoopExit.buffers = List.range' h.cells.length (k + 1) ∧
      out.heap.cells = h.cells ++ List.replicate (k + 1) Cell.freed ∧
      out.heap.freeLog = h.freeLog ++ out.atLoopExit.buffers ∧
      out.atLoopExit.buffers.Nodup ∧
      out.heap.liveCount = h.liveCount := by
  obtain ⟨pre, f, post, e1, e2, e3⟩ := exists_first_fail fs files hfail
  subst e1
  refine ⟨_, _, pre.length,
    pre.map (fun g => Cell.live (entryBuf ((fs g).getD [])))
      ++ [Cell.live (List.replicate 1024 NUL)],
    load_fail fs h pre f post e2 e3, rfl, ⟨f, getElem?_mid pre f post, e3, rfl⟩,
    ?_, ?_, ?_, ?_, rfl, ?_, ?_, ?_⟩
  · exact congrArg Heap.cells (failedAt_heap fs h pre f)
  · simp only [List.length_append, List.length_map, List.length_singleton]
  · intro c hc
    simp only [List.mem_append, List.mem_map, List.mem_singleton] at hc
    rcases hc with ⟨g, _, rfl⟩ | rfl
    · exact ⟨_, rfl⟩
    · exact ⟨_, rfl⟩
  · exact failedAt_buffers fs h pre f
  · simp only [failedAt_buffers]
  · simp only [failedAt_buffers]
    exact List.nodup_range' _ _
  · simp only [Heap.liveCount, List.countP_append, countP_live_replicate_freed, Nat.add_zero]

theorem load_failure_releases_all_witness :
    (∃ f ∈ demoFiles, demoFs f = none) ∧
    ∃ out msg k news,
      load_multiple_configs demoFs emptyHeap demoFiles (demoFiles.length : Nat) = .ok out ∧
      out.thrown = some msg ∧
      (∃ f, demoFiles[k]? = some f ∧ demoFs f = none ∧ msg = "Cannot open file: " ++ f) ∧
      out.atLoopExit.heap.cells = emptyHeap.cells ++ news ∧ news.length = k + 1 ∧
      (∀ c ∈ news, ∃ b, c = Cell.live b) ∧
      out.atLoopExit.buffers = List.range' emptyHeap.cells.length (k + 1) ∧
      out.heap.cells = emptyHeap.cells ++ List.replicate (k + 1) Cell.freed ∧
      out.heap.freeLog = emptyHeap.freeLog ++ out.atLoopExit.buffers ∧
      out.atLoopExit.buffers.Nodup ∧
      out.heap.liveCount = emptyHeap.liveCount :=
  ⟨⟨"nonexistent.env", by decide, by decide⟩,
    load_failure_releases_all demoFs emptyHeap demoFiles
      ⟨"nonexistent.env", by decide, by decide⟩⟩

/-- C9. If `k` is the smallest index whose file cannot be opened,
`load_multiple_configs` leaves by a `runtime_error` whose message is
"Cannot open file: " followed by `files[k]`, having opened `files[0..k-1]` in
order and then tried `files[k]`, and nothing after it. The function leaves by
an exception if and only if some file of the list cannot be opened. -/
theorem load_first_failure (fs : FileSystem) (h : Heap) (files : List String) :
    (∀ (k : Nat) (f : String), files[k]? = some f → fs f = none →
      (∀ (j : Nat) (g : String), j < k → files[j]? = some g → fs g ≠ none) →
      ∃ out, load_multiple_configs fs h files (files.length : Nat) = .ok out ∧
        out.thrown = some ("Cannot open file: " ++ f) ∧
        out.opened = (files.take k).map (fun g => (g, true)) ++ [(f, false)]) ∧
    (∃ out, load_multiple_configs fs h files (files.length : Nat) = .ok out ∧
      (out.thrown.isSome = true ↔ ∃ (k : Nat) (f : String), files[k]? = some f ∧ fs f = none)) := by
  constructor
  · intro k f hk hf hmin
    have hsplit := split_at_index files k f hk
    have hpre : ∀ g ∈ files.take k, fs g ≠ none := by
      intro g hg
      obtain ⟨j, hj⟩ := List.mem_iff_getElem?.mp hg
      rw [List.getElem?_take] at hj
      by_cases hjk : j < k
      · simp only [hjk, if_true] at hj
        exact hmin j g hjk hj
      · simp [hjk] at hj
    have := load_fail fs h (files.take k) f (files.drop (k + 1)) hpre hf
    rw [← hsplit] at this
    exact ⟨_, this, rfl, rfl⟩
  · by_cases hex : ∃ f ∈ files, fs f = none
    · obtain ⟨pre, f, post, e1, e2, e3⟩ := exists_first_fail fs files hex
      subst e1
      refine ⟨_, load_fail fs h pre f post e2 e3, ?_⟩
      simp only [Option.isSome_some, true_iff]
      exact ⟨pre.length, f, getElem?_mid pre f post, e3⟩
    · have hall : ∀ g ∈ files, fs g ≠ none := fun g hg e => hex ⟨g, hg, e⟩
      refine ⟨_, load_ok fs h files hall, ?_⟩
      simp only [Option.isSome_none, Bool.false_eq_true, false_iff, not_exists, not_and]
      intro k f hk
      exact hall f (mem_of_getElem? hk)

theorem load_first_failure_witness :
    demoFiles[1]? = some "nonexistent.env" ∧ demoFs "nonexistent.env" = none ∧
    (∀ (j : Nat) (g : String), j < 1 → demoFiles[j]? = some g → demoFs g ≠ none) ∧
    ∃ out, load_multiple_configs demoFs emptyHeap demoFiles (demoFiles.length : Nat)
        = .ok out ∧
      out.thrown = some ("Cannot open file: " ++ "nonexistent.env") ∧
      out.opened = (demoFiles.take 1).map (fun g => (g, true)) ++
        [("nonexistent.env", false)] :=
  have hmin : ∀ (j : Nat) (g : String), j < 1 → demoFiles[j]? = some g → demoFs g ≠ none := by
    intro j g hj hg
    have hj0 : j = 0 := by omega
    subst hj0
    have hg' : g = "basic.env" := by
      simp only [demoFiles, List.getElem?_cons_zero, Option.some.injEq] at hg
      exact hg.symm
    subst hg'
    decide
  ⟨by decide, by decide, hmin,
    (load_first_failure demoFs emptyHeap demoFiles).1 1 "nonexistent.env" (by decide)
      (by decide) hmin⟩

theorem loadLoop2_step (fs : FileSystem) (files : List String) (k i : Nat) (st : LoadState2)
    (f : String) (c : List Char) (hf : files[i]? = some f) (hc : fs f = some c) :
    loadLoop2 fs files (k + 1) i st =
      loadLoop2 fs files k (i + 1)
        { buffers := st.buffers ++ [stdGetline c], opened := st.opened ++ [(f, true)] } := by
  simp only [loadLoop2, hf, hc]

theorem loop2_fail (fs : FileSystem) (pre : List String) (f : String) (post : List String)
    (hf : fs f = none) :
    ∀ (done : List String) (st : LoadState2) (n : Nat), (∀ g ∈ pre, fs g ≠ none) →
      n = pre.length + post.length →
      loadLoop2 fs (done ++ (pre ++ f :: post)) (n + 1) done.length st
        = .ok (failedAt2 (loaded2 fs st pre) f, some ("Cannot open file: " ++ f)) := by
  induction pre with
  | nil =>
    intro done st n _ _
    have := getElem?_mid done f post
    cases st
    simp [loadLoop2, this, hf, loaded2, failedAt2]
  | cons g pre ih =>
    intro done st n hall hn
    cases hc : fs g with
    | none => exact absurd hc (hall g (by simp))
    | some c =>
      have hn' : n = (pre.length + post.length) + 1 := by
        simp only [List.length_cons] at hn
        omega
      subst hn'
      have e1 : done ++ g :: (pre ++ f :: post) = (done ++ [g]) ++ (pre ++ f :: post) := by
        simp
      have e2 : done.length + 1 = (done ++ [g]).length := by simp
      rw [List.cons_append,
        loadLoop2_step fs _ _ _ st g c (getElem?_mid done g (pre ++ f :: post)) hc]
      rw [e1, e2, ih (done ++ [g]) _ _ (fun x hx => hall x (by simp [hx])) rfl]
      simp [loaded2, failedAt2, hc]

theorem load2_ok (fs : FileSystem) (files : List String) (hall : ∀ g ∈ files, fs g ≠ none) :
    load_multiple_configs2 fs files (files.length : Nat)
      = .ok (loaded2 fs { buffers := [], opened := [] } files, none) := by
  have hl := loop2_all fs files [] { buffers := [], opened := [] } hall
  simp only [List.nil_append, List.length_nil] at hl
  simp only [load_multiple_configs2, Int.toNat_ofNat, hl]

theorem load2_fail (fs : FileSystem) (pre : List String) (f : String) (post : List String)
    (hpre : ∀ g ∈ pre, fs g ≠ none) (hf : fs f = none) :
    load_multiple_configs2 fs (pre ++ f :: post) ((pre ++ f :: post).length : Nat)
      = .ok (failedAt2 (loaded2 fs { buffers := [], opened := [] } pre) f,
          some ("Cannot open file: " ++ f)) := by
  have hl := loop2_fail fs pre f post hf [] { buffers := [], opened := [] }
    (pre.length + post.length) hpre rfl
  have hlen : (pre ++ f :: post).length = pre.length + post.length + 1 := by
    simp only [List.length_append, List.length_cons]
    omega
  simp only [List.nil_append, List.length_nil] at hl
  simp only [load_multiple_configs2, Int.toNat_ofNat, hlen, hl]

theorem entry_cell (fs : FileSystem) (cells : List Cell) (pre : List String)
    (extra : List Cell) (i : Nat) (f : String) (c : List Char)
    (hi : pre[i]? = some f) (hc : fs f = some c) :
    (cells ++ (pre.map (fun g => Cell.live (entryBuf ((fs g).getD []))) ++ extra))[
        cells.length + i]? = some (Cell.live (entryBuf c)) := by
  have hlt := getElem?_lt hi
  rw [List.getElem?_append_right (by omega)]
  rw [List.getElem?_append_left (by simpa using hlt)]
  simp [hi, hc]

theorem entryBuf_eq (c : List Char) :
    entryBuf c = getlineChars c 1024 ++
      List.replicate (1024 - (getlineChars c 1024).length) NUL := by
  have hlen := getlineChars_length_le c 1024
  have e : 1024 - (getlineChars c 1024).length
      = (1024 - ((getlineChars c 1024).length + 1)) + 1 := by omega
  rw [e, List.replicate_succ]
  rfl

theorem getlineChars_eq_take (c : List Char) (n : Nat) :
    getlineChars c n = (firstLine c).take (n - 1) := rfl

theorem stdGetline_eq_firstLine (c : List Char) : stdGetline c = firstLine c := rfl

theorem firstLine_spec (c : List Char) :
    NL ∉ firstLine c ∧ (c = firstLine c ∨ ∃ rest, c = firstLine c ++ NL :: rest) := by
  induction c with
  | nil => simp [firstLine]
  | cons x xs ih =>
    by_cases hx : x = NL
    · subst hx
      refine ⟨by simp [firstLine], Or.inr ⟨xs, by simp [firstLine]⟩⟩
    · have e : firstLine (x :: xs) = x :: firstLine xs := by
        simp [firstLine, hx]
      rw [e]
      refine ⟨?_, ?_⟩
      · simp only [List.mem_cons, not_or]
        exact ⟨fun e' => hx e'.symm, ih.1⟩
      · rcases ih.2 with h1 | ⟨rest, h1⟩
        · exact Or.inl (by rw [← h1])
        · exact Or.inr ⟨rest, by rw [List.cons_append, ← h1]⟩

theorem cstr_entry (c : List Char) (hn : NUL ∉ getlineChars c 1024) :
    DotenvMem.strlen (entryBuf c) = some (getlineChars c 1024).length ∧
      (entryBuf c).take (getlineChars c 1024).length = getlineChars c 1024 := by
  refine ⟨strlen_append_nul _ _ hn, ?_⟩
  simp [entryBuf]

/-- The entry of an opened file in the state in which the loop of Solution 1
is left, whether it is left normally or by the exception. -/
theorem entry_at_loop_exit (fs : FileSystem) (h : Heap) (files : List String) :
    ∃ out, load_multiple_configs fs h files (files.length : Nat) = .ok out ∧
      ∀ (i : Nat) (f : String) (c : List Char), files[i]? = some f → fs f = some c →
        (∀ (j : Nat) (g : String), j < i → files[j]? = some g → fs g ≠ none) →
        out.atLoopExit.buffers[i]? = some (h.cells.length + i) ∧
        out.atLoopExit.heap.cells[h.cells.length + i]? = some (Cell.live (entryBuf c)) := by
  by_cases hex : ∃ f ∈ files, fs f = none
  · obtain ⟨pre, f', post, e1, e2, e3⟩ := exists_first_fail fs files hex
    subst e1
    refine ⟨_, load_fail fs h pre f' post e2 e3, ?_⟩
    intro i f c hi hc hmin
    have hlt : i < pre.length := by
      by_contra hge
      by_cases heq : i = pre.length
      · subst heq
        rw [getElem?_mid pre f' post] at hi
        simp only [Option.some.injEq] at hi
        subst hi
        rw [e3] at hc
        exact Option.noConfusion hc
      · exact hmin pre.length f' (by omega) (getElem?_mid pre f' post) e3
    have hi' : pre[i]? = some f := by
      rw [List.getElem?_append_left hlt] at hi
      exact hi
    refine ⟨?_, ?_⟩
    · rw [failedAt_buffers, List.getElem?_range' _ _ (by omega)]
      simp
    · rw [failedAt_heap]
      exact entry_cell fs h.cells pre _ i f c hi' hc
  · have hall : ∀ g ∈ files, fs g ≠ none := fun g hg e => hex ⟨g, hg, e⟩
    refine ⟨_, load_ok fs h files hall, ?_⟩
    intro i f c hi hc _
    refine ⟨?_, ?_⟩
    · rw [loaded_buffers, List.getElem?_range' _ _ (getElem?_lt hi)]
      simp
    · rw [loaded_heap]
      have := entry_cell fs h.cells files [] i f c hi hc
      simpa using this

theorem entry_props (c : List Char) :
    List.IsPrefix (getlineChars c 1024) (firstLine c) ∧
      (getlineChars c 1024).length ≤ 1023 ∧
      ((firstLine c).length < 1024 → getlineChars c 1024 = firstLine c) ∧
      NL ∉ getlineChars c 1024 := by
  refine ⟨List.take_prefix _ _, getlineChars_length_le c 1024, ?_, ?_⟩
  · intro hlt
    rw [getlineChars_eq_take]
    exact List.take_of_length_le (by omega)
  · intro hmem
    exact (firstLine_spec c).1 ((List.take_prefix _ _).subset hmem)

theorem cstr_of_cell (h : Heap) (p : Nat) (c : List Char)
    (hcell : h.cells[p]? = some (Cell.live (entryBuf c)))
    (hn : NUL ∉ getlineChars c 1024) :
    h.cstr (some p) = .ok (getlineChars c 1024) := by
  obtain ⟨e1, e2⟩ := cstr_entry c hn
  simp [Heap.cstr, Heap.read, hcell, e1, e2]

/-- C10. When every file of a list of `n` files can be opened, both
solutions of `load_multiple_configs` return normally. When the loop of
Solution 1 is left the vector holds `n` distinct addresses, and the array at
the `i`-th address is live, has 1024 characters, and holds the first line of
`files[i]` (the characters of the file before its first newline, or the whole
file when it has none) cut to 1023 characters and followed only by NUL
characters; when that line has fewer than 1024 characters and no NUL, the C
string read at the array is the line. When the loop of Solution 2 is left the
vector holds `n` strings, the `i`-th being the first line of `files[i]`. -/
theorem load_all_in_order (fs : FileSystem) (h : Heap) (files : List String)
    (hall : ∀ f ∈ files, fs f ≠ none) :
    (∃ out, load_multiple_configs fs h files (files.length : Nat) = .ok out ∧
      out.thrown = none ∧
      out.atLoopExit.buffers.length = files.length ∧
      out.atLoopExit.buffers.Nodup ∧
      ∀ (i : Nat) (f : String), files[i]? = some f →
        ∃ p c line, out.atLoopExit.buffers[i]? = some p ∧ fs f = some c ∧
          NL ∉ line ∧ (c = line ∨ ∃ rest, c = line ++ NL :: rest) ∧
          out.atLoopExit.heap.cells[p]? = some (Cell.live
            (line.take 1023 ++ List.replicate (1024 - (line.take 1023).length) NUL)) ∧
          (line.length < 1024 → NUL ∉ line →
            out.atLoopExit.heap.cstr (some p) = .ok line) ∧
          out.atLoopExit.heap.cells[p]? = some (Cell.live (entryBuf c)) ∧
          (entryBuf c).length = 1024 ∧
          (entryBuf c).take (getlineChars c 1024).length = getlineChars c 1024 ∧
          (entryBuf c)[(getlineChars c 1024).length]? = some NUL) ∧
    (∃ st, load_multiple_configs2 fs files (files.length : Nat) = .ok (st, none) ∧
      st.buffers.length = files.length ∧
      ∀ (i : Nat) (f : String), files[i]? = some f →
        ∃ c line, fs f = some c ∧
          NL ∉ line ∧ (c = line ∨ ∃ rest, c = line ++ NL :: rest) ∧
          st.buffers[i]? = some line ∧
          st.buffers[i]? = some (stdGetline c)) := by
  constructor
  · refine ⟨_, load_ok fs h files hall, rfl, by simp [loaded_buffers], ?_, ?_⟩
    · simp only [loaded_buffers]
      exact List.nodup_range' _ _
    intro i f hi
    have hlt := getElem?_lt hi
    cases hc : fs f with
    | none => exact absurd hc (hall f (mem_of_getElem? hi))
    | some c =>
      have hlen := getlineChars_length_le c 1024
      have hcell : (loaded fs { heap := h, buffers := [], opened := [] } files).heap.cells[
          h.cells.length + i]? = some (Cell.live (entryBuf c)) := by
        simp only [loaded_heap]
        rw [List.getElem?_append_right (by omega)]
        simp [hi, hc]
      have htake : getlineChars c 1024 = (firstLine c).take 1023 := rfl
      refine ⟨h.cells.length + i, c, firstLine c, ?_, rfl, (firstLine_spec c).1,
        (firstLine_spec c).2, ?_, ?_, hcell, ?_, ?_, ?_⟩
      · simp only [loaded_buffers]
        rw [List.getElem?_range' _ _ hlt]
        simp
      · rw [hcell, entryBuf_eq, htake]
      · intro hshort hn
        have e := (entry_props c).2.2.1 hshort
        have := cstr_of_cell _ _ c hcell (by rw [e]; exact hn)
        rw [e] at this
        exact this
      · simp only [entryBuf, List.length_append, List.length_cons, List.length_replicate]
        omega
      · simp [entryBuf]
      · simp only [entryBuf]
        rw [List.getElem?_append_right (Nat.le_refl _)]
        simp
  · have hl := loop2_all fs files [] { buffers := [], opened := [] } hall
    simp only [List.nil_append, List.length_nil] at hl
    refine ⟨loaded2 fs { buffers := [], opened := [] } files,
      by simp only [load_multiple_configs2, Int.toNat_ofNat, hl], by simp [loaded2], ?_⟩
    intro i f hi
    cases hc : fs f with
    | none => exact absurd hc (hall f (mem_of_getElem? hi))
    | some c =>
      have hb : (loaded2 fs { buffers := [], opened := [] } files).buffers[i]?
          = some (stdGetline c) := by
        simp [loaded2, hi, hc]
      exact ⟨c, firstLine c, rfl, (firstLine_spec c).1, (firstLine_spec c).2, hb, hb⟩

theorem load_all_in_order_witness :
    (∀ f ∈ ["basic.env", "complex.env"], demoFs f ≠ none) ∧
    (∃ out, load_multiple_configs demoFs emptyHeap ["basic.env", "complex.env"]
        ((["basic.env", "complex.env"] : List String).length : Nat) = .ok out ∧
      out.thrown = none ∧
      out.atLoopExit.buffers.length = (["basic.env", "complex.env"] : List String).length ∧
      out.atLoopExit.buffers.Nodup ∧
      ∀ (i : Nat) (f : String), ["basic.env", "complex.env"][i]? = some f →
        ∃ p c line, out.atLoopExit.buffers[i]? = some p ∧ demoFs f = some c ∧
          NL ∉ line ∧ (c = line ∨ ∃ rest, c = line ++ NL :: rest) ∧
          out.atLoopExit.heap.cells[p]? = some (Cell.live
            (line.take 1023 ++ List.replicate (1024 - (line.take 1023).length) NUL)) ∧
          (line.length < 1024 → NUL ∉ line →
            out.atLoopExit.heap.cstr (some p) = .ok line) ∧
          out.atLoopExit.heap.cells[p]? = some (Cell.live (entryBuf c)) ∧
          (entryBuf c).length = 1024 ∧
          (entryBuf c).take (getlineChars c 1024).length = getlineChars c 1024 ∧
          (entryBuf c)[(getlineChars c 1024).length]? = some NUL) ∧
    (∃ st, load_multiple_configs2 demoFs ["basic.env", "complex.env"]
        ((["basic.env", "complex.env"] : List String).length : Nat) = .ok (st, none) ∧
      st.buffers.length = (["basic.env", "complex.env"] : List String).length ∧
      ∀ (i : Nat) (f : String), ["basic.env", "complex.env"][i]? = some f →
        ∃ c line, demoFs f = some c ∧
          NL ∉ line ∧ (c = line ∨ ∃ rest, c = line ++ NL :: rest) ∧
          st.buffers[i]? = some line ∧
          st.buffers[i]? = some (stdGetline c)) ∧
    (∃ out, load_multiple_configs demoFs emptyHeap ["basic.env", "complex.env"] 2 = .ok out ∧
      out.atLoopExit.buffers = [0, 1] ∧
      out.atLoopExit.heap.cstr (some 0) = .ok "DB_HOST=localhost".toList ∧
      out.atLoopExit.heap.cstr (some 1) = .ok "APP_NAME=demo".toList) ∧
    load_multiple_configs2 demoFs ["basic.env", "complex.env"] 2
      = .ok (LoadState2.mk ["DB_HOST=localhost".toList, "APP_NAME=demo".toList]
          [("basic.env", true), ("complex.env", true)], none) :=
  ⟨by decide,
    (load_all_in_order demoFs emptyHeap ["basic.env", "complex.env"] (by decide)).1,
    (load_all_in_order demoFs emptyHeap ["basic.env", "complex.env"] (by decide)).2,
    ⟨_, load_ok demoFs emptyHeap ["basic.env", "complex.env"] (by decide), by decide,
      by decide, by decide⟩,
    by decide⟩

/-- C18. In Solution 1, for every file that the loop reaches and that opens,
the array stored for it holds an entry followed only by NUL characters up to
its 1024 characters, where the entry is a prefix of the first line of the
file, has at most 1023 characters and no newline, and is the whole first line
whenever that line has fewer than 1024 characters. When the entry holds no
NUL it is the C string read at the array. -/
theorem stored_entry_is_first_line (fs : FileSystem) (h : Heap) (files : List String)
    (i : Nat) (f : String) (c : List Char) (hi : files[i]? = some f) (hc : fs f = some c)
    (hreach : ∀ (j : Nat) (g : String), j < i → files[j]? = some g → fs g ≠ none) :
    ∃ out p entry,
      load_multiple_configs fs h files (files.length : Nat) = .ok out ∧
      out.atLoopExit.buffers[i]? = some p ∧
      out.atLoopExit.heap.cells[p]?
        = some (Cell.live (entry ++ List.replicate (1024 - entry.length) NUL)) ∧
      List.IsPrefix entry (firstLine c) ∧ entry.length ≤ 1023 ∧
      ((firstLine c).length < 1024 → entry = firstLine c) ∧
      NL ∉ entry ∧ NL ∉ firstLine c ∧
      (c = firstLine c ∨ ∃ rest, c = firstLine c ++ NL :: rest) ∧
      (NUL ∉ entry → out.atLoopExit.heap.cstr (some p) = .ok entry) := by
  obtain ⟨out, e, hall⟩ := entry_at_loop_exit fs h files
  obtain ⟨hb, hcell⟩ := hall i f c hi hc hreach
  obtain ⟨p1, p2, p3, p4⟩ := entry_props c
  refine ⟨out, h.cells.length + i, getlineChars c 1024, e, hb, ?_, p1, p2, p3, p4,
    (firstLine_spec c).1, (firstLine_spec c).2, ?_⟩
  · rw [hcell, entryBuf_eq]
  · intro hn
    exact cstr_of_cell _ _ c hcell hn

theorem stored_entry_is_first_line_witness :
    demoFiles[0]? = some "basic.env" ∧
    demoFs "basic.env" = some ("DB_HOST=localhost".toList ++ [NL] ++ "DB_PORT=5432".toList) ∧
    (∀ (j : Nat) (g : String), j < 0 → demoFiles[j]? = some g → demoFs g ≠ none) ∧
    ∃ out p entry,
      load_multiple_configs demoFs emptyHeap demoFiles (demoFiles.length : Nat) = .ok out ∧
      out.atLoopExit.buffers[0]? = some p ∧
      out.atLoopExit.heap.cells[p]?
        = some (Cell.live (entry ++ List.replicate (1024 - entry.length) NUL)) ∧
      List.IsPrefix entry
        (firstLine ("DB_HOST=localhost".toList ++ [NL] ++ "DB_PORT=5432".toList)) ∧
      entry.length ≤ 1023 ∧
      ((firstLine ("DB_HOST=localhost".toList ++ [NL] ++ "DB_PORT=5432".toList)).length < 1024 →
        entry = firstLine ("DB_HOST=localhost".toList ++ [NL] ++ "DB_PORT=5432".toList)) ∧
      NL ∉ entry ∧
      NL ∉ firstLine ("DB_HOST=localhost".toList ++ [NL] ++ "DB_PORT=5432".toList) ∧
      ("DB_HOST=localhost".toList ++ [NL] ++ "DB_PORT=5432".toList
          = firstLine ("DB_HOST=localhost".toList ++ [NL] ++ "DB_PORT=5432".toList) ∨
        ∃ rest, "DB_HOST=localhost".toList ++ [NL] ++ "DB_PORT=5432".toList
          = firstLine ("DB_HOST=localhost".toList ++ [NL] ++ "DB_PORT=5432".toList)
            ++ NL :: rest) ∧
      (NUL ∉ entry → out.atLoopExit.heap.cstr (some p) = .ok entry) :=
  ⟨by decide, by decide, fun j _ hj => absurd hj (Nat.not_lt_zero j),
    stored_entry_is_first_line demoFs emptyHeap demoFiles 0 "basic.env"
      ("DB_HOST=localhost".toList ++ [NL] ++ "DB_PORT=5432".toList) (by decide) (by decide)
      (fun j _ hj => absurd hj (Nat.not_lt_zero j))⟩

theorem loaded2_entry (fs : FileSystem) (pre : List String) (hpre : ∀ g ∈ pre, fs g ≠ none)
    (i : Nat) (e2 : List Char)
    (he : (loaded2 fs { buffers := [], opened := [] } pre).buffers[i]? = some e2) :
    ∃ f c, pre[i]? = some f ∧ fs f = some c ∧ e2 = firstLine c := by
  simp only [loaded2, List.nil_append, List.getElem?_map] at he
  cases hf : pre[i]? with
  | none => simp [hf] at he
  | some f =>
    cases hc : fs f with
    | none => exact absurd hc (hpre f (mem_of_getElem? hf))
    | some c =>
      simp only [hf, hc, Option.map_some', Option.getD_some, Option.some.injEq] at he
      exact ⟨f, c, rfl, hc, he.symm⟩

theorem same_entry (cells : List Cell) (p : Nat) (c : List Char)
    (hcell : cells[p]? = some (Cell.live (entryBuf c)))
    (hshort : (firstLine c).length < 1024) :
    cells[p]? = some (Cell.live
      (firstLine c ++ List.replicate (1024 - (firstLine c).length) NUL)) := by
  have := (entry_props c).2.2.1 hshort
  rw [hcell, entryBuf_eq, this]

theorem getElem?_after {α : Type} (a b : List α) (x : α) (n : Nat)
    (hn : n = a.length + b.length) : (a ++ (b ++ [x]))[n]? = some x := by
  subst hn
  rw [List.getElem?_append_right (Nat.le_add_right _ _), Nat.add_sub_cancel_left,
    List.getElem?_append_right (Nat.le_refl _), Nat.sub_self]
  rfl

theorem strlen_zeroed : DotenvMem.strlen (List.replicate 1024 NUL) = some 0 := by
  have e : List.replicate 1024 NUL = [] ++ NUL :: List.replicate 1023 NUL := rfl
  rw [e, strlen_append_nul [] _ (by simp)]
  rfl

/-- The C strings read at the arrays stored for files that open, when every
first line is shorter than 1024 characters and holds no NUL: the first
lines. -/
theorem entries_loaded (fs : FileSystem) (cells : List Cell) (log : List Nat)
    (pre : List String) (extra : List Cell)
    (hgood : ∀ f ∈ pre, ∃ c, fs f = some c ∧ (firstLine c).length < 1024 ∧
      NUL ∉ firstLine c) :
    (List.range' cells.length pre.length).map
        (fun p => (Heap.mk (cells ++ (pre.map (fun g => Cell.live (entryBuf ((fs g).getD [])))
          ++ extra)) log).cstr (some p))
      = (pre.map (fun g => stdGetline ((fs g).getD []))).map Except.ok := by
  apply List.ext_getElem?
  intro i
  rw [List.getElem?_map, List.getElem?_map, List.getElem?_map]
  by_cases hlt : i < pre.length
  · obtain ⟨f, hf⟩ : ∃ f, pre[i]? = some f := ⟨pre[i], List.getElem?_eq_getElem hlt⟩
    obtain ⟨c, hc, hshort, hn⟩ := hgood f (mem_of_getElem? hf)
    have e := (entry_props c).2.2.1 hshort
    have hcell := entry_cell fs cells pre extra i f c hf hc
    have hcs := cstr_of_cell (Heap.mk (cells ++ (pre.map
      (fun g => Cell.live (entryBuf ((fs g).getD []))) ++ extra)) log)
      (cells.length + i) c hcell (by rw [e]; exact hn)
    rw [List.getElem?_range' _ _ hlt, hf]
    simp only [Option.map_some', Nat.one_mul]
    rw [hcs, e, hc]
    rfl
  · have h1 : (List.range' cells.length pre.length)[i]? = none :=
      List.getElem?_eq_none (by simpa using Nat.le_of_not_lt hlt)
    have h2 : pre[i]? = none := List.getElem?_eq_none (Nat.le_of_not_lt hlt)
    rw [h1, h2]
    rfl

theorem good_of_mem (fs : FileSystem) (files pre : List String)
    (hsub : ∀ f ∈ pre, f ∈ files) (hopen : ∀ g ∈ pre, fs g ≠ none)
    (hgood : ∀ (f : String) (c : List Char), f ∈ files → fs f = some c →
      (firstLine c).length < 1024 ∧ NUL ∉ firstLine c) :
    ∀ f ∈ pre, ∃ c, fs f = some c ∧ (firstLine c).length < 1024 ∧ NUL ∉ firstLine c := by
  intro f hf
  cases hc : fs f with
  | none => exact absurd hc (hopen f hf)
  | some c => exact ⟨c, rfl, hgood f c (hsub f hf) hc⟩

theorem entries_at_success (fs : FileSystem) (h : Heap) (files : List String)
    (hall : ∀ g ∈ files, fs g ≠ none)
    (hgood : ∀ (f : String) (c : List Char), f ∈ files → fs f = some c →
      (firstLine c).length < 1024 ∧ NUL ∉ firstLine c) :
    entries1 (loaded fs { heap := h, buffers := [], opened := [] } files)
      = entries2 (loaded2 fs { buffers := [], opened := [] } files) := by
  have hl := entries_loaded fs h.cells h.freeLog files []
    (good_of_mem fs files files (fun _ hf => hf) hall hgood)
  rw [List.append_nil] at hl
  unfold entries1 entries2
  rw [loaded_buffers, loaded_heap]
  simp only [loaded2, List.nil_append]
  exact hl

theorem entries_at_failure (fs : FileSystem) (h : Heap) (pre : List String) (f : String)
    (post : List String) (hpre : ∀ g ∈ pre, fs g ≠ none)
    (hgood : ∀ (g : String) (c : List Char), g ∈ pre ++ f :: post → fs g = some c →
      (firstLine c).length < 1024 ∧ NUL ∉ firstLine c) :
    entries1 (failedAt (loaded fs { heap := h, buffers := [], opened := [] } pre) f)
      = entries2 (failedAt2 (loaded2 fs { buffers := [], opened := [] } pre) f)
          ++ [Except.ok []] := by
  have hl := entries_loaded fs h.cells h.freeLog pre [Cell.live (List.replicate 1024 NUL)]
    (good_of_mem fs (pre ++ f :: post) pre (fun _ hf => List.mem_append_left _ hf) hpre hgood)
  have hlast : (Heap.mk (h.cells ++ (pre.map (fun g => Cell.live (entryBuf ((fs g).getD [])))
      ++ [Cell.live (List.replicate 1024 NUL)])) h.freeLog).cstr
        (some (h.cells.length + pre.length)) = Except.ok [] := by
    have hcell : (h.cells ++ (pre.map (fun g => Cell.live (entryBuf ((fs g).getD [])))
        ++ [Cell.live (List.replicate 1024 NUL)]))[h.cells.length + pre.length]?
          = some (Cell.live (List.replicate 1024 NUL)) := by
      exact getElem?_after h.cells _ _ _ (by simp)
    simp only [Heap.cstr, Heap.read, hcell, strlen_zeroed, List.take_zero]
  unfold entries1 entries2
  rw [failedAt_buffers, failedAt_heap, List.range'_concat, List.map_append, hl]
  simp only [failedAt2, loaded2, List.nil_append, List.map_cons, List.map_nil, Nat.one_mul]
  rw [hlast]

/-- C19, as stated, fails. On the files of the example of `main`, whose
first lines are all shorter than 1024 characters, both solutions leave by the
exception for the second file, and at that point Solution 1 has accumulated
two entries (the first line of the first file and the empty, zero-filled
array allocated for the file that did not open) while Solution 2 has
accumulated one. On a file whose only line is `ab`, NUL, `cd`, both
solutions return normally, and the entry of Solution 1 reads back as `ab`
while the entry of Solution 2 is the five characters of the line. -/
theorem solutions_entries_differ :
    ((∀ (f : String) (c : List Char), f ∈ demoFiles → demoFs f = some c →
        (firstLine c).length < 1024) ∧
      (∃ out st2,
        load_multiple_configs demoFs emptyHeap demoFiles (demoFiles.length : Nat) = .ok out ∧
        load_multiple_configs2 demoFs demoFiles (demoFiles.length : Nat)
          = .ok (st2, some "Cannot open file: nonexistent.env") ∧
        out.thrown = some "Cannot open file: nonexistent.env" ∧
        out.atLoopExit.buffers.length = 2 ∧ st2.buffers.length = 1 ∧
        entries1 out.atLoopExit = [Except.ok "DB_HOST=localhost".toList, Except.ok []] ∧
        entries2 st2 = [Except.ok "DB_HOST=localhost".toList]) ∧
      ¬ AgreeAsStated demoFs emptyHeap demoFiles) ∧
    ((∀ (f : String) (c : List Char), f ∈ ["nul.env"] → nulFs f = some c →
        (firstLine c).length < 1024) ∧
      (∃ out st2,
        load_multiple_configs nulFs emptyHeap ["nul.env"] 1 = .ok out ∧
        load_multiple_configs2 nulFs ["nul.env"] 1 = .ok (st2, none) ∧
        out.thrown = none ∧
        entries1 out.atLoopExit = [Except.ok "ab".toList] ∧
        entries2 st2 = [Except.ok ("ab".toList ++ [NUL] ++ "cd".toList)]) ∧
      ¬ AgreeAsStated nulFs emptyHeap ["nul.env"]) := by
  have hs1 : ∀ (f : String) (c : List Char), f ∈ demoFiles → demoFs f = some c →
      (firstLine c).length < 1024 := by
    intro f c hf hc
    simp only [demoFiles, List.mem_cons, List.mem_singleton, List.not_mem_nil, or_false] at hf
    rcases hf with rfl | rfl | rfl
    · have e : demoFs "basic.env"
          = some ("DB_HOST=localhost".toList ++ [NL] ++ "DB_PORT=5432".toList) := by decide
      rw [e] at hc
      simp only [Option.some.injEq] at hc
      subst hc
      decide
    · have e : demoFs "nonexistent.env" = none := by decide
      rw [e] at hc
      exact Option.noConfusion hc
    · have e : demoFs "complex.env" = some ("APP_NAME=demo".toList ++ [NL]) := by decide
      rw [e] at hc
      simp only [Option.some.injEq] at hc
      subst hc
      decide
  have hs2 : ∀ (f : String) (c : List Char), f ∈ ["nul.env"] → nulFs f = some c →
      (firstLine c).length < 1024 := by
    intro f c hf hc
    simp only [List.mem_singleton] at hf
    subst hf
    have e : nulFs "nul.env" = some ("ab".toList ++ [NUL] ++ "cd".toList) := by decide
    rw [e] at hc
    simp only [Option.some.injEq] at hc
    subst hc
    decide
  have r1 := load_fail demoFs emptyHeap ["basic.env"] "nonexistent.env" ["complex.env"]
    (by decide) (by decide)
  have r2 : load_multiple_configs2 demoFs demoFiles (demoFiles.length : Nat)
      = .ok (LoadState2.mk ["DB_HOST=localhost".toList]
          [("basic.env", true), ("nonexistent.env", false)],
        some "Cannot open file: nonexistent.env") := by decide
  have r3 := load_ok nulFs emptyHeap ["nul.env"] (by decide)
  have r4 : load_multiple_configs2 nulFs ["nul.env"] 1
      = .ok (LoadState2.mk ["ab".toList ++ [NUL] ++ "cd".toList] [("nul.env", true)],
        none) := by decide
  have d1 : entries1 (failedAt (loaded demoFs { heap := emptyHeap, buffers := [], opened := [] }
      ["basic.env"]) "nonexistent.env")
      = [Except.ok "DB_HOST=localhost".toList, Except.ok []] := by decide
  have d3 : entries1 (loaded nulFs { heap := emptyHeap, buffers := [], opened := [] }
      ["nul.env"]) = [Except.ok "ab".toList] := by decide
  refine ⟨⟨hs1, ⟨_, _, r1, r2, rfl, by decide, by decide, d1, by decide⟩, ?_⟩,
    ⟨hs2, ⟨_, _, r3, r4, rfl, d3, by decide⟩, ?_⟩⟩
  · intro hagree
    obtain ⟨out, st2, thrown2, a1, a2, _, a4⟩ := hagree hs1
    have a1' : load_multiple_configs demoFs emptyHeap
        (["basic.env"] ++ "nonexistent.env" :: ["complex.env"])
        ((["basic.env"] ++ "nonexistent.env" :: ["complex.env"]).length : Nat) = .ok out := a1
    rw [r1] at a1'
    rw [r2] at a2
    injection a1' with a1'
    injection a2 with a2
    injection a2 with a2 _
    subst a1'
    subst a2
    rw [show (LoadOutcome.mk (some ("Cannot open file: " ++ "nonexistent.env"))
        _ _ (failedAt (loaded demoFs { heap := emptyHeap, buffers := [], opened := [] }
          ["basic.env"]) "nonexistent.env")).atLoopExit
        = failedAt (loaded demoFs { heap := emptyHeap, buffers := [], opened := [] }
          ["basic.env"]) "nonexistent.env" from rfl, d1] at a4
    exact absurd a4 (by decide)
  · intro hagree
    obtain ⟨out, st2, thrown2, a1, a2, _, a4⟩ := hagree hs2
    have a1' : load_multiple_configs nulFs emptyHeap ["nul.env"]
        ((["nul.env"] : List String).length : Nat) = .ok out := a1
    have a2' : load_multiple_configs2 nulFs ["nul.env"] 1 = .ok (st2, thrown2) := a2
    rw [r3] at a1'
    rw [r4] at a2'
    injection a1' with a1'
    injection a2' with a2'
    injection a2' with a2' _
    subst a1'
    subst a2'
    rw [show (LoadOutcome.mk none _ _ (loaded nulFs
        { heap := emptyHeap, buffers := [], opened := [] } ["nul.env"])).atLoopExit
        = loaded nulFs { heap := emptyHeap, buffers := [], opened := [] } ["nul.env"]
        from rfl, d3] at a4
    exact absurd a4 (by decide)

/-- C19, amended. For every list of files and every file system, Solution 1
and Solution 2 of `load_multiple_configs` both return without a fault, both
normally (when every file opens) or both by the exception with the same
message, naming the first file that does not open, and have tried the same
files with the same results. When they return normally both vectors hold one
entry per file; when they leave by the exception the vector of Solution 1
holds one array more, allocated for the file that did not open. When the
first line of every file has fewer than 1024 characters, for every entry of
the vector of Solution 2 the array at the same position of the vector of
Solution 1 holds the same characters, followed only by NUL up to its 1024
characters. When moreover no first line holds a NUL, the entries of
Solution 1, read as C strings, are the entries of Solution 2 in the same
order when both return normally, and are the entries of Solution 2 in the
same order followed by one empty entry when both leave by the exception. -/
theorem solutions_agree (fs : FileSystem) (h : Heap) (files : List String) :
    ∃ out st2 thrown2,
      load_multiple_configs fs h files (files.length : Nat) = .ok out ∧
      load_multiple_configs2 fs files (files.length : Nat) = .ok (st2, thrown2) ∧
      out.thrown = thrown2 ∧ out.opened = st2.opened ∧
      ((thrown2 = none ∧ ∀ f ∈ files, fs f ≠ none) ∨
        ∃ f ∈ files, fs f = none ∧ thrown2 = some ("Cannot open file: " ++ f)) ∧
      (out.thrown = none →
        out.atLoopExit.buffers.length = files.length ∧ st2.buffers.length = files.length) ∧
      (out.thrown ≠ none → out.atLoopExit.buffers.length = st2.buffers.length + 1) ∧
      ((∀ (f : String) (c : List Char), f ∈ files → fs f = some c →
          (firstLine c).length < 1024) →
        ∀ (i : Nat) (e2 : List Char), st2.buffers[i]? = some e2 →
          ∃ p, out.atLoopExit.buffers[i]? = some p ∧
            out.atLoopExit.heap.cells[p]?
              = some (Cell.live (e2 ++ List.replicate (1024 - e2.length) NUL)) ∧
            (NUL ∉ e2 → out.atLoopExit.heap.cstr (some p) = .ok e2)) ∧
      ((∀ (f : String) (c : List Char), f ∈ files → fs f = some c →
          (firstLine c).length < 1024 ∧ NUL ∉ firstLine c) →
        (out.thrown = none → entries1 out.atLoopExit = entries2 st2) ∧
        (out.thrown ≠ none →
          entries1 out.atLoopExit = entries2 st2 ++ [Except.ok []])) := by
  by_cases hex : ∃ f ∈ files, fs f = none
  · obtain ⟨pre, f', post, e1, e2, e3⟩ := exists_first_fail fs files hex
    subst e1
    refine ⟨_, _, _, load_fail fs h pre f' post e2 e3, load2_fail fs pre f' post e2 e3, rfl,
      ?_, Or.inr ⟨f', by simp, e3, rfl⟩, ?_, ?_, ?_, ?_⟩
    · simp [failedAt2, loaded2]
    · intro hnone
      exact Option.noConfusion hnone
    · intro _
      show (failedAt (loaded fs { heap := h, buffers := [], opened := [] } pre)
        f').buffers.length = _
      rw [failedAt_buffers]
      simp [failedAt2, loaded2]
    · intro hshort i s2 hs2
      have hs2' : (loaded2 fs { buffers := [], opened := [] } pre).buffers[i]? = some s2 := hs2
      obtain ⟨f, c, hf, hc, hs⟩ := loaded2_entry fs pre e2 i s2 hs2'
      have hlt := getElem?_lt hf
      have hmem : f ∈ pre ++ f' :: post :=
        List.mem_append_left _ (mem_of_getElem? hf)
      have hcell : (failedAt (loaded fs { heap := h, buffers := [], opened := [] } pre)
          f').heap.cells[h.cells.length + i]? = some (Cell.live (entryBuf c)) := by
        rw [failedAt_heap]
        exact entry_cell fs h.cells pre _ i f c hf hc
      have hsh := hshort f c hmem hc
      refine ⟨h.cells.length + i, ?_, ?_, ?_⟩
      · show (failedAt (loaded fs { heap := h, buffers := [], opened := [] } pre)
          f').buffers[i]? = _
        rw [failedAt_buffers, List.getElem?_range' _ _ (by omega)]
        simp
      · rw [hs]
        exact same_entry _ _ c hcell hsh
      · intro hn
        rw [hs] at hn ⊢
        have := cstr_of_cell _ _ c hcell (by rw [(entry_props c).2.2.1 hsh]; exact hn)
        rw [(entry_props c).2.2.1 hsh] at this
        exact this
    · intro hgood
      refine ⟨?_, ?_⟩
      · intro hnone
        exact Option.noConfusion hnone
      · intro _
        exact entries_at_failure fs h pre f' post e2 hgood
  · have hall : ∀ g ∈ files, fs g ≠ none := fun g hg e => hex ⟨g, hg, e⟩
    refine ⟨_, _, _, load_ok fs h files hall, load2_ok fs files hall, rfl, ?_,
      Or.inl ⟨rfl, hall⟩, ?_, ?_, ?_, ?_⟩
    · simp [loaded2]
    · intro _
      exact ⟨by simp [loaded_buffers], by simp [loaded2]⟩
    · intro hne
      exact absurd rfl hne
    · intro hshort i s2 hs2
      have hs2' : (loaded2 fs { buffers := [], opened := [] } files).buffers[i]? = some s2 :=
        hs2
      obtain ⟨f, c, hf, hc, hs⟩ := loaded2_entry fs files hall i s2 hs2'
      have hlt := getElem?_lt hf
      have hcell : (loaded fs { heap := h, buffers := [], opened := [] }
          files).heap.cells[h.cells.length + i]? = some (Cell.live (entryBuf c)) := by
        rw [loaded_heap]
        have := entry_cell fs h.cells files [] i f c hf hc
        simpa using this
      have hsh := hshort f c (mem_of_getElem? hf) hc
      refine ⟨h.cells.length + i, ?_, ?_, ?_⟩
      · show (loaded fs { heap := h, buffers := [], opened := [] } files).buffers[i]? = _
        rw [loaded_buffers, List.getElem?_range' _ _ hlt]
        simp
      · rw [hs]
        exact same_entry _ _ c hcell hsh
      · intro hn
        rw [hs] at hn ⊢
        have := cstr_of_cell _ _ c hcell (by rw [(entry_props c).2.2.1 hsh]; exact hn)
        rw [(entry_props c).2.2.1 hsh] at this
        exact this
    · intro hgood
      refine ⟨?_, ?_⟩
      · intro _
        exact entries_at_success fs h files hall hgood
      · intro hne
        exact absurd rfl hne

theorem solutions_agree_witness :
    (∀ (f : String) (c : List Char), f ∈ demoFiles → demoFs f = some c →
      (firstLine c).length < 1024 ∧ NUL ∉ firstLine c) ∧
    (∃ out st2,
      load_multiple_configs demoFs emptyHeap demoFiles (demoFiles.length : Nat) = .ok out ∧
      load_multiple_configs2 demoFs demoFiles (demoFiles.length : Nat)
        = .ok (st2, some "Cannot open file: nonexistent.env") ∧
      out.thrown = some "Cannot open file: nonexistent.env" ∧
      out.opened = st2.opened ∧
      out.atLoopExit.buffers.length = st2.buffers.length + 1 ∧
      (∀ (i : Nat) (e2 : List Char), st2.buffers[i]? = some e2 →
        ∃ p, out.atLoopExit.buffers[i]? = some p ∧
          out.atLoopExit.heap.cells[p]?
            = some (Cell.live (e2 ++ List.replicate (1024 - e2.length) NUL)) ∧
          (NUL ∉ e2 → out.atLoopExit.heap.cstr (some p) = .ok e2)) ∧
      entries1 out.atLoopExit = entries2 st2 ++ [Except.ok []] ∧
      entries2 st2 = [Except.ok "DB_HOST=localhost".toList]) ∧
    (∀ (f : String) (c : List Char), f ∈ ["basic.env", "complex.env"] → demoFs f = some c →
      (firstLine c).length < 1024 ∧ NUL ∉ firstLine c) ∧
    (∃ out st2,
      load_multiple_configs demoFs emptyHeap ["basic.env", "complex.env"]
        ((["basic.env", "complex.env"] : List String).length : Nat) = .ok out ∧
      load_multiple_configs2 demoFs ["basic.env", "complex.env"]
        ((["basic.env", "complex.env"] : List String).length : Nat) = .ok (st2, none) ∧
      out.thrown = none ∧
      out.opened = st2.opened ∧
      out.atLoopExit.buffers.length = 2 ∧ st2.buffers.length = 2 ∧
      (∀ (i : Nat) (e2 : List Char), st2.buffers[i]? = some e2 →
        ∃ p, out.atLoopExit.buffers[i]? = some p ∧
          out.atLoopExit.heap.cells[p]?
            = some (Cell.live (e2 ++ List.replicate (1024 - e2.length) NUL)) ∧
          (NUL ∉ e2 → out.atLoopExit.heap.cstr (some p) = .ok e2)) ∧
      entries1 out.atLoopExit = entries2 st2 ∧
      entries2 st2
        = [Except.ok "DB_HOST=localhost".toList, Except.ok "APP_NAME=demo".toList]) := by
  have hb : ("DB_HOST=localhost".toList ++ [NL] ++ "DB_PORT=5432".toList).takeWhile
      (fun c => c != NL) = "DB_HOST=localhost".toList := by decide
  have hc : ("APP_NAME=demo".toList ++ [NL]).takeWhile (fun c => c != NL)
      = "APP_NAME=demo".toList := by decide
  have hg1 : ∀ (f : String) (c : List Char), f ∈ demoFiles → demoFs f = some c →
      (firstLine c).length < 1024 ∧ NUL ∉ firstLine c := by
    intro f c hf hfc
    simp only [demoFiles, List.mem_cons, List.mem_singleton, List.not_mem_nil, or_false] at hf
    rcases hf with rfl | rfl | rfl
    · have e : demoFs "basic.env"
          = some ("DB_HOST=localhost".toList ++ [NL] ++ "DB_PORT=5432".toList) := by decide
      rw [e] at hfc
      simp only [Option.some.injEq] at hfc
      subst hfc
      decide
    · have e : demoFs "nonexistent.env" = none := by decide
      rw [e] at hfc
      exact Option.noConfusion hfc
    · have e : demoFs "complex.env" = some ("APP_NAME=demo".toList ++ [NL]) := by decide
      rw [e] at hfc
      simp only [Option.some.injEq] at hfc
      subst hfc
      decide
  have hg2 : ∀ (f : String) (c : List Char), f ∈ ["basic.env", "complex.env"] →
      demoFs f = some c → (firstLine c).length < 1024 ∧ NUL ∉ firstLine c := by
    intro f c hf hfc
    exact hg1 f c (by
      simp only [List.mem_cons, List.mem_singleton, List.not_mem_nil, or_false] at hf
      rcases hf with rfl | rfl
      · decide
      · decide) hfc
  have r2 : load_multiple_configs2 demoFs demoFiles (demoFiles.length : Nat)
      = .ok (LoadState2.mk ["DB_HOST=localhost".toList]
          [("basic.env", true), ("nonexistent.env", false)],
        some "Cannot open file: nonexistent.env") := by decide
  have r4 : load_multiple_configs2 demoFs ["basic.env", "complex.env"]
      ((["basic.env", "complex.env"] : List String).length : Nat)
      = .ok (LoadState2.mk ["DB_HOST=localhost".toList, "APP_NAME=demo".toList]
          [("basic.env", true), ("complex.env", true)], none) := by decide
  refine ⟨hg1, ?_, hg2, ?_⟩
  · obtain ⟨out, st2, thrown2, a1, a2, a3, a4, _, _, a7, a8, a9⟩ :=
      solutions_agree demoFs emptyHeap demoFiles
    have e := a2.symm.trans r2
    injection e with e
    injection e with e1 e2
    subst e1
    subst e2
    have hne : out.thrown ≠ none := by
      rw [a3]
      exact fun hn => Option.noConfusion hn
    exact ⟨out, _, a1, r2, a3, a4, a7 hne, a8 (fun f c hf hfc => (hg1 f c hf hfc).1),
      (a9 hg1).2 hne, by decide⟩
  · obtain ⟨out, st2, thrown2, a1, a2, a3, a4, _, a6, _, a8, a9⟩ :=
      solutions_agree demoFs emptyHeap ["basic.env", "complex.env"]
    have e := a2.symm.trans r4
    injection e with e
    injection e with e1 e2
    subst e1
    subst e2
    exact ⟨out, _, a1, r4, a3, a4, (a6 a3).1, (a6 a3).2,
      a8 (fun f c hf hfc => (hg2 f c hf hfc).1), (a9 hg2).1 a3, by decide⟩

/-- C20. With `count = 0` both solutions of `load_multiple_configs` return
normally without trying to open a file; the vector is empty when the loop is
left, and the heap is left as it was: nothing is allocated and nothing
released. -/
theorem load_nothing (fs : FileSystem) (h : Heap) :
    (∃ out, load_multiple_configs fs h [] (([] : List String).length : Nat) = .ok out ∧
      out.thrown = none ∧ out.opened = [] ∧
      out.atLoopExit.buffers = [] ∧ out.atLoopExit.heap = h ∧
      out.heap = h ∧ out.heap.liveCount = h.liveCount) ∧
    load_multiple_configs2 fs [] (([] : List String).length : Nat)
      = .ok ({ buffers := [], opened := [] }, none) :=
  ⟨⟨_, rfl, rfl, rfl, rfl, rfl, rfl, rfl⟩, rfl⟩

end V4Fixed

namespace V1Buggy

/-- C12. In the buggy Problem 1 program the constructor allocates one array
of `len(s) + 1` characters and the destructor releases nothing: after a
`ConfigManager` is constructed from the C string `s` and destroyed, that
array is still live, the free log is unchanged and the number of live arrays
is one more than before (exactly one when none was live before). -/
theorem leak_after_destroy (h : Heap) (src : Nat) (s rest : List Char) (hs : NUL ∉ s)
    (hsrc : h.read (some src) = .ok (s ++ NUL :: rest)) :
    ∃ h1 config h2,
      ConfigManager.construct h (some src) = .ok (h1, config) ∧
      ConfigManager.destroy h1 config = .ok h2 ∧
      config.env_filename_ = some h.cells.length ∧
      h2.cells = h.cells ++ [Cell.live (s ++ [NUL])] ∧
      (s ++ [NUL]).length = s.length + 1 ∧
      h2.freeLog = h.freeLog ∧
      h2.liveCount = h.liveCount + 1 ∧
      (h.liveCount = 0 → h2.liveCount = 1) := by
  obtain ⟨e1, e2⟩ := Heap.dup_cstring h src s rest hs hsrc
  have hl := Heap.liveCount_push h (s ++ [NUL])
  refine ⟨h.push (s ++ [NUL]), { env_filename_ := some h.cells.length }, h.push (s ++ [NUL]),
    ?_, rfl, rfl, rfl, by simp, rfl, hl, ?_⟩
  · simp only [ConfigManager.construct, e1, e2]
    rfl
  · intro h0
    rw [hl, h0]

theorem leak_after_destroy_witness :
    NUL ∉ "basic.env".toList ∧
    (V2Fixed.init V2Fixed.demoStrings).heap.read (some 0)
      = .ok ("basic.env".toList ++ NUL :: []) ∧
    ∃ h1 config h2,
      ConfigManager.construct (V2Fixed.init V2Fixed.demoStrings).heap (some 0)
        = .ok (h1, config) ∧
      ConfigManager.destroy h1 config = .ok h2 ∧
      config.env_filename_ = some (V2Fixed.init V2Fixed.demoStrings).heap.cells.length ∧
      h2.cells = (V2Fixed.init V2Fixed.demoStrings).heap.cells ++
        [Cell.live ("basic.env".toList ++ [NUL])] ∧
      ("basic.env".toList ++ [NUL]).length = "basic.env".toList.length + 1 ∧
      h2.freeLog = (V2Fixed.init V2Fixed.demoStrings).heap.freeLog ∧
      h2.liveCount = (V2Fixed.init V2Fixed.demoStrings).heap.liveCount + 1 ∧
      ((V2Fixed.init V2Fixed.demoStrings).heap.liveCount = 0 → h2.liveCount = 1) :=
  ⟨by decide, by decide,
    leak_after_destroy (V2Fixed.init V2Fixed.demoStrings).heap 0 "basic.env".toList []
      (by decide) (by decide)⟩

end V1Buggy

namespace V1Fixed

theorem runCalls_ok (dotenvInit : List Char → Env → Env) (h : Heap) (this : ConfigManager)
    (name : List Char) (hname : h.cstr this.env_filename_ = .ok name) (calls : List Call) :
    ∀ env : Env, ∃ env1 vals, runCalls dotenvInit h this env calls = .ok (h, env1, vals) := by
  induction calls with
  | nil => exact fun env => ⟨env, [], rfl⟩
  | cons c cs ih =>
    intro env
    cases c with
    | load_config =>
      obtain ⟨env1, vals, e⟩ := ih (dotenvInit name env)
      exact ⟨env1, vals, by simp [runCalls, ConfigManager.load_config, hname, e]⟩
    | get_value key =>
      obtain ⟨env1, vals, e⟩ := ih env
      exact ⟨env1, ConfigManager.get_value env this key :: vals, by simp [runCalls, e]⟩

/-- C13. In the fixed Problem 1 program (Solution 1), after a `ConfigManager`
is constructed from the C string `s`, any sequence of `load_config` and
`get_value` calls returns and leaves the heap as it is, and the destructor
then gives the constructor's array to `delete[]` exactly once: the free log
grows by that one address, the array is released, the member is `nullptr`,
and the number of live arrays is what it was before the construction. -/
theorem no_leak_after_destroy (dotenvInit : List Char → Env → Env) (env : Env)
    (calls : List Call) (h : Heap) (src : Nat) (s rest : List Char) (hs : NUL ∉ s)
    (hsrc : h.read (some src) = .ok (s ++ NUL :: rest)) :
    ∃ h1 config env1 vals h2 config',
      ConfigManager.construct h (some src) = .ok (h1, config) ∧
      config.env_filename_ = some h.cells.length ∧
      h1.cells = h.cells ++ [Cell.live (s ++ [NUL])] ∧
      runCalls dotenvInit h1 config env calls = .ok (h1, env1, vals) ∧
      ConfigManager.destroy h1 config = .ok (h2, config') ∧
      config'.env_filename_ = none ∧
      h2.freeLog = h.freeLog ++ [h.cells.length] ∧
      h2.cells = h.cells ++ [Cell.freed] ∧
      h2.liveCount = h.liveCount := by
  obtain ⟨e1, e2⟩ := Heap.dup_cstring h src s rest hs hsrc
  obtain ⟨env1, vals, e3⟩ := runCalls_ok dotenvInit (h.push (s ++ [NUL]))
    { env_filename_ := some h.cells.length } s (Heap.cstr_push_new h s hs) calls env
  refine ⟨h.push (s ++ [NUL]), { env_filename_ := some h.cells.length }, env1, vals,
    { cells := h.cells ++ [Cell.freed], freeLog := h.freeLog ++ [h.cells.length] },
    { env_filename_ := none }, ?_, rfl, rfl, e3, ?_, rfl, rfl, rfl, ?_⟩
  · simp only [ConfigManager.construct, e1, e2]
    rfl
  · simp [ConfigManager.destroy, Heap.delete_push_new]
  · simp [Heap.liveCount, List.countP_append]

theorem no_leak_after_destroy_witness :
    NUL ∉ "basic.env".toList ∧
    (V2Fixed.init V2Fixed.demoStrings).heap.read (some 0)
      = .ok ("basic.env".toList ++ NUL :: []) ∧
    ∃ h1 config env1 vals h2 config',
      ConfigManager.construct (V2Fixed.init V2Fixed.demoStrings).heap (some 0)
        = .ok (h1, config) ∧
      config.env_filename_ = some (V2Fixed.init V2Fixed.demoStrings).heap.cells.length ∧
      h1.cells = (V2Fixed.init V2Fixed.demoStrings).heap.cells ++
        [Cell.live ("basic.env".toList ++ [NUL])] ∧
      runCalls (fun _ e => e) h1 config (fun _ => none)
        [Call.load_config, Call.get_value "DATABASE_HOST"] = .ok (h1, env1, vals) ∧
      ConfigManager.destroy h1 config = .ok (h2, config') ∧
      config'.env_filename_ = none ∧
      h2.freeLog = (V2Fixed.init V2Fixed.demoStrings).heap.freeLog ++
        [(V2Fixed.init V2Fixed.demoStrings).heap.cells.length] ∧
      h2.cells = (V2Fixed.init V2Fixed.demoStrings).heap.cells ++ [Cell.freed] ∧
      h2.liveCount = (V2Fixed.init V2Fixed.demoStrings).heap.liveCount :=
  ⟨by decide, by decide,
    no_leak_after_destroy (fun _ e => e) (fun _ => none)
      [Call.load_config, Call.get_value "DATABASE_HOST"]
      (V2Fixed.init V2Fixed.demoStrings).heap 0 "basic.env".toList [] (by decide)
      (by decide)⟩

end V1Fixed

namespace V2Buggy

/-- C14. In the buggy Problem 2 program, after `config1` is constructed from
the C string `s`, the compiler-generated copy `config2` holds the same
address as `config1`. Destroying `config2` releases the array at that
address; `config1` still holds the address, a read through it is then a use
after free, and destroying `config1` gives the same address to `delete[]` a
second time: a double free, which is how the block of `main` ends. -/
theorem double_free_on_copy (h : Heap) (src : Nat) (s rest : List Char) (hs : NUL ∉ s)
    (hsrc : h.read (some src) = .ok (s ++ NUL :: rest)) :
    ∃ h1 config1 h2 config2',
      ConfigManager.construct h (some src) = .ok (h1, config1) ∧
      config1.env_filename_ = some h.cells.length ∧
      (ConfigManager.copyConstruct config1).env_filename_ = config1.env_filename_ ∧
      h1.cells[h.cells.length]? = some (Cell.live (s ++ [NUL])) ∧
      ConfigManager.destroy h1 (ConfigManager.copyConstruct config1) = .ok (h2, config2') ∧
      h2.freeLog = h.freeLog ++ [h.cells.length] ∧
      h2.cells[h.cells.length]? = some Cell.freed ∧
      h2.read config1.env_filename_ = .error Fault.useAfterFree ∧
      ConfigManager.destroy h2 config1 = .error Fault.doubleFree ∧
      mainBlock h (some src) = .error Fault.doubleFree := by
  obtain ⟨e1, e2⟩ := Heap.dup_cstring h src s rest hs hsrc
  have hc : ConfigManager.construct h (some src)
      = .ok (h.push (s ++ [NUL]), { env_filename_ := some h.cells.length }) := by
    simp only [ConfigManager.construct, e1, e2]
    rfl
  have hd1 : ConfigManager.destroy (h.push (s ++ [NUL]))
      (ConfigManager.copyConstruct { env_filename_ := some h.cells.length })
      = .ok ({ cells := h.cells ++ [Cell.freed], freeLog := h.freeLog ++ [h.cells.length] },
          { env_filename_ := none }) := by
    simp [ConfigManager.destroy, ConfigManager.copyConstruct, Heap.delete_push_new]
  have hd2 : ConfigManager.destroy
      { cells := h.cells ++ [Cell.freed], freeLog := h.freeLog ++ [h.cells.length] }
      { env_filename_ := some h.cells.length } = .error Fault.doubleFree := by
    simp [ConfigManager.destroy, Heap.deleteArray]
  refine ⟨_, _, _, _, hc, rfl, rfl, by simp [Heap.push], hd1, rfl, by simp, ?_, hd2, ?_⟩
  · simp [Heap.read]
  · simp only [mainBlock, hc, hd1, hd2]

theorem double_free_on_copy_witness :
    NUL ∉ "basic.env".toList ∧
    (V2Fixed.init V2Fixed.demoStrings).heap.read (some 0)
      = .ok ("basic.env".toList ++ NUL :: []) ∧
    ∃ h1 config1 h2 config2',
      ConfigManager.construct (V2Fixed.init V2Fixed.demoStrings).heap (some 0)
        = .ok (h1, config1) ∧
      config1.env_filename_ = some (V2Fixed.init V2Fixed.demoStrings).heap.cells.length ∧
      (ConfigManager.copyConstruct config1).env_filename_ = config1.env_filename_ ∧
      h1.cells[(V2Fixed.init V2Fixed.demoStrings).heap.cells.length]?
        = some (Cell.live ("basic.env".toList ++ [NUL])) ∧
      ConfigManager.destroy h1 (ConfigManager.copyConstruct config1) = .ok (h2, config2') ∧
      h2.freeLog = (V2Fixed.init V2Fixed.demoStrings).heap.freeLog ++
        [(V2Fixed.init V2Fixed.demoStrings).heap.cells.length] ∧
      h2.cells[(V2Fixed.init V2Fixed.demoStrings).heap.cells.length]? = some Cell.freed ∧
      h2.read config1.env_filename_ = .error Fault.useAfterFree ∧
      ConfigManager.destroy h2 config1 = .error Fault.doubleFree ∧
      mainBlock (V2Fixed.init V2Fixed.demoStrings).heap (some 0)
        = .error Fault.doubleFree :=
  ⟨by decide, by decide,
    double_free_on_copy (V2Fixed.init V2Fixed.demoStrings).heap 0 "basic.env".toList []
      (by decide) (by decide)⟩

end V2Buggy

namespace V4Buggy

open V4Fixed

theorem loadLoop_eq_fixed (fs : FileSystem) (files : List String) :
    ∀ (n i : Nat) (st : LoadState), st.buffers.length = i →
      V4Buggy.loadLoop fs files n i st = V4Fixed.loadLoop fs files n i st := by
  intro n
  induction n with
  | zero =>
    intro i st _
    simp [V4Buggy.loadLoop, V4Fixed.loadLoop]
  | succ k ih =>
    intro i st hlen
    have hidx : (st.buffers ++ [(st.heap.newArray 1024).2])[i]?
        = (st.buffers ++ [(st.heap.newArray 1024).2]).getLast? := by
      rw [← hlen, List.getElem?_append_right (Nat.le_refl _)]
      simp
    have hrec : ∀ h2 name, V4Buggy.loadLoop fs files k (i + 1)
          { heap := h2, buffers := st.buffers ++ [(st.heap.newArray 1024).2],
            opened := st.opened ++ [(name, true)] }
        = V4Fixed.loadLoop fs files k (i + 1)
          { heap := h2, buffers := st.buffers ++ [(st.heap.newArray 1024).2],
            opened := st.opened ++ [(name, true)] } := by
      intro h2 name
      exact ih (i + 1) _ (by simp [hlen])
    simp only [V4Buggy.loadLoop, V4Fixed.loadLoop, hidx, hrec]

theorem cleanupLoop_eq (rest : List Nat) :
    ∀ (done : List Nat) (h : Heap),
      cleanupLoop (done ++ rest) rest.length done.length h = destroyBuffers h rest := by
  induction rest with
  | nil =>
    intro done h
    simp [cleanupLoop, destroyBuffers]
  | cons p ps ih =>
    intro done h
    have hget : (done ++ p :: ps)[done.length]? = some p := by
      rw [List.getElem?_append_right (Nat.le_refl _)]
      simp
    have e1 : done ++ p :: ps = (done ++ [p]) ++ ps := by simp
    have e2 : done.length + 1 = (done ++ [p]).length := by simp
    have hrec : ∀ h1, cleanupLoop (done ++ p :: ps) ps.length (done.length + 1) h1
        = destroyBuffers h1 ps := by
      intro h1
      rw [e1, e2]
      exact ih (done ++ [p]) h1
    simp only [List.length_cons, cleanupLoop, hget, destroyBuffers, hrec]

theorem countP_live_map (l : List String) (g : String → List Char) :
    List.countP (fun c => match c with | Cell.live _ => true | _ => false)
      (l.map (fun f => Cell.live (g f))) = l.length := by
  induction l with
  | nil => rfl
  | cons x xs ih => simp [List.countP_cons, ih]

theorem load_buggy_fail (fs : FileSystem) (h : Heap) (pre : List String) (f : String)
    (post : List String) (hpre : ∀ g ∈ pre, fs g ≠ none) (hf : fs f = none) :
    V4Buggy.load_multiple_configs fs h (pre ++ f :: post) ((pre ++ f :: post).length : Nat)
      = .ok { thrown := some ("Cannot open file: " ++ f),
              heap := (failedAt (loaded fs
                { heap := (h.newArray (pre ++ f :: post).length).1, buffers := [],
                  opened := [] } pre) f).heap,
              opened := (failedAt (loaded fs
                { heap := (h.newArray (pre ++ f :: post).length).1, buffers := [],
                  opened := [] } pre) f).opened,
              atLoopExit := failedAt (loaded fs
                { heap := (h.newArray (pre ++ f :: post).length).1, buffers := [],
                  opened := [] } pre) f } := by
  have hl := loop_fail fs pre f post hf []
    { heap := (h.newArray (pre ++ f :: post).length).1, buffers := [], opened := [] }
    (pre.length + post.length) hpre rfl
  have hlen : (pre ++ f :: post).length = pre.length + post.length + 1 := by
    simp only [List.length_append, List.length_cons]
    omega
  simp only [List.nil_append, List.length_nil] at hl
  have hq := loadLoop_eq_fixed fs (pre ++ f :: post) (pre.length + post.length + 1) 0
    { heap := (h.newArray (pre ++ f :: post).length).1, buffers := [], opened := [] } rfl
  unfold V4Buggy.load_multiple_configs
  rw [Int.toNat_ofNat]
  rw [hlen] at hl hq ⊢
  rw [hq, hl]

theorem cleanup_all (fs : FileSystem) (h : Heap) (files : List String) :
    cleanupLoop
        (loaded fs { heap := (h.newArray files.length).1, buffers := [], opened := [] }
          files).buffers files.length 0
        (loaded fs { heap := (h.newArray files.length).1, buffers := [], opened := [] }
          files).heap
      = .ok { cells := h.cells ++ [Cell.live (List.replicate files.length NUL)] ++
                List.replicate files.length Cell.freed,
              freeLog := h.freeLog ++ List.range' (h.cells.length + 1) files.length } := by
  have hd := destroyBuffers_fresh
    (files.map (fun g => Cell.live (entryBuf ((fs g).getD []))))
    (h.cells ++ [Cell.live (List.replicate files.length NUL)]) h.freeLog (by
        intro c hc
        simp only [List.mem_map] at hc
        obtain ⟨g, _, rfl⟩ := hc
        exact ⟨_, rfl⟩)
  simp only [List.length_map, List.length_append, List.length_singleton] at hd
  have hc := cleanupLoop_eq (List.range' (h.cells.length + 1) files.length) []
    { cells := (h.cells ++ [Cell.live (List.replicate files.length NUL)]) ++
        files.map (fun g => Cell.live (entryBuf ((fs g).getD []))),
      freeLog := h.freeLog }
  simp only [List.nil_append, List.length_nil, List.length_range'] at hc
  have hlenc : (h.newArray files.length).1.cells.length = h.cells.length + 1 := by
    simp [Heap.newArray]
  rw [loaded_buffers, loaded_heap, hlenc]
  exact hc.trans hd

theorem delete_pointer_array (cells : List Cell) (log : List Nat) (b : List Char) (n : Nat) :
    Heap.deleteArray { cells := cells ++ [Cell.live b] ++ List.replicate n Cell.freed,
                       freeLog := log } (some cells.length)
      = .ok { cells := cells ++ List.replicate (n + 1) Cell.freed,
              freeLog := log ++ [cells.length] } := by
  have hget : (cells ++ [Cell.live b] ++ List.replicate n Cell.freed)[cells.length]?
      = some (Cell.live b) := by
    rw [List.append_assoc, List.getElem?_append_right (Nat.le_refl _)]
    simp
  have hset : (cells ++ [Cell.live b] ++ List.replicate n Cell.freed).set cells.length
      Cell.freed = cells ++ List.replicate (n + 1) Cell.freed := by
    rw [List.append_assoc, List.set_append_right _ _ (Nat.le_refl _)]
    simp [List.replicate_succ]
  simp only [Heap.deleteArray, hget, hset]

theorem load_buggy_ok (fs : FileSystem) (h : Heap) (files : List String)
    (hall : ∀ g ∈ files, fs g ≠ none) :
    V4Buggy.load_multiple_configs fs h files (files.length : Nat)
      = .ok { thrown := none,
              heap := { cells := h.cells ++ List.replicate (files.length + 1) Cell.freed,
                        freeLog := h.freeLog ++ List.range' (h.cells.length + 1) files.length
                          ++ [h.cells.length] },
              opened := (loaded fs
                { heap := (h.newArray files.length).1, buffers := [], opened := [] }
                files).opened,
              atLoopExit := loaded fs
                { heap := (h.newArray files.length).1, buffers := [], opened := [] }
                files } := by
  have hl := loop_all fs files []
    { heap := (h.newArray files.length).1, buffers := [], opened := [] } hall
  simp only [List.nil_append, List.length_nil] at hl
  have hq := loadLoop_eq_fixed fs files files.length 0
    { heap := (h.newArray files.length).1, buffers := [], opened := [] } rfl
  have hdel := delete_pointer_array h.cells
    (h.freeLog ++ List.range' (h.cells.length + 1) files.length)
    (List.replicate files.length NUL) files.length
  have e2 : (h.newArray files.length).2 = h.cells.length := rfl
  unfold V4Buggy.load_multiple_configs
  rw [Int.toNat_ofNat, hq, hl]
  simp only [cleanup_all, e2, hdel]

/-- C15. In the buggy `load_multiple_configs`, when the first file that
cannot be opened is at index `k`, the exception leaves the function with the
pointer array and the `k + 1` arrays allocated so far all live: the heap has
`k + 2` more live arrays than before the call and nothing was given to
`delete[]`. When every file opens, the `count + 1` arrays the call allocated
are each given to `delete[]` exactly once and released, and the number of
live arrays is what it was before the call. -/
theorem leak_on_exception (fs : FileSystem) (h : Heap) (files : List String) :
    (∀ (k : Nat) (f : String), files[k]? = some f → fs f = none →
      (∀ (j : Nat) (g : String), j < k → files[j]? = some g → fs g ≠ none) →
      ∃ out news,
        V4Buggy.load_multiple_configs fs h files (files.length : Nat) = .ok out ∧
        out.thrown = some ("Cannot open file: " ++ f) ∧
        out.heap.cells = h.cells ++ news ∧ news.length = k + 2 ∧
        (∀ c ∈ news, ∃ b, c = Cell.live b) ∧
        out.heap.freeLog = h.freeLog ∧
        out.heap.liveCount = h.liveCount + (k + 2)) ∧
    ((∀ f ∈ files, fs f ≠ none) →
      ∃ out,
        V4Buggy.load_multiple_configs fs h files (files.length : Nat) = .ok out ∧
        out.thrown = none ∧
        out.heap.cells = h.cells ++ List.replicate (files.length + 1) Cell.freed ∧
        out.heap.freeLog = h.freeLog ++
          (List.range' (h.cells.length + 1) files.length ++ [h.cells.length]) ∧
        (List.range' (h.cells.length + 1) files.length ++ [h.cells.length]).Nodup ∧
        out.heap.liveCount = h.liveCount) := by
  constructor
  · intro k f hk hf hmin
    have hsplit := split_at_index files k f hk
    have hklt := getElem?_lt hk
    have hpre : ∀ g ∈ files.take k, fs g ≠ none := by
      intro g hg
      obtain ⟨j, hj⟩ := List.mem_iff_getElem?.mp hg
      rw [List.getElem?_take] at hj
      by_cases hjk : j < k
      · simp only [hjk, if_true] at hj
        exact hmin j g hjk hj
      · simp [hjk] at hj
    have := load_buggy_fail fs h (files.take k) f (files.drop (k + 1)) hpre hf
    rw [← hsplit] at this
    have htk : (files.take k).length = k := by
      rw [List.length_take]
      omega
    have hcells : (failedAt (loaded fs
          { heap := (h.newArray files.length).1, buffers := [], opened := [] }
          (files.take k)) f).heap
        = { cells := h.cells ++ (Cell.live (List.replicate files.length NUL) ::
              ((files.take k).map (fun g => Cell.live (entryBuf ((fs g).getD [])))
                ++ [Cell.live (List.replicate 1024 NUL)])),
            freeLog := h.freeLog } := by
      rw [failedAt_heap]
      simp only [Heap.newArray, List.append_assoc, List.singleton_append]
    refine ⟨_, Cell.live (List.replicate files.length NUL) ::
        ((files.take k).map (fun g => Cell.live (entryBuf ((fs g).getD [])))
          ++ [Cell.live (List.replicate 1024 NUL)]), this, rfl, ?_, ?_, ?_, ?_, ?_⟩
    · show Heap.cells _ = _
      rw [hcells]
    · simp only [List.length_cons, List.length_append, List.length_map, List.length_nil,
        htk]
    · intro c hc
      rcases List.mem_cons.mp hc with rfl | hc'
      · exact ⟨_, rfl⟩
      · rcases List.mem_append.mp hc' with hm | hm
        · obtain ⟨g, _, rfl⟩ := List.mem_map.mp hm
          exact ⟨_, rfl⟩
        · rw [List.mem_singleton.mp hm]
          exact ⟨_, rfl⟩
    · show Heap.freeLog _ = _
      rw [hcells]
    · show Heap.liveCount _ = _
      rw [hcells]
      simp only [Heap.liveCount, List.countP_append, List.countP_cons, countP_live_map,
        List.countP_nil, htk, if_true]
  · intro hall
    refine ⟨_, load_buggy_ok fs h files hall, rfl, rfl, by simp only [List.append_assoc],
      ?_, ?_⟩
    · rw [List.nodup_append]
      refine ⟨List.nodup_range' _ _, List.nodup_singleton _, ?_⟩
      intro a ha hb
      simp only [List.mem_singleton] at hb
      subst hb
      rw [List.mem_range'_1] at ha
      omega
    · simp only [Heap.liveCount, List.countP_append, countP_live_replicate_freed, Nat.add_zero]

theorem leak_on_exception_witness :
    demoFiles[1]? = some "nonexistent.env" ∧ demoFs "nonexistent.env" = none ∧
    (∀ (j : Nat) (g : String), j < 1 → demoFiles[j]? = some g → demoFs g ≠ none) ∧
    (∃ out news,
      V4Buggy.load_multiple_configs demoFs emptyHeap demoFiles (demoFiles.length : Nat)
        = .ok out ∧
      out.thrown = some ("Cannot open file: " ++ "nonexistent.env") ∧
      out.heap.cells = emptyHeap.cells ++ news ∧ news.length = 1 + 2 ∧
      (∀ c ∈ news, ∃ b, c = Cell.live b) ∧
      out.heap.freeLog = emptyHeap.freeLog ∧
      out.heap.liveCount = emptyHeap.liveCount + (1 + 2)) ∧
    (∀ f ∈ ["basic.env", "complex.env"], demoFs f ≠ none) ∧
    (∃ out,
      V4Buggy.load_multiple_configs demoFs emptyHeap ["basic.env", "complex.env"]
        ((["basic.env", "complex.env"] : List String).length : Nat) = .ok out ∧
      out.thrown = none ∧
      out.heap.cells = emptyHeap.cells ++
        List.replicate ((["basic.env", "complex.env"] : List String).length + 1) Cell.freed ∧
      out.heap.freeLog = emptyHeap.freeLog ++
        (List.range' (emptyHeap.cells.length + 1)
            (["basic.env", "complex.env"] : List String).length
          ++ [emptyHeap.cells.length]) ∧
      (List.range' (emptyHeap.cells.length + 1)
          (["basic.env", "complex.env"] : List String).length
        ++ [emptyHeap.cells.length]).Nodup ∧
      out.heap.liveCount = emptyHeap.liveCount) :=
  have hmin : ∀ (j : Nat) (g : String), j < 1 → demoFiles[j]? = some g → demoFs g ≠ none := by
    intro j g hj hg
    have hj0 : j = 0 := by omega
    subst hj0
    have hg' : g = "basic.env" := by
      simp only [demoFiles, List.getElem?_cons_zero, Option.some.injEq] at hg
      exact hg.symm
    subst hg'
    decide
  ⟨by decide, by decide, hmin,
    (leak_on_exception demoFs emptyHeap demoFiles).1 1 "nonexistent.env" (by decide)
      (by decide) hmin,
    by decide,
    (leak_on_exception demoFs emptyHeap ["basic.env", "complex.env"]).2 (by decide)⟩

end V4Buggy

namespace V3

theorem localArray_length (n : Nat) (junk : List Char) : (localArray n junk).length = n := by
  simp [localArray, List.length_take]

theorem readLocal_top (stack : List (List Char)) (a : List Char) :
    readLocal (stack ++ [a]) stack.length = .ok a := by
  simp [readLocal]

theorem set_top (stack : List (List Char)) (a b : List Char) :
    (stack ++ [a]).set stack.length b = stack ++ [b] := by
  simp

theorem take_below_top (stack : List (List Char)) (b : List Char) :
    (stack ++ [b]).take stack.length = stack := by
  simp

theorem readLocal_beyond (stack : List (List Char)) (p : Nat) (hp : stack.length ≤ p) :
    readLocal stack p = .error Fault.useAfterReturn := by
  simp [readLocal, List.getElem?_eq_none hp]

theorem snprintf_ok (buf text : List Char) (hpos : 0 < buf.length) :
    snprintf buf buf.length text
      = .ok (text.take (buf.length - 1) ++ NUL ::
          buf.drop ((text.take (buf.length - 1)).length + 1)) := by
  have hle : (text.take (buf.length - 1)).length + 1 ≤ buf.length := by
    have : (text.take (buf.length - 1)).length ≤ buf.length - 1 := by
      simp [List.length_take]
    omega
  unfold snprintf
  rw [if_neg (by omega), if_pos hle]

theorem snprintf_length (buf text : List Char) (hpos : 0 < buf.length) :
    (text.take (buf.length - 1) ++ NUL ::
      buf.drop ((text.take (buf.length - 1)).length + 1)).length = buf.length := by
  have : (text.take (buf.length - 1)).length ≤ buf.length - 1 := by
    simp [List.length_take]
  simp only [List.length_append, List.length_cons, List.length_drop]
  omega

theorem fallback_no_nul : NUL ∉ fallbackText := by decide

theorem fallback_length : fallbackText.length = 32 := by decide

theorem strcpyArray_fallback (buf : List Char) (hlen : fallbackText.length + 1 ≤ buf.length) :
    strcpyArray buf (fallbackText ++ [NUL])
      = .ok (fallbackText ++ NUL :: buf.drop (fallbackText.length + 1)) := by
  have hn := strlen_append_nul fallbackText [] fallback_no_nul
  have ht : (fallbackText ++ [NUL]).take (fallbackText.length + 1) = fallbackText ++ [NUL] :=
    List.take_of_length_le (by rw [List.length_append, List.length_singleton])
  unfold strcpyArray
  rw [hn]
  simp only [if_pos hlen, ht, List.append_assoc, List.singleton_append]

theorem strlen_le_of_append_nul (t rest : List Char) :
    ∃ n, strlen (t ++ NUL :: rest) = some n ∧ n ≤ t.length := by
  induction t with
  | nil => exact ⟨0, by simp [strlen], Nat.le_refl _⟩
  | cons c cs ih =>
    by_cases hc : c = NUL
    · exact ⟨0, by simp [strlen, hc], Nat.zero_le _⟩
    · obtain ⟨n, hn, hle⟩ := ih
      exact ⟨n + 1, by simp [strlen, hc, hn], by simp; omega⟩

theorem stdString_prefix (t rest : List Char) :
    ∃ v, stdString (t ++ NUL :: rest) = .ok v ∧ List.IsPrefix v t := by
  obtain ⟨n, hn, hle⟩ := strlen_le_of_append_nul t rest
  refine ⟨(t ++ NUL :: rest).take n, by simp [stdString, hn], ?_⟩
  rw [List.take_append_of_le_length hle]
  exact List.take_prefix _ _

theorem stdString_exact (t rest : List Char) (ht : NUL ∉ t) :
    stdString (t ++ NUL :: rest) = .ok t := by
  simp [stdString, strlen_append_nul t rest ht]

theorem connText_length (host port : List Char) :
    (connText host port).length = host.length + port.length + 19 := by
  have e1 : "postgresql://".toList.length = 13 := by decide
  have e2 : ":".toList.length = 1 := by decide
  have e3 : "/mydb".toList.length = 5 := by decide
  simp only [connText, List.length_append, e1, e2, e3]
  omega

theorem connText_no_nul (host port : List Char) (hh : NUL ∉ host) (hp : NUL ∉ port) :
    NUL ∉ connText host port := by
  have e1 : NUL ∉ "postgresql://".toList := by decide
  have e2 : NUL ∉ ":".toList := by decide
  have e3 : NUL ∉ "/mydb".toList := by decide
  simp only [connText, List.mem_append, not_or]
  exact ⟨⟨⟨⟨e1, hh⟩, e2⟩, hp⟩, e3⟩

/-- What the statements that fill the buffer leave in an array of 256
characters: the text, cut to 255 characters, then NUL, then what the array
held. -/
theorem fillBuffer_spec (env : Env) (buf : List Char) (hlen : buf.length = 256) :
    ∃ t rest, fillBuffer env buf = .ok (t ++ NUL :: rest) ∧
      (t ++ NUL :: rest).length = 256 ∧ t = (untruncatedText env).take 255 := by
  have hpos : 0 < buf.length := by omega
  have h255 : buf.length - 1 = 255 := by omega
  unfold fillBuffer untruncatedText
  cases hh : env "DB_HOST" with
  | none =>
    refine ⟨fallbackText, buf.drop (fallbackText.length + 1),
      strcpyArray_fallback buf (by rw [fallback_length]; omega), ?_, ?_⟩
    · simp only [List.length_append, List.length_cons, List.length_drop, fallback_length]
      omega
    · exact (List.take_of_length_le (by rw [fallback_length]; omega)).symm
  | some host =>
    cases hp : env "DB_PORT" with
    | none =>
      refine ⟨fallbackText, buf.drop (fallbackText.length + 1),
        strcpyArray_fallback buf (by rw [fallback_length]; omega), ?_, ?_⟩
      · simp only [List.length_append, List.length_cons, List.length_drop, fallback_length]
        omega
      · exact (List.take_of_length_le (by rw [fallback_length]; omega)).symm
    | some port =>
      refine ⟨(connText host port).take (buf.length - 1), _,
        snprintf_ok buf (connText host port) hpos, ?_, by rw [h255]⟩
      rw [snprintf_length buf (connText host port) hpos, hlen]

theorem untruncated_set (env : Env) (host port : List Char) (hh : env "DB_HOST" = some host)
    (hp : env "DB_PORT" = some port) : untruncatedText env = connText host port := by
  simp [untruncatedText, hh, hp]

theorem untruncated_unset (env : Env) (hu : env "DB_HOST" = none ∨ env "DB_PORT" = none) :
    untruncatedText env = fallbackText := by
  unfold untruncatedText
  rcases hu with hu | hu
  · rw [hu]
  · rw [hu]
    cases env "DB_HOST" <;> rfl

theorem fixed_run (m : Machine) (junk t rest v : List Char)
    (hfill : fillBuffer m.env (localArray 256 junk) = .ok (t ++ NUL :: rest))
    (hv : stdString (t ++ NUL :: rest) = .ok v) :
    V3Fixed.get_formatted_connection_string m junk = .ok (m, v) := by
  unfold V3Fixed.get_formatted_connection_string
  rw [readLocal_top]
  simp only [hfill, set_top, readLocal_top, hv, take_below_top]

theorem buggy_run (m : Machine) (junk filled : List Char)
    (hfill : fillBuffer m.env (localArray 256 junk) = .ok filled) :
    V3Buggy.get_formatted_connection_string m junk = .ok (m, m.stack.length) := by
  unfold V3Buggy.get_formatted_connection_string
  rw [readLocal_top]
  simp only [hfill, set_top, take_below_top]

theorem some_other_function_ok (m : Machine) (junk : List Char) :
    some_other_function m junk = .ok m := by
  unfold some_other_function
  rw [set_top, take_below_top]

/-- What the fixed function returns, for every environment and every content
of the stack. -/
theorem fixed_value (m : Machine) (junk : List Char) :
    ∃ v filled,
      V3Fixed.get_formatted_connection_string m junk = .ok (m, v) ∧
      fillBuffer m.env (localArray 256 junk) = .ok filled ∧ filled.length = 256 ∧
      List.IsPrefix v ((untruncatedText m.env).take 255) ∧
      (NUL ∉ untruncatedText m.env → v = (untruncatedText m.env).take 255) := by
  obtain ⟨t, rest, hfill, hlen, ht⟩ :=
    fillBuffer_spec m.env (localArray 256 junk) (localArray_length 256 junk)
  obtain ⟨v, hv, hpre⟩ := stdString_prefix t rest
  refine ⟨v, t ++ NUL :: rest, fixed_run m junk t rest v hfill hv, hfill, hlen, ?_, ?_⟩
  · rw [← ht]
    exact hpre
  · intro hn
    have hnt : NUL ∉ t := by
      rw [ht]
      exact fun hmem => hn ((List.take_prefix _ _).subset hmem)
    have := stdString_exact t rest hnt
    rw [hv] at this
    simp only [Except.ok.injEq] at this
    rw [this, ht]

end V3

namespace V3Fixed

open V3

/-- C11. The fixed `get_formatted_connection_string` returns, by value, the
text "postgresql://" + host + ":" + port + "/mydb" when `DB_HOST` and
`DB_PORT` are both set (to C strings) and that text has at most 255
characters, and the text "postgresql://localhost:5432/mydb" when either is
not set. The machine it leaves is the machine it was called in: the
environment, the `ConfigManager` and the stack are unchanged. -/
theorem connection_string_value (m : Machine) (junk : List Char) :
    (∀ host port : List Char, m.env "DB_HOST" = some host → m.env "DB_PORT" = some port →
      NUL ∉ host → NUL ∉ port →
      ("postgresql://".toList ++ host ++ ":".toList ++ port ++ "/mydb".toList).length ≤ 255 →
      ∃ m1 v, get_formatted_connection_string m junk = .ok (m1, v) ∧
        v = "postgresql://".toList ++ host ++ ":".toList ++ port ++ "/mydb".toList ∧
        v.length = host.length + port.length + 19 ∧
        m1.env = m.env ∧ m1.config = m.config ∧ m1.stack = m.stack) ∧
    ((m.env "DB_HOST" = none ∨ m.env "DB_PORT" = none) →
      ∃ m1 v, get_formatted_connection_string m junk = .ok (m1, v) ∧
        v = "postgresql://localhost:5432/mydb".toList ∧
        v.length = 32 ∧
        m1.env = m.env ∧ m1.config = m.config ∧ m1.stack = m.stack) := by
  obtain ⟨v, filled, hrun, _, _, _, hex⟩ := fixed_value m junk
  constructor
  · intro host port hh hp hnh hnp hfit
    have hfit' : (connText host port).length ≤ 255 := hfit
    have hu := untruncated_set m.env host port hh hp
    have hv := hex (by rw [hu]; exact connText_no_nul host port hnh hnp)
    rw [hu, List.take_of_length_le hfit'] at hv
    refine ⟨m, connText host port, by rw [hrun, hv], rfl, ?_, rfl, rfl, rfl⟩
    exact connText_length host port
  · intro hunset
    have hu := untruncated_unset m.env hunset
    have hv := hex (by rw [hu]; exact fallback_no_nul)
    rw [hu, List.take_of_length_le (by rw [fallback_length]; omega)] at hv
    exact ⟨m, fallbackText, by rw [hrun, hv], rfl, fallback_length, rfl, rfl, rfl⟩

theorem connection_string_value_witness :
    demoMachine.env "DB_HOST" = some "db.example.com".toList ∧
    demoMachine.env "DB_PORT" = some "6543".toList ∧
    NUL ∉ "db.example.com".toList ∧ NUL ∉ "6543".toList ∧
    ("postgresql://".toList ++ "db.example.com".toList ++ ":".toList ++ "6543".toList
      ++ "/mydb".toList).length ≤ 255 ∧
    (∃ m1 v, get_formatted_connection_string demoMachine [] = .ok (m1, v) ∧
      v = "postgresql://".toList ++ "db.example.com".toList ++ ":".toList ++ "6543".toList
            ++ "/mydb".toList ∧
      v.length = "db.example.com".toList.length + "6543".toList.length + 19 ∧
      m1.env = demoMachine.env ∧ m1.config = demoMachine.config ∧
      m1.stack = demoMachine.stack) ∧
    (bareMachine.env "DB_HOST" = none ∨ bareMachine.env "DB_PORT" = none) ∧
    (∃ m1 v, get_formatted_connection_string bareMachine [] = .ok (m1, v) ∧
      v = "postgresql://localhost:5432/mydb".toList ∧
      v.length = 32 ∧
      m1.env = bareMachine.env ∧ m1.config = bareMachine.config ∧
      m1.stack = bareMachine.stack) ∧
    "postgresql://".toList ++ "db.example.com".toList ++ ":".toList ++ "6543".toList
      ++ "/mydb".toList = "postgresql://db.example.com:6543/mydb".toList :=
  ⟨by decide, by decide, by decide, by decide, by decide,
    (connection_string_value demoMachine []).1 "db.example.com".toList "6543".toList
      (by decide) (by decide) (by decide) (by decide) (by decide),
    Or.inl rfl,
    (connection_string_value bareMachine []).2 (Or.inl rfl),
    by decide⟩

/-- C17. For every environment and every content of the stack, the fixed
`get_formatted_connection_string` returns a string of at most 255 characters
that is a prefix of the untruncated text, and the 256-character buffer still
has 256 characters after it is filled, so nothing is written past it. When
both variables are set (to C strings) the untruncated text has
`len(host) + len(port) + 19` characters, the string returned is that text
exactly when `len(host) + len(port) ≤ 236`, and is its first 255 characters
otherwise. When a variable is not set the string returned is the fallback
text, of 32 characters. -/
theorem connection_string_bounds (m : Machine) (junk : List Char) :
    ∃ v filled,
      get_formatted_connection_string m junk = .ok (m, v) ∧
      fillBuffer m.env (localArray 256 junk) = .ok filled ∧ filled.length = 256 ∧
      v.length ≤ 255 ∧ List.IsPrefix v (untruncatedText m.env) ∧
      (∀ host port : List Char, m.env "DB_HOST" = some host → m.env "DB_PORT" = some port →
        NUL ∉ host → NUL ∉ port →
        untruncatedText m.env = connText host port ∧
        (connText host port).length = host.length + port.length + 19 ∧
        (v = connText host port ↔ host.length + port.length ≤ 236) ∧
        (236 < host.length + port.length → v = (connText host port).take 255)) ∧
      ((m.env "DB_HOST" = none ∨ m.env "DB_PORT" = none) →
        untruncatedText m.env = fallbackText ∧ v = fallbackText ∧ v.length = 32) := by
  obtain ⟨v, filled, hrun, hfill, hlen, hpre, hex⟩ := fixed_value m junk
  refine ⟨v, filled, hrun, hfill, hlen, ?_, hpre.trans (List.take_prefix _ _), ?_, ?_⟩
  · have := hpre.length_le
    rw [List.length_take] at this
    omega
  · intro host port hh hp hnh hnp
    have hu := untruncated_set m.env host port hh hp
    have hv := hex (by rw [hu]; exact connText_no_nul host port hnh hnp)
    rw [hu] at hv
    have hl := connText_length host port
    refine ⟨hu, hl, ?_, ?_⟩
    · constructor
      · intro hveq
        by_contra hgt
        have h1 : v.length = 255 := by
          rw [hv, List.length_take, hl]
          omega
        rw [hveq, hl] at h1
        omega
      · intro hle
        rw [hv]
        exact List.take_of_length_le (by rw [hl]; omega)
    · intro _
      exact hv
  · intro hunset
    have hu := untruncated_unset m.env hunset
    have hv := hex (by rw [hu]; exact fallback_no_nul)
    rw [hu, List.take_of_length_le (by rw [fallback_length]; omega)] at hv
    exact ⟨hu, hv, by rw [hv, fallback_length]⟩

theorem connection_string_bounds_witness :
    demoMachine.env "DB_HOST" = some "db.example.com".toList ∧
    demoMachine.env "DB_PORT" = some "6543".toList ∧
    NUL ∉ "db.example.com".toList ∧ NUL ∉ "6543".toList ∧
    ∃ v filled,
      get_formatted_connection_string demoMachine [] = .ok (demoMachine, v) ∧
      fillBuffer demoMachine.env (localArray 256 []) = .ok filled ∧ filled.length = 256 ∧
      v.length ≤ 255 ∧ List.IsPrefix v (untruncatedText demoMachine.env) ∧
      (untruncatedText demoMachine.env = connText "db.example.com".toList "6543".toList ∧
        (connText "db.example.com".toList "6543".toList).length
          = "db.example.com".toList.length + "6543".toList.length + 19 ∧
        (v = connText "db.example.com".toList "6543".toList ↔
          "db.example.com".toList.length + "6543".toList.length ≤ 236) ∧
        (236 < "db.example.com".toList.length + "6543".toList.length →
          v = (connText "db.example.com".toList "6543".toList).take 255)) :=
  match connection_string_bounds demoMachine [] with
  | ⟨v, filled, a1, a2, a3, a4, a5, a6, _⟩ =>
    ⟨by decide, by decide, by decide, by decide, v, filled, a1, a2, a3, a4, a5,
      a6 "db.example.com".toList "6543".toList (by decide) (by decide) (by decide)
        (by decide)⟩

end V3Fixed

namespace V3Buggy

open V3

/-- C16. The fixed `get_formatted_connection_string` returns an owned string
and leaves no local array in scope: whatever function the caller calls next
(`some_other_function`, which writes over the stack, included), the string
the caller then reads is the string that was returned. The buggy version
returns the address its local buffer had while in scope; when it has returned
that address is beyond the top of the stack, so a read through it is a use
after return, at once and after any call that returns, and that is how the
statements of the buggy `main` end. -/
theorem no_dangling_view (m : Machine) (junk : List Char) :
    (∃ v, V3Fixed.get_formatted_connection_string m junk = .ok (m, v) ∧
      (∀ (other : Machine → Except Fault Machine) (m' : Machine), other m = .ok m' →
        V3Fixed.mainAfterLoad other m junk = .ok v) ∧
      (∀ junk2 : List Char,
        V3Fixed.mainAfterLoad (fun x => some_other_function x junk2) m junk = .ok v)) ∧
    (∃ filled, fillBuffer m.env (localArray 256 junk) = .ok filled ∧
      readLocal ((m.stack ++ [localArray 256 junk]).set m.stack.length filled) m.stack.length
        = .ok filled ∧
      get_formatted_connection_string m junk = .ok (m, m.stack.length) ∧
      readLocal m.stack m.stack.length = .error Fault.useAfterReturn ∧
      (∀ (other : Machine → Except Fault Machine) (m' : Machine), other m = .ok m' →
        m'.stack.length ≤ m.stack.length →
        mainAfterLoad other m junk = .error Fault.useAfterReturn) ∧
      (∀ junk2 : List Char,
        mainAfterLoad (fun x => some_other_function x junk2) m junk
          = .error Fault.useAfterReturn)) := by
  obtain ⟨v, filled, hrun, hfill, _, _, _⟩ := fixed_value m junk
  have hb := buggy_run m junk filled hfill
  have hwith : ∀ (other : Machine → Except Fault Machine) (m' : Machine), other m = .ok m' →
      m'.stack.length ≤ m.stack.length →
      mainAfterLoad other m junk = .error Fault.useAfterReturn := by
    intro other m' ho hle
    simp only [mainAfterLoad, hb, ho, readLocal_beyond m'.stack m.stack.length hle]
  constructor
  · refine ⟨v, hrun, ?_, ?_⟩
    · intro other m' ho
      simp only [V3Fixed.mainAfterLoad, hrun, ho]
    · intro junk2
      simp only [V3Fixed.mainAfterLoad, hrun, some_other_function_ok]
  · refine ⟨filled, hfill, ?_, hb, readLocal_beyond m.stack m.stack.length (Nat.le_refl _),
      hwith, ?_⟩
    · rw [set_top, readLocal_top]
    · intro junk2
      exact hwith _ m (some_other_function_ok m junk2) (Nat.le_refl _)

theorem no_dangling_view_witness :
    (fun x : Machine => (Except.ok x : Except Fault Machine)) demoMachine = .ok demoMachine ∧
    demoMachine.stack.length ≤ demoMachine.stack.length ∧
    ∃ v, V3Fixed.get_formatted_connection_string demoMachine [] = .ok (demoMachine, v) ∧
      V3Fixed.mainAfterLoad (fun x => .ok x) demoMachine [] = .ok v ∧
      get_formatted_connection_string demoMachine []
        = .ok (demoMachine, demoMachine.stack.length) ∧
      mainAfterLoad (fun x => .ok x) demoMachine [] = .error Fault.useAfterReturn :=
  match no_dangling_view demoMachine [] with
  | ⟨⟨v, a1, a2, _⟩, ⟨_, _, _, b3, _, b5, _⟩⟩ =>
    ⟨rfl, Nat.le_refl _, v, a1, a2 (fun x => .ok x) demoMachine rfl, b3,
      b5 (fun x => .ok x) demoMachine rfl (Nat.le_refl _)⟩

end V3Buggy

end DotenvMem


